import Mathlib

/-!
# light-alarm: device-control state machine of `src/main.cpp`

A shallow embedding of the sunrise-alarm firmware: the global variables of
`main.cpp` become the record `State`, every function and request handler is a
pure function on `State` that also returns the observable events it produces
(BLE writes and serial log lines, in program order), and one iteration of
`loop()` is the function `loop`.

Modelling conventions.
* `unsigned long` is 32 bits wide on the target: stamps are stored reduced
  modulo `2 ^ 32` and differences are taken modulo `2 ^ 32` (`elapsedMs`).
* A handler call or a loop iteration observes one reading `now` of the
  monotonic clock; `millis ()` is `now % 2 ^ 32`.
* The link handle `pChar` is a `Bool` (non-null or null); the outcome of the
  blocking scan and of `getLocalTime` are inputs of the iteration.
* `float` is IEEE 754 binary32 with round-to-nearest-even, modelled exactly on
  integers (section "Single-precision arithmetic of the ramp").
* Request handlers and loop iterations are taken one at a time (`Action`).
-/

namespace LightAlarm

/-! ## Machine integers -/

/-- Width of `unsigned long` on the target, as a modulus. -/
def ULONG_MOD : Nat := 2 ^ 32

/-- The value `millis ()` returns when the monotonic clock reads `now`. -/
def millis (now : Nat) : Nat := now % ULONG_MOD

/-- The C expression `a - b` on two `unsigned long` values. -/
def elapsedMs (a b : Nat) : Nat := (a % ULONG_MOD + ULONG_MOD - b % ULONG_MOD) % ULONG_MOD

/-- Conversion of a `long` to `uint8_t`. -/
def toU8 (v : Int) : Nat := (v % 256).toNat

/-- Conversion of a `long` to `unsigned long`. -/
def toULong (v : Int) : Nat := (v % (2 ^ 32 : Int)).toNat

/-! ## Events and state -/

/-- A frame is the list of bytes handed to `writeValue`. -/
abbrev Frame := List Nat

/-- Observable effects, in program order: BLE writes and serial log lines. -/
inductive Event where
  /-- The call `pChar->writeValue` inside `sendCommand`. -/
  | write (frame : Frame)
  /-- The call `pChar->writeValue` inside the reliable-repeat step of `loop`. -/
  | retransmit (frame : Frame)
  /-- Serial line "[BLE] sendCommand skipped — not connected". -/
  | logSkipped
  /-- Serial line "[BLE] powerOn". -/
  | logPowerOn
  /-- Serial line "[BLE] powerOff". -/
  | logPowerOff
  /-- Serial line "[BLE] setColor r g b". -/
  | logSetColor (r g b : Nat)
  /-- Serial line "[BLE] setColorReliable r g b". -/
  | logSetColorReliable (r g b : Nat)
  /-- Serial line "[RAMP] Starting — duration". -/
  | logRampStarting (duration : Nat)
  /-- Serial line "[BLE] Scanning...". -/
  | logScanning
  /-- Serial line "[RAMP] Began fading from black". -/
  | logBeganFading
  /-- Serial line "[BLE] retry, n left". -/
  | logRetry (left : Int)
  /-- Serial line "[ALARM] Triggered!". -/
  | logAlarmTriggered
  /-- Serial line "[RAMP] Complete". -/
  | logRampComplete
  /-- Serial line "[API] /start duration". -/
  | logApiStart (duration : Nat)
  /-- Serial line "[API] /stop". -/
  | logApiStop
  /-- Serial line "[API] /on r g b". -/
  | logApiOn (r g b : Nat)
  /-- Serial line "[API] /setalarm hh:mm duration enabled". -/
  | logApiSetAlarm (hour minute : Int) (duration : Nat) (enabled : Bool)
  deriving DecidableEq, Repr

/-- The global variables of `main.cpp`. -/
structure State where
  pChar : Bool
  isFading : Bool
  fadeStartTime : Nat
  fadeDuration : Nat
  currentR : Nat
  currentG : Nat
  currentB : Nat
  manualR : Nat
  manualG : Nat
  manualB : Nat
  fadePending : Bool
  fadePendingTime : Nat
  pendingColorSend : Bool
  pendingColorTime : Nat
  repeatCmd : Frame
  repeatCmdLen : Nat
  repeatCount : Int
  lastRepeatTime : Nat
  alarmEnabled : Bool
  alarmHour : Int
  alarmMin : Int
  alarmTriggeredToday : Bool
  lastResetDay : Int
  utcOffsetSeconds : Int
  deriving DecidableEq, Repr

/-- The initial values of the globals. -/
def State.init : State where
  pChar := false
  isFading := false
  fadeStartTime := 0
  fadeDuration := 3600000
  currentR := 0
  currentG := 0
  currentB := 0
  manualR := 255
  manualG := 255
  manualB := 220
  fadePending := false
  fadePendingTime := 0
  pendingColorSend := false
  pendingColorTime := 0
  repeatCmd := [0, 0, 0, 0, 0, 0, 0, 0, 0]
  repeatCmdLen := 0
  repeatCount := 0
  lastRepeatTime := 0
  alarmEnabled := false
  alarmHour := 7
  alarmMin := 0
  alarmTriggeredToday := false
  lastResetDay := -1
  utcOffsetSeconds := -18000

/-- Sunrise ramp hue. -/
def RAMP_R : Nat := 255
/-- Sunrise ramp hue. -/
def RAMP_G : Nat := 60
/-- Sunrise ramp hue. -/
def RAMP_B : Nat := 10

/-! ## Command codec and BLE helpers -/

/-- The array `cmd` built by `powerOn`. -/
def powerOnCmd : Frame := [0x7B, 0xFF, 0x04, 0x03, 0xFF, 0xFF, 0xFF, 0xFF, 0xBF]

/-- The array `cmd` built by `powerOff`. -/
def powerOffCmd : Frame := [0x7B, 0xFF, 0x04, 0x02, 0xFF, 0xFF, 0xFF, 0xFF, 0xBF]

/-- The array `cmd` built by `setColor` and by `setColorReliable`. -/
def colorCmd (r g b : Nat) : Frame := [0x7B, 0xFF, 0x07, r, g, b, 0x00, 0xFF, 0xBF]

/-- Function `sendCommand (cmd, size)`: one write when the handle is non-null, else a log line. -/
def sendCommand (s : State) (cmd : Frame) (size : Nat) : State × List Event :=
  if s.pChar then (s, [Event.write (cmd.take size)])
  else (s, [Event.logSkipped])

/-- Library call `memcpy (dst, src, size)` on byte buffers. -/
def memcpy (dst src : Frame) (size : Nat) : Frame := src.take size ++ dst.drop size

/-- Function `sendReliable (cmd, size)`: send now and arm two retries. -/
def sendReliable (s : State) (cmd : Frame) (size : Nat) (now : Nat) : State × List Event :=
  let r := sendCommand s cmd size
  ({ r.1 with
      repeatCmd := memcpy r.1.repeatCmd cmd size
      repeatCmdLen := size
      repeatCount := 2
      lastRepeatTime := millis now }, r.2)

/-- Function `powerOn ()`. -/
def powerOn (s : State) (now : Nat) : State × List Event :=
  let r := sendReliable s powerOnCmd powerOnCmd.length now
  (r.1, Event.logPowerOn :: r.2)

/-- Function `powerOff ()`. -/
def powerOff (s : State) (now : Nat) : State × List Event :=
  let r := sendReliable s powerOffCmd powerOffCmd.length now
  ({ r.1 with isFading := false, fadePending := false }, Event.logPowerOff :: r.2)

/-- Function `setColor (r, g, b)`: a single, non-retried send. -/
def setColor (s : State) (r g b : Nat) : State × List Event :=
  let x := sendCommand s (colorCmd r g b) (colorCmd r g b).length
  (x.1, Event.logSetColor r g b :: x.2)

/-- Function `setColorReliable (r, g, b)`. -/
def setColorReliable (s : State) (r g b : Nat) (now : Nat) : State × List Event :=
  let x := sendReliable s (colorCmd r g b) (colorCmd r g b).length now
  (x.1, Event.logSetColorReliable r g b :: x.2)

/-- Function `startRamp ()`. -/
def startRamp (s : State) (now : Nat) : State × List Event :=
  let s1 := { s with pendingColorSend := false, isFading := false }
  let r := powerOn s1 now
  ({ r.1 with fadePending := true, fadePendingTime := millis now },
    Event.logRampStarting s.fadeDuration :: r.2)

/-! ## Single-precision arithmetic of the ramp

A finite non-negative binary32 value is an integer multiple of `2 ^ (-149)`;
it is represented by that integer. Rounding is to nearest, ties to even, with
a 24-bit significand; values below `2 ^ (-126)` keep the spacing `2 ^ (-149)`.
All values in the ramp computation are at most `2 ^ 32`, far below overflow,
and the only quotient has a non-zero divisor: the ramp divides by the duration
only when `elapsed < fadeDuration`.
-/

/-- Number of fractional bits of the representation: a unit is `2 ^ (-149)`. -/
def F32_FRAC : Nat := 149

/-- The integer nearest to `a / b`, ties to the even one. -/
def roundNE (a b : Nat) : Nat :=
  let q := a / b
  let r := a % b
  if 2 * r < b then q
  else if b < 2 * r then q + 1
  else if q % 2 = 0 then q else q + 1

/-- Position of the leading bit of `n`, by at most `fuel` halvings. -/
def ilog2Aux : Nat → Nat → Nat
  | 0, _ => 0
  | fuel + 1, n => if n < 2 then 0 else ilog2Aux fuel (n / 2) + 1

/-- Position of the leading bit of `n` (`0` for `n = 0`). -/
def ilog2 (n : Nat) : Nat := ilog2Aux n n

/-- Exponent of the spacing of binary32 values around `a / b` units. -/
def f32Shift (a b : Nat) : Nat := ilog2 (a / b) - 23

/-- The binary32 value nearest to `a / b` units. -/
def f32Round (a b : Nat) : Nat :=
  roundNE a (b * 2 ^ f32Shift a b) * 2 ^ f32Shift a b

/-- Conversion `(float) n` of an unsigned integer. -/
def f32OfNat (n : Nat) : Nat := f32Round (n * 2 ^ F32_FRAC) 1

/-- Single-precision quotient `x / y`. -/
def f32Div (x y : Nat) : Nat := f32Round (x * 2 ^ F32_FRAC) y

/-- Single-precision product `x * y`. -/
def f32Mul (x y : Nat) : Nat := f32Round (x * y) (2 ^ F32_FRAC)

/-- Integer part of a float, the value before the narrowing to 8 bits. -/
def f32Trunc (x : Nat) : Nat := x / 2 ^ F32_FRAC

/-- Conversion `(uint8_t) x` of a float: integer part, kept to 8 bits. -/
def f32ToU8 (x : Nat) : Nat := f32Trunc x % 256

/-- The value `curve` of the ramp: `progress * progress * progress` with
`progress = (float)elapsed / (float)fadeDuration`. -/
def rampCurve (elapsed duration : Nat) : Nat :=
  let progress := f32Div (f32OfNat elapsed) (f32OfNat duration)
  f32Mul (f32Mul progress progress) progress

/-- The float product `RAMP_x * curve` of one channel. -/
def rampScaled (hue elapsed duration : Nat) : Nat :=
  f32Mul (f32OfNat hue) (rampCurve elapsed duration)

/-- One channel `(uint8_t)(RAMP_x * curve)` of the ramp color. -/
def rampChannel (hue elapsed duration : Nat) : Nat :=
  f32ToU8 (rampScaled hue elapsed duration)

/-! ## The loop -/

/-- The fields of `struct tm` the alarm check reads. -/
structure Tm where
  tm_mday : Int
  tm_hour : Int
  tm_min : Int
  deriving DecidableEq, Repr

/-- What one iteration of `loop ()` reads from its environment. -/
structure TickIn where
  /-- Reading of the monotonic clock, in ms. -/
  now : Nat
  /-- Whether the scan, when one runs, leaves a non-null characteristic. -/
  scanFound : Bool
  /-- Result of `getLocalTime`, `none` on failure. -/
  localTime : Option Tm
  deriving DecidableEq, Repr

/-- BLE connection: scan when there is no handle. -/
def connectStep (s : State) (scanFound : Bool) : State × List Event :=
  if s.pChar then (s, [])
  else ({ s with pChar := scanFound }, [Event.logScanning])

/-- Fade startup: 200 ms after `powerOn`, snap to black and begin the ramp. -/
def fadeStartupStep (s : State) (now : Nat) : State × List Event :=
  if s.fadePending && s.pChar && decide (200 < elapsedMs (millis now) s.fadePendingTime) then
    let s1 := { s with fadePending := false, currentR := 0, currentG := 0, currentB := 0 }
    let r := setColor s1 0 0 0
    ({ r.1 with isFading := true, fadeStartTime := millis now }, r.2 ++ [Event.logBeganFading])
  else (s, [])

/-- Reliable repeat: resend the queued command up to 2 more times. -/
def retryStep (s : State) (now : Nat) : State × List Event :=
  if decide (0 < s.repeatCount) && s.pChar
      && decide (120 ≤ elapsedMs (millis now) s.lastRepeatTime) then
    ({ s with repeatCount := s.repeatCount - 1, lastRepeatTime := millis now },
      [Event.retransmit (s.repeatCmd.take s.repeatCmdLen), Event.logRetry (s.repeatCount - 1)])
  else (s, [])

/-- Pending instant-on color send, 150 ms after `powerOn`. -/
def pendingColorStep (s : State) (now : Nat) : State × List Event :=
  if s.pendingColorSend && s.pChar
      && decide (150 < elapsedMs (millis now) s.pendingColorTime) then
    setColorReliable { s with pendingColorSend := false } s.manualR s.manualG s.manualB now
  else (s, [])

/-- First statement of the alarm check: re-arm the latch on a new day of month. -/
def dayReset (s : State) (tm : Tm) : State :=
  if tm.tm_mday ≠ s.lastResetDay then
    { s with alarmTriggeredToday := false, lastResetDay := tm.tm_mday }
  else s

/-- Guard of the alarm check: idle, alarm enabled, link present. -/
def alarmEligible (s : State) : Bool :=
  !s.isFading && !s.fadePending && s.alarmEnabled && s.pChar

/-- Trigger condition of the alarm check: configured hour and minute, latch clear. -/
def alarmDue (s : State) (tm : Tm) : Bool :=
  decide (tm.tm_hour = s.alarmHour) && decide (tm.tm_min = s.alarmMin)
    && !s.alarmTriggeredToday

/-- Alarm check. -/
def alarmStep (s : State) (now : Nat) (localTime : Option Tm) : State × List Event :=
  if alarmEligible s then
    match localTime with
    | none => (s, [])
    | some tm =>
      let s1 := dayReset s tm
      if alarmDue s1 tm then
        let r := startRamp { s1 with alarmTriggeredToday := true } now
        (r.1, Event.logAlarmTriggered :: r.2)
      else (s1, [])
  else (s, [])

/-- Sunrise ramp. -/
def rampStep (s : State) (now : Nat) : State × List Event :=
  if s.isFading && s.pChar then
    let elapsed := elapsedMs (millis now) s.fadeStartTime
    if s.fadeDuration ≤ elapsed then
      let r := setColor s RAMP_R RAMP_G RAMP_B
      ({ r.1 with isFading := false }, r.2 ++ [Event.logRampComplete])
    else
      let newR := rampChannel RAMP_R elapsed s.fadeDuration
      let newG := rampChannel RAMP_G elapsed s.fadeDuration
      let newB := rampChannel RAMP_B elapsed s.fadeDuration
      if newR ≠ s.currentR ∨ newG ≠ s.currentG ∨ newB ≠ s.currentB then
        setColor { s with currentR := newR, currentG := newG, currentB := newB } newR newG newB
      else (s, [])
  else (s, [])

/-- One iteration of `loop ()`: the six steps in source order. -/
def loop (s : State) (i : TickIn) : State × List Event :=
  let r1 := connectStep s i.scanFound
  let r2 := fadeStartupStep r1.1 i.now
  let r3 := retryStep r2.1 i.now
  let r4 := pendingColorStep r3.1 i.now
  let r5 := alarmStep r4.1 i.now i.localTime
  let r6 := rampStep r5.1 i.now
  (r6.1, r1.2 ++ r2.2 ++ r3.2 ++ r4.2 ++ r5.2 ++ r6.2)

/-! ## Request handlers -/

/-- Handler of `/start?time=`; the parameter is the value `toInt ()` returns. -/
def handleStart (s : State) (time : Option Int) (now : Nat) : State × List Event :=
  let s1 := match time with
    | some v => { s with fadeDuration := toULong v }
    | none => s
  let r := startRamp s1 now
  (r.1, Event.logApiStart s1.fadeDuration :: r.2)

/-- Handler of `/stop`. -/
def handleStop (s : State) (now : Nat) : State × List Event :=
  let r := powerOff { s with pendingColorSend := false } now
  (r.1, Event.logApiStop :: r.2)

/-- The three conditional assignments to the manual color at the head of `/on`. -/
def setManual (s : State) (r g b : Option Int) : State :=
  let s1 := match r with
    | some v => { s with manualR := toU8 v }
    | none => s
  let s2 := match g with
    | some v => { s1 with manualG := toU8 v }
    | none => s1
  match b with
  | some v => { s2 with manualB := toU8 v }
  | none => s2

/-- Handler of `/on?r=&g=&b=`. -/
def handleOn (s : State) (r g b : Option Int) (now : Nat) : State × List Event :=
  let s3 := setManual s r g b
  let x := powerOn { s3 with isFading := false, fadePending := false } now
  ({ x.1 with pendingColorSend := true, pendingColorTime := millis now },
    Event.logApiOn s3.manualR s3.manualG s3.manualB :: x.2)

/-- Parameters of `/setalarm`, each the value `toInt ()` returns when present. -/
structure AlarmParams where
  hour : Option Int
  min : Option Int
  duration : Option Int
  enabled : Option Int
  utcoffset : Option Int
  deriving DecidableEq, Repr

/-- Handler of `/setalarm?hour=&min=&duration=&enabled=&utcoffset=`. -/
def handleSetAlarm (s : State) (p : AlarmParams) : State × List Event :=
  let s1 := match p.hour with
    | some v => { s with alarmHour := v }
    | none => s
  let s2 := match p.min with
    | some v => { s1 with alarmMin := v }
    | none => s1
  let s3 := match p.duration with
    | some v => { s2 with fadeDuration := toULong v }
    | none => s2
  let s4 := match p.enabled with
    | some v => { s3 with alarmEnabled := decide (v = 1) }
    | none => s3
  let s5 := match p.utcoffset with
    | some v => { s4 with utcOffsetSeconds := v }
    | none => s4
  ({ s5 with alarmTriggeredToday := false },
    [Event.logApiSetAlarm s5.alarmHour s5.alarmMin s5.fadeDuration s5.alarmEnabled])

/-! ## Runs -/

/-- Iterations of `loop ()` on successive inputs; every event is paired with
the clock reading of the iteration that produced it. -/
def runLoop : State → List TickIn → State × List (Nat × Event)
  | s, [] => (s, [])
  | s, i :: is =>
    let r := loop s i
    let rest := runLoop r.1 is
    (rest.1, r.2.map (fun e => (i.now, e)) ++ rest.2)

/-- The BLE writes among a list of events, whichever call site made them. -/
def transmitted : List Event → List Frame
  | [] => []
  | Event.write f :: es => f :: transmitted es
  | Event.retransmit f :: es => f :: transmitted es
  | _ :: es => transmitted es

/-! ## Reading a trace -/

/-- Log lines of the three callers of `sendReliable`: a reliable command is issued. -/
def issuesReliable : Event → Bool
  | Event.logPowerOn => true
  | Event.logPowerOff => true
  | Event.logSetColorReliable _ _ _ => true
  | _ => false

/-- The frame of an event of the reliable-repeat step, if it is one. -/
def resentFrame : Event → Option Frame
  | Event.retransmit f => some f
  | _ => none

/-- The frame of a write made by `sendCommand`, if the event is one. -/
def writtenFrame : Event → Option Frame
  | Event.write f => some f
  | _ => none

/-- The retransmissions of a timed trace, each with the time of its iteration. -/
def retransmissions (tr : List (Nat × Event)) : List (Nat × Frame) :=
  tr.filterMap (fun x => (resentFrame x.2).map (fun f => (x.1, f)))

/-- No reliable command is issued anywhere in a timed trace. -/
def NoReliableIssue (tr : List (Nat × Event)) : Prop :=
  ∀ x ∈ tr, issuesReliable x.2 = false

/-- No command at all is sent through `sendCommand` in a timed trace. -/
def NoWrite (tr : List (Nat × Event)) : Prop :=
  ∀ x ∈ tr, writtenFrame x.2 = none

instance (tr : List (Nat × Event)) : Decidable (NoReliableIssue tr) := by
  unfold NoReliableIssue
  infer_instance

instance (tr : List (Nat × Event)) : Decidable (NoWrite tr) := by
  unfold NoWrite
  infer_instance

/-- The frame the reliable-repeat step would send: the first `repeatCmdLen`
bytes of the buffer `repeatCmd`. -/
def State.pendingFrame (s : State) : Frame := s.repeatCmd.take s.repeatCmdLen

/-- Two states agree on the link handle and on the pending-retry record. -/
def SameRetry (s t : State) : Prop :=
  t.pChar = s.pChar ∧ t.repeatCmd = s.repeatCmd ∧ t.repeatCmdLen = s.repeatCmdLen ∧
    t.repeatCount = s.repeatCount ∧ t.lastRepeatTime = s.lastRepeatTime

/-! ## Concrete states and runs used as witnesses -/

/-- The initial state once a link has been acquired. -/
def linkedInit : State := { State.init with pChar := true }

/-- A linked state with a `powerOff` retry pending, one attempt left. -/
def pendingOffState : State :=
  { State.init with
    pChar := true
    repeatCmd := powerOffCmd
    repeatCmdLen := 9
    repeatCount := 1
    lastRepeatTime := 4950 }

/-- An iteration at time `now` in which the wall clock cannot be read. -/
def tickAt (now : Nat) : TickIn := ⟨now, false, none⟩

/-! ## Interleavings of the loop with the request handlers -/

/-- One thing that happens to the device state: an iteration of `loop ()` or
one of the four state-changing requests. -/
inductive Action where
  | tick (i : TickIn)
  | start (time : Option Int) (now : Nat)
  | stop (now : Nat)
  | instantOn (r g b : Option Int) (now : Nat)
  | setAlarm (p : AlarmParams)
  deriving DecidableEq, Repr

/-- Effect of one action. -/
def step (s : State) : Action → State × List Event
  | Action.tick i => loop s i
  | Action.start time now => handleStart s time now
  | Action.stop now => handleStop s now
  | Action.instantOn r g b now => handleOn s r g b now
  | Action.setAlarm p => handleSetAlarm s p

/-- Effect of a sequence of actions, with the events of all of them in order. -/
def runActions : State → List Action → State × List Event
  | s, [] => (s, [])
  | s, a :: as =>
    let r := step s a
    let rest := runActions r.1 as
    (rest.1, r.2 ++ rest.2)

/-- The action is not a reconfiguration of the alarm. -/
def Action.keepsAlarm : Action → Bool
  | Action.setAlarm _ => false
  | _ => true

/-- Every readable wall-clock time of the action has day of month `d`. -/
def Action.onDay (d : Int) : Action → Bool
  | Action.tick i =>
    match i.localTime with
    | some tm => decide (tm.tm_mday = d)
    | none => true
  | _ => true

/-- Number of times the alarm check triggered, by its log line. -/
def alarmTriggers (es : List Event) : Nat := es.count Event.logAlarmTriggered

/-- Two states agree on the once-per-day latch and its day stamp. -/
def SameLatch (s t : State) : Prop :=
  t.alarmTriggeredToday = s.alarmTriggeredToday ∧ t.lastResetDay = s.lastResetDay

/-- An iteration at time `now` whose wall clock reads day `d`, `h:m`. -/
def tickClock (now : Nat) (d h m : Int) : TickIn := ⟨now, false, some ⟨d, h, m⟩⟩

/-- Linked, alarm enabled at 07:00, with a one-second ramp. -/
def alarmArmed : State := { linkedInit with alarmEnabled := true, fadeDuration := 1000 }

/-- Day 5: five iterations that all read 07:00; the ramp started by the first
one has completed before the last two. -/
def alarmDayRun : List Action :=
  [Action.tick (tickClock 10000 5 7 0), Action.tick (tickClock 10300 5 7 0),
    Action.tick (tickClock 11400 5 7 0), Action.tick (tickClock 11500 5 7 0),
    Action.tick (tickClock 11600 5 7 0)]

/-- Request `/setalarm?hour=7&min=1`. -/
def setAlarm0701 : AlarmParams := ⟨some 7, some 1, none, none, none⟩

/-! ## Progress of a ramp -/

/-- The state with the ramp start time and the current color replaced. -/
def overrideRamp (u : State) (x c1 c2 c3 : Nat) : State :=
  { u with fadeStartTime := x, currentR := c1, currentG := c2, currentB := c3 }

/-- Two states that are equal, or that are both not fading and differ at most
in the ramp start time and the current color. -/
def RampEq (u v : State) : Prop :=
  v = u ∨ (u.isFading = false ∧ ∃ x c1 c2 c3, v = overrideRamp u x c1 c2 c3)

/-- Two states agree on the link handle and on everything the ramp step reads. -/
def SameRamp (s t : State) : Prop :=
  t.pChar = s.pChar ∧ t.isFading = s.isFading ∧ t.fadeStartTime = s.fadeStartTime ∧
    t.fadeDuration = s.fadeDuration ∧ t.currentR = s.currentR ∧ t.currentG = s.currentG ∧
    t.currentB = s.currentB

/-- A linked state in the middle of a ramp that began at 500 ms. -/
def fadingState : State :=
  { linkedInit with
    isFading := true
    fadeStartTime := 500
    currentR := 100
    currentG := 20
    currentB := 3 }

/-! ## The ramp color in exact arithmetic -/

/-- One channel of the ramp color as the specification states it:
`floor (hue * (elapsed / duration) ^ 3)`, in exact arithmetic. -/
def specChannel (hue elapsed duration : Nat) : Nat := hue * elapsed ^ 3 / duration ^ 3

/-- The factor `1 - 2 ^ (-24)`: one rounding to binary32 loses at most this. -/
def relU : ℚ := 1 - 1 / 2 ^ 24

/-- The values `x` and `y` agree up to `k` roundings: each is at least the other
times `relU ^ k`. -/
def Near (k : Nat) (x y : ℚ) : Prop := x * relU ^ k ≤ y ∧ y * relU ^ k ≤ x

/-- Half-way through the default one-hour ramp that began at 0 ms. -/
def rampRunning : State := { linkedInit with isFading := true }

/-- A ramp of `2 ^ 25` ms that began at 0 ms. -/
def rampLong : State := { linkedInit with isFading := true, fadeDuration := 33554432 }

/-- A linked, fading state whose ramp has duration 0. -/
def rampZero : State := { linkedInit with isFading := true, fadeDuration := 0, currentR := 7 }

/-- Four iterations at 1050, 1120, 1300 and 1500 ms. -/
def retryRun : List TickIn := [tickAt 1050, tickAt 1120, tickAt 1300, tickAt 1500]

/-- A linked state awaiting wake since 1000 ms: `startRamp` was called then. -/
def awaitingWake : State := (startRamp linkedInit 1000).1

/-- Invariant of the iterations that follow an instant-on issued at time `t`,
up to time `now`: linked, not fading, the pending retry holds `PowerOn`, a
pending color send dates from `t`, and a pending wake dates from `t` or later. -/
def EarlyInv (t now : Nat) (u : State) : Prop :=
  u.pChar = true ∧ u.isFading = false ∧ u.pendingFrame = powerOnCmd ∧
  (u.pendingColorSend = true → u.pendingColorTime = millis t) ∧
  (u.fadePending = true → ∃ t1, t ≤ t1 ∧ t1 ≤ now ∧ u.fadePendingTime = millis t1)

/-- The event transmits nothing but the `PowerOn` frame. -/
def OnlyPowerOn (e : Event) : Prop :=
  ∀ f, (writtenFrame e = some f ∨ resentFrame e = some f) → f = powerOnCmd

/-- The instant-on is still pending since time `t`, with color `(r, g, b)`. -/
def InstantPending (t r g b : Nat) (u : State) : Prop :=
  u.pChar = true ∧ u.isFading = false ∧ u.fadePending = false ∧
  u.pendingColorSend = true ∧ u.pendingColorTime = millis t ∧
  u.manualR = r ∧ u.manualG = g ∧ u.manualB = b

/-- The state right after `/on?r=255&g=255&b=220` at 1000 ms on a linked device. -/
def instantOnState : State := (handleOn linkedInit (some 255) (some 255) (some 220) 1000).1

/-- After `/stop`: no ramp, no pending wake, no pending color send, and the
pending retry holds `PowerOff`. -/
def Stopped (u : State) : Prop :=
  u.isFading = false ∧ u.fadePending = false ∧ u.pendingColorSend = false ∧
  u.pendingFrame = powerOffCmd

/-- The event is no `sendCommand` write, and if it retransmits, it retransmits
`PowerOff`. -/
def OnlyPowerOffRetry (e : Event) : Prop :=
  writtenFrame e = none ∧ ∀ f, resentFrame e = some f → f = powerOffCmd

/-- An iteration at time `now` whose scan acquires the link; the wall clock
cannot be read. -/
def tickLinking (now : Nat) : TickIn := ⟨now, true, none⟩

/-- How many of the three flags `isFading`, `fadePending`, `pendingColorSend`
are set. -/
def flagCount (u : State) : Nat :=
  u.isFading.toNat + u.fadePending.toNat + u.pendingColorSend.toNat

/-- An interleaving that passes through all three pending states: `/on`, an
alarm reconfiguration, `/start`, the wake-up, `/on` during the ramp, `/stop`. -/
def mixedRun : List Action :=
  [Action.tick (tickLinking 100), Action.instantOn (some 10) none none 200,
    Action.setAlarm setAlarm0701, Action.tick (tickAt 300), Action.start (some 5000) 320,
    Action.tick (tickAt 600), Action.tick (tickAt 700), Action.instantOn none none none 800,
    Action.tick (tickAt 1000), Action.stop 1100]

/-- The event is neither the alarm trigger nor the start of a ramp. -/
def NoRampStart (e : Event) : Prop :=
  e ≠ Event.logAlarmTriggered ∧ ∀ d, e ≠ Event.logRampStarting d

/-- Iterations and requests on one day, all reading 07:00, the configured time. -/
def disabledRun : List Action :=
  [Action.tick (tickClock 10000 5 7 0), Action.instantOn none none none 10100,
    Action.tick (tickClock 10300 5 7 0), Action.stop 10400,
    Action.tick (tickClock 10500 5 7 0)]

/-- The locals `newR`, `newG`, `newB` of the ramp step at clock reading `now`. -/
def newColor (s : State) (now : Nat) : Nat × Nat × Nat :=
  (rampChannel RAMP_R (elapsedMs (millis now) s.fadeStartTime) s.fadeDuration,
    rampChannel RAMP_G (elapsedMs (millis now) s.fadeStartTime) s.fadeDuration,
    rampChannel RAMP_B (elapsedMs (millis now) s.fadeStartTime) s.fadeDuration)

/-- The test `newR != currentR || newG != currentG || newB != currentB`. -/
def colorChanged (s : State) (now : Nat) : Prop :=
  (newColor s now).1 ≠ s.currentR ∨ (newColor s now).2.1 ≠ s.currentG ∨
    (newColor s now).2.2 ≠ s.currentB

instance (s : State) (now : Nat) : Decidable (colorChanged s now) := by
  unfold colorChanged
  infer_instance

/-- Half-way through the default ramp, with the color of that moment already current. -/
def rampSteady : State := { rampRunning with currentR := 31, currentG := 7, currentB := 1 }

/-- The color the ramp computes at elapsed time `e` of a ramp of duration `d`. -/
def colorAt (e d : Nat) : Nat × Nat × Nat :=
  (rampChannel RAMP_R e d, rampChannel RAMP_G e d, rampChannel RAMP_B e d)

/-- Component-wise order on colors. -/
def colorLe (a b : Nat × Nat × Nat) : Prop := a.1 ≤ b.1 ∧ a.2.1 ≤ b.2.1 ∧ a.2.2 ≤ b.2.2

instance (a b : Nat × Nat × Nat) : Decidable (colorLe a b) := by
  unfold colorLe
  infer_instance

/-- The frames written through `sendCommand` in a timed trace, in order. -/
def writtenFrames (tr : List (Nat × Event)) : List Frame :=
  tr.filterMap (fun x => writtenFrame x.2)

/-- A ramp in progress: linked, fading since clock reading `t0` with duration
`d`, no wake and no color send pending. -/
def Ramping (t0 d : Nat) (u : State) : Prop :=
  u.pChar = true ∧ u.isFading = true ∧ u.fadePending = false ∧ u.pendingColorSend = false ∧
  u.fadeStartTime = millis t0 ∧ u.fadeDuration = d

/-- Bounds on the pending-retry record: the counter is 0, 1 or 2, the stored
length is 0 or 9, the buffer has its 9 bytes, and a positive counter comes
with a stored length of 9. -/
def RetryOk (u : State) : Prop :=
  (u.repeatCount = 0 ∨ u.repeatCount = 1 ∨ u.repeatCount = 2) ∧
  (u.repeatCmdLen = 0 ∨ u.repeatCmdLen = 9) ∧ u.repeatCmd.length = 9 ∧
  (0 < u.repeatCount → u.repeatCmdLen = 9)

/-- A retransmission carries a complete 9-byte frame. -/
def ResendsWhole (e : Event) : Prop := ∀ f, resentFrame e = some f → f.length = 9

/-- A linked state whose `PowerOff` retry was armed 50 ms before the 32-bit
clock wraps, and whose ramp, wake and color send were stamped at that time. -/
def wrapState : State :=
  { linkedInit with
    repeatCmd := powerOffCmd
    repeatCmdLen := 9
    repeatCount := 2
    lastRepeatTime := 4294967246
    pendingColorSend := true
    pendingColorTime := 4294967246
    fadePendingTime := 4294967246
    fadeStartTime := 4294967246 }

/-- The state right after `/on?r=255&g=255&b=220` at 1000 ms on a linked
device whose alarm is enabled and set to 07:00. -/
def instantOnArmed : State := (handleOn alarmArmed (some 255) (some 255) (some 220) 1000).1

/-! # Theorems -/

/-! ## Command codec -/

/-- C1: the frames built by `powerOn`, `powerOff`, `setColor` and
`setColorReliable` are the 9-byte wire frames of the contract: with a link
present each of the four functions writes exactly its frame, and every frame
has length 9, starts with `0x7B, 0xFF` and ends with `0xBF`. -/
theorem C1_codec_bit_exact :
    powerOnCmd = [0x7B, 0xFF, 0x04, 0x03, 0xFF, 0xFF, 0xFF, 0xFF, 0xBF] ∧
    powerOffCmd = [0x7B, 0xFF, 0x04, 0x02, 0xFF, 0xFF, 0xFF, 0xFF, 0xBF] ∧
    (∀ (s : State) (now : Nat), s.pChar = true →
      transmitted (powerOn s now).2 = [[0x7B, 0xFF, 0x04, 0x03, 0xFF, 0xFF, 0xFF, 0xFF, 0xBF]] ∧
      transmitted (powerOff s now).2 = [[0x7B, 0xFF, 0x04, 0x02, 0xFF, 0xFF, 0xFF, 0xFF, 0xBF]]) ∧
    (∀ (s : State) (now r g b : Nat), r ≤ 255 → g ≤ 255 → b ≤ 255 → s.pChar = true →
      transmitted (setColor s r g b).2 = [[0x7B, 0xFF, 0x07, r, g, b, 0x00, 0xFF, 0xBF]] ∧
      transmitted (setColorReliable s r g b now).2
        = [[0x7B, 0xFF, 0x07, r, g, b, 0x00, 0xFF, 0xBF]]) ∧
    (∀ f : Frame, (f = powerOnCmd ∨ f = powerOffCmd ∨ ∃ r g b : Nat, f = colorCmd r g b) →
      f.length = 9 ∧ f.take 2 = [0x7B, 0xFF] ∧ f.getLast? = some 0xBF) := by
  refine ⟨rfl, rfl, ?_, ?_, ?_⟩
  · intro s now h
    simp [powerOn, powerOff, sendReliable, sendCommand, h, transmitted, powerOnCmd, powerOffCmd]
  · intro s now r g b _ _ _ h
    simp [setColor, setColorReliable, sendReliable, sendCommand, h, transmitted, colorCmd]
  · rintro f (rfl | rfl | ⟨r, g, b, rfl⟩) <;> simp [powerOnCmd, powerOffCmd, colorCmd]

/-- C1 at the linked initial state and the ramp hue. -/
theorem C1_codec_bit_exact_witness :
    255 ≤ 255 ∧ 60 ≤ 255 ∧ 10 ≤ 255 ∧ linkedInit.pChar = true ∧
    transmitted (setColor linkedInit 255 60 10).2
      = [[0x7B, 0xFF, 0x07, 255, 60, 10, 0x00, 0xFF, 0xBF]] ∧
    transmitted (setColorReliable linkedInit 255 60 10 0).2
      = [[0x7B, 0xFF, 0x07, 255, 60, 10, 0x00, 0xFF, 0xBF]] :=
  ⟨by decide, by decide, by decide, rfl,
    C1_codec_bit_exact.2.2.2.1 linkedInit 0 255 60 10 (by decide) (by decide) (by decide) rfl⟩

/-! ## Clock arithmetic -/

theorem millis_lt (now : Nat) : millis now < ULONG_MOD := by
  unfold millis ULONG_MOD
  exact Nat.mod_lt _ (by norm_num)

theorem millis_of_lt (t : Nat) (h : t < ULONG_MOD) : millis t = t := by
  unfold millis
  exact Nat.mod_eq_of_lt h

theorem elapsedMs_millis (t now : Nat) (h : t ≤ now) :
    elapsedMs (millis now) (millis t) = (now - t) % ULONG_MOD := by
  unfold elapsedMs millis ULONG_MOD
  omega

theorem elapsedMs_millis_le (t now : Nat) (h : t ≤ now) :
    elapsedMs (millis now) (millis t) ≤ now - t := by
  rw [elapsedMs_millis t now h]
  exact Nat.mod_le _ _

theorem elapsedMs_millis_eq (t now : Nat) (h : t ≤ now) (hlt : now < t + ULONG_MOD) :
    elapsedMs (millis now) (millis t) = now - t := by
  rw [elapsedMs_millis t now h]
  apply Nat.mod_eq_of_lt
  omega

/-! ## Effect of each step on the pending-retry record -/

theorem sameRetry_refl (s : State) : SameRetry s s := ⟨rfl, rfl, rfl, rfl, rfl⟩

theorem sameRetry_trans {s t u : State} (h1 : SameRetry s t) (h2 : SameRetry t u) :
    SameRetry s u := by
  obtain ⟨a1, a2, a3, a4, a5⟩ := h1
  obtain ⟨b1, b2, b3, b4, b5⟩ := h2
  exact ⟨b1.trans a1, b2.trans a2, b3.trans a3, b4.trans a4, b5.trans a5⟩

theorem connectStep_linked (s : State) (b : Bool) (hp : s.pChar = true) :
    connectStep s b = (s, []) := by
  simp [connectStep, hp]

theorem fadeStartupStep_sameRetry (s : State) (now : Nat) :
    SameRetry s (fadeStartupStep s now).1 ∧
      (∀ e ∈ (fadeStartupStep s now).2, resentFrame e = none ∧ issuesReliable e = false) := by
  unfold fadeStartupStep
  split
  · simp [SameRetry, setColor, sendCommand]
    split <;> simp [resentFrame, issuesReliable]
  · simp [SameRetry]

theorem rampStep_sameRetry (s : State) (now : Nat) :
    SameRetry s (rampStep s now).1 ∧
      (∀ e ∈ (rampStep s now).2, resentFrame e = none ∧ issuesReliable e = false) := by
  unfold rampStep
  split
  · simp only []
    split
    · simp [SameRetry, setColor, sendCommand]
      split <;> simp [resentFrame, issuesReliable]
    · split
      · simp [SameRetry, setColor, sendCommand]
        split <;> simp [resentFrame, issuesReliable]
      · simp [SameRetry]
  · simp [SameRetry]

theorem pendingColorStep_quiet (s : State) (now : Nat)
    (h : ∀ e ∈ (pendingColorStep s now).2, issuesReliable e = false) :
    pendingColorStep s now = (s, []) := by
  unfold pendingColorStep at h ⊢
  split
  · rename_i hc
    simp [hc, setColorReliable, issuesReliable] at h
  · rfl

theorem dayReset_sameRetry (s : State) (tm : Tm) : SameRetry s (dayReset s tm) := by
  unfold dayReset
  split <;> simp [SameRetry]

theorem alarmStep_quiet (s : State) (now : Nat) (lt : Option Tm)
    (h : ∀ e ∈ (alarmStep s now lt).2, issuesReliable e = false) :
    SameRetry s (alarmStep s now lt).1 ∧ (alarmStep s now lt).2 = [] := by
  unfold alarmStep at h ⊢
  by_cases he : alarmEligible s = true
  · simp only [he, if_true] at h ⊢
    cases lt with
    | none => exact ⟨sameRetry_refl s, rfl⟩
    | some tm =>
      simp only [] at h ⊢
      by_cases hdue : alarmDue (dayReset s tm) tm = true
      · simp only [hdue, if_true] at h
        have h1 := h Event.logPowerOn (by simp [startRamp, powerOn])
        simp [issuesReliable] at h1
      · simp only [hdue]
        exact ⟨dayReset_sameRetry s tm, rfl⟩
  · simp only [he]
    exact ⟨sameRetry_refl s, rfl⟩

theorem retryStep_congr {s t : State} (h : SameRetry s t) (now : Nat) :
    SameRetry (retryStep s now).1 (retryStep t now).1 ∧
      (retryStep t now).2 = (retryStep s now).2 := by
  obtain ⟨h1, h2, h3, h4, h5⟩ := h
  unfold retryStep SameRetry
  rw [h1, h2, h3, h4, h5]
  split <;> simp [h1, h2, h3, h4, h5]

theorem retryStep_not_reliable (s : State) (now : Nat) :
    ∀ e ∈ (retryStep s now).2, issuesReliable e = false := by
  unfold retryStep
  split <;> simp [issuesReliable]

/-- With a link and no reliable command issued in the iteration, `loop` acts
on the pending-retry record exactly as its reliable-repeat step alone. -/
theorem loop_retry (s : State) (i : TickIn) (hp : s.pChar = true)
    (hq : ∀ e ∈ (loop s i).2, issuesReliable e = false) :
    SameRetry (retryStep s i.now).1 (loop s i).1 ∧
      (loop s i).2.filterMap resentFrame = (retryStep s i.now).2.filterMap resentFrame := by
  unfold loop at hq ⊢
  simp only [connectStep_linked s i.scanFound hp, List.nil_append] at hq ⊢
  obtain ⟨f1, f2⟩ := fadeStartupStep_sameRetry s i.now
  obtain ⟨g1, g2⟩ := retryStep_congr f1 i.now
  generalize fadeStartupStep s i.now = r2 at *
  generalize retryStep r2.1 i.now = r3 at *
  have hpc : pendingColorStep r3.1 i.now = (r3.1, []) :=
    pendingColorStep_quiet r3.1 i.now (fun e he => hq e (by simp [he]))
  rw [hpc] at hq ⊢
  simp only [List.append_nil] at hq ⊢
  obtain ⟨a1, a2⟩ := alarmStep_quiet r3.1 i.now i.localTime (fun e he => hq e (by simp [he]))
  generalize alarmStep r3.1 i.now i.localTime = r5 at *
  obtain ⟨m1, m2⟩ := rampStep_sameRetry r5.1 i.now
  generalize rampStep r5.1 i.now = r6 at *
  refine ⟨sameRetry_trans (sameRetry_trans g1 a1) m1, ?_⟩
  have e2 : r2.2.filterMap resentFrame = [] := by
    rw [List.filterMap_eq_nil_iff]
    exact fun e he => (f2 e he).1
  have e6 : r6.2.filterMap resentFrame = [] := by
    rw [List.filterMap_eq_nil_iff]
    exact fun e he => (m2 e he).1
  simp [List.filterMap_append, e2, e6, g2, a2]

theorem loop_retry_cases (s : State) (i : TickIn) (hp : s.pChar = true)
    (hq : ∀ e ∈ (loop s i).2, issuesReliable e = false) :
    (0 < s.repeatCount ∧ 120 ≤ elapsedMs (millis i.now) s.lastRepeatTime ∧
      (loop s i).1.repeatCount = s.repeatCount - 1 ∧
      (loop s i).1.lastRepeatTime = millis i.now ∧ (loop s i).1.pChar = true ∧
      (loop s i).1.pendingFrame = s.pendingFrame ∧
      (loop s i).2.filterMap resentFrame = [s.pendingFrame]) ∨
    (¬ (0 < s.repeatCount ∧ 120 ≤ elapsedMs (millis i.now) s.lastRepeatTime) ∧
      (loop s i).1.repeatCount = s.repeatCount ∧
      (loop s i).1.lastRepeatTime = s.lastRepeatTime ∧ (loop s i).1.pChar = true ∧
      (loop s i).1.pendingFrame = s.pendingFrame ∧
      (loop s i).2.filterMap resentFrame = []) := by
  obtain ⟨⟨h1, h2, h3, h4, h5⟩, he⟩ := loop_retry s i hp hq
  generalize loop s i = r at *
  unfold State.pendingFrame
  rw [he, h1, h2, h3, h4, h5]
  by_cases hc : 0 < s.repeatCount ∧ 120 ≤ elapsedMs (millis i.now) s.lastRepeatTime
  · left
    obtain ⟨c1, c2⟩ := hc
    simp [retryStep, hp, c1, c2, resentFrame]
  · right
    have hc2 : ¬ (0 < s.repeatCount ∧ s.pChar = true ∧
        120 ≤ elapsedMs (millis i.now) s.lastRepeatTime) := fun h => hc ⟨h.1, h.2.2⟩
    refine ⟨hc, ?_⟩
    simp [retryStep, hp]
    by_cases c1 : 0 < s.repeatCount
    · have c2 : ¬ 120 ≤ elapsedMs (millis i.now) s.lastRepeatTime := fun h => hc ⟨c1, h⟩
      simp [c1, c2, hp]
    · simp [c1, hp]

theorem runLoop_append (s : State) (xs ys : List TickIn) :
    runLoop s (xs ++ ys) =
      ((runLoop (runLoop s xs).1 ys).1, (runLoop s xs).2 ++ (runLoop (runLoop s xs).1 ys).2) := by
  induction xs generalizing s with
  | nil => simp [runLoop]
  | cons i is ih => simp [runLoop, ih]

theorem retransmissions_append (a b : List (Nat × Event)) :
    retransmissions (a ++ b) = retransmissions a ++ retransmissions b := by
  simp [retransmissions, List.filterMap_append]

theorem retransmissions_tick (now : Nat) (es : List Event) :
    retransmissions (es.map (fun e => (now, e)))
      = (es.filterMap resentFrame).map (fun f => (now, f)) := by
  induction es with
  | nil => rfl
  | cons e es ih =>
    simp only [retransmissions] at ih
    cases h : resentFrame e <;>
      simp [retransmissions, List.filterMap_cons, h, ih]

theorem NoReliableIssue_append (a b : List (Nat × Event)) :
    NoReliableIssue (a ++ b) ↔ NoReliableIssue a ∧ NoReliableIssue b := by
  unfold NoReliableIssue
  simp only [List.mem_append]
  constructor
  · intro h
    exact ⟨fun x hx => h x (Or.inl hx), fun x hx => h x (Or.inr hx)⟩
  · rintro ⟨h1, h2⟩ x (hx | hx)
    · exact h1 x hx
    · exact h2 x hx

theorem NoReliableIssue_tick (now : Nat) (es : List Event)
    (h : NoReliableIssue (es.map (fun e => (now, e)))) :
    ∀ e ∈ es, issuesReliable e = false := by
  intro e he
  exact h (now, e) (List.mem_map.mpr ⟨e, he, rfl⟩)

/-- Invariant of a run in which no reliable command is issued: the pending
frame is kept, every retransmission carries it, the retransmissions consume
the counter, and each comes at least 120 ms after the previous stamp. -/
theorem run_retry_inv (f : Frame) : ∀ (ticks : List TickIn) (s : State) (t : Nat),
    s.pChar = true → s.pendingFrame = f → s.lastRepeatTime = millis t → 0 ≤ s.repeatCount →
    List.Pairwise (· ≤ ·) (t :: ticks.map TickIn.now) →
    NoReliableIssue (runLoop s ticks).2 →
    (runLoop s ticks).1.pChar = true ∧ (runLoop s ticks).1.pendingFrame = f ∧
    0 ≤ (runLoop s ticks).1.repeatCount ∧
    (∀ x ∈ retransmissions (runLoop s ticks).2, x.2 = f) ∧
    ((retransmissions (runLoop s ticks).2).length : Int) + (runLoop s ticks).1.repeatCount
      = s.repeatCount ∧
    List.Chain (fun a b => a + 120 ≤ b) t ((retransmissions (runLoop s ticks).2).map Prod.fst) ∧
    ∃ u, (runLoop s ticks).1.lastRepeatTime = millis u ∧ t ≤ u ∧
      ∀ T, t ≤ T → (∀ i ∈ ticks, i.now ≤ T) → u ≤ T := by
  intro ticks
  induction ticks with
  | nil =>
    intro s t hp hf hl hc _ _
    simp only [runLoop, retransmissions, List.filterMap_nil, List.map_nil, List.length_nil]
    refine ⟨hp, hf, hc, by simp, by simp, List.Chain.nil, t, hl, le_refl t, fun T hT _ => hT⟩
  | cons i is ih =>
    intro s t hp hf hl hc hs hq
    simp only [runLoop, NoReliableIssue_append] at hq ⊢
    obtain ⟨hq1, hq2⟩ := hq
    have hq1 := NoReliableIssue_tick _ _ hq1
    simp only [List.map_cons, List.pairwise_cons, List.mem_cons, forall_eq_or_imp,
      List.mem_map, forall_exists_index, and_imp, forall_apply_eq_imp_iff₂] at hs
    obtain ⟨⟨hti, htis⟩, hiis, hsorted⟩ := hs
    rw [retransmissions_append, retransmissions_tick]
    rcases loop_retry_cases s i hp hq1 with
      ⟨c1, c2, k1, k2, k3, k4, k5⟩ | ⟨_, k1, k2, k3, k4, k5⟩
    · have hstep : t + 120 ≤ i.now := by
        rw [hl] at c2
        have := elapsedMs_millis_le t i.now hti
        omega
      have hs2 : List.Pairwise (· ≤ ·) (i.now :: is.map TickIn.now) := by
        simp only [List.pairwise_cons, List.mem_map, forall_exists_index, and_imp,
          forall_apply_eq_imp_iff₂]
        exact ⟨hiis, hsorted⟩
      obtain ⟨a1, a2, a3, a4, a5, a6, u, a7, a8, a9⟩ :=
        ih (loop s i).1 i.now k3 (k4.trans hf) k2 (by omega) hs2 hq2
      rw [k5, hf]
      refine ⟨a1, a2, a3, ?_, ?_, ?_, u, a7, by omega, ?_⟩
      · intro x hx
        simp only [List.map_cons, List.map_nil, List.singleton_append, List.mem_cons] at hx
        rcases hx with rfl | hx
        · rfl
        · exact a4 x hx
      · simp only [List.map_cons, List.map_nil, List.singleton_append, List.length_cons]
        push_cast
        omega
      · simp only [List.map_cons, List.map_nil, List.singleton_append]
        exact List.Chain.cons hstep a6
      · intro T _ hT
        exact a9 T (hT i (List.mem_cons_self _ _)) (fun j hj => hT j (List.mem_cons_of_mem _ hj))
    · have hs2 : List.Pairwise (· ≤ ·) (t :: is.map TickIn.now) := by
        simp only [List.pairwise_cons, List.mem_map, forall_exists_index, and_imp,
          forall_apply_eq_imp_iff₂]
        exact ⟨htis, hsorted⟩
      obtain ⟨a1, a2, a3, a4, a5, a6, u, a7, a8, a9⟩ :=
        ih (loop s i).1 t k3 (k4.trans hf) (k2.trans hl) (by omega) hs2 hq2
      rw [k5]
      simp only [List.map_nil, List.nil_append]
      refine ⟨a1, a2, a3, a4, by omega, a6, u, a7, a8, ?_⟩
      intro T hT1 hT
      exact a9 T hT1 (fun j hj => hT j (List.mem_cons_of_mem _ hj))

/-- In a quiet run whose last iteration comes at least 120 ms (and less than
one wrap of the counter) after the stamp, a pending retry has been consumed. -/
theorem run_retry_progress : ∀ (ticks : List TickIn) (s : State) (t : Nat) (a : TickIn),
    s.pChar = true → s.lastRepeatTime = millis t → 0 < s.repeatCount →
    List.Pairwise (· ≤ ·) (t :: (ticks ++ [a]).map TickIn.now) →
    NoReliableIssue (runLoop s (ticks ++ [a])).2 →
    t + 120 ≤ a.now → a.now < t + ULONG_MOD →
    (runLoop s (ticks ++ [a])).1.repeatCount < s.repeatCount := by
  intro ticks
  induction ticks with
  | nil =>
    intro s t a hp hl hc _ hq h1 h2
    simp only [List.nil_append, runLoop, List.append_nil] at hq ⊢
    have hq1 := NoReliableIssue_tick _ _ hq
    rcases loop_retry_cases s a hp hq1 with ⟨_, _, k1, _⟩ | ⟨c, _⟩
    · omega
    · exfalso
      apply c
      rw [hl, elapsedMs_millis_eq t a.now (by omega) h2]
      exact ⟨hc, by omega⟩
  | cons i is ih =>
    intro s t a hp hl hc hs hq h1 h2
    rw [List.cons_append] at hq ⊢
    simp only [runLoop, NoReliableIssue_append] at hq ⊢
    obtain ⟨hq1, hq2⟩ := hq
    have hq1 := NoReliableIssue_tick _ _ hq1
    simp only [List.cons_append, List.map_cons, List.pairwise_cons, List.mem_cons,
      forall_eq_or_imp, List.mem_map, forall_exists_index, and_imp,
      forall_apply_eq_imp_iff₂] at hs
    obtain ⟨⟨hti, htis⟩, hiis, hsorted⟩ := hs
    rcases loop_retry_cases s i hp hq1 with
      ⟨c1, c2, k1, k2, k3, k4, k5⟩ | ⟨_, k1, k2, k3, k4, k5⟩
    · have hs2 : List.Pairwise (· ≤ ·) (i.now :: (is ++ [a]).map TickIn.now) := by
        simp only [List.pairwise_cons, List.mem_map, forall_exists_index, and_imp,
          forall_apply_eq_imp_iff₂]
        exact ⟨hiis, hsorted⟩
      obtain ⟨_, _, _, _, a5, _⟩ :=
        run_retry_inv (loop s i).1.pendingFrame (is ++ [a]) (loop s i).1 i.now k3 rfl k2
          (by omega) hs2 hq2
      omega
    · have hs2 : List.Pairwise (· ≤ ·) (t :: (is ++ [a]).map TickIn.now) := by
        simp only [List.pairwise_cons, List.mem_map, forall_exists_index, and_imp,
          forall_apply_eq_imp_iff₂]
        exact ⟨htis, hsorted⟩
      have := ih (loop s i).1 t a k3 (k2.trans hl) (by omega) hs2 hq2 h1 h2
      omega

theorem sendReliable_spec (s : State) (f : Frame) (now : Nat) :
    (sendReliable s f f.length now).1.pendingFrame = f ∧
    (sendReliable s f f.length now).1.repeatCount = 2 ∧
    (sendReliable s f f.length now).1.lastRepeatTime = millis now ∧
    (sendReliable s f f.length now).1.pChar = s.pChar ∧
    (s.pChar = true → (sendReliable s f f.length now).2 = [Event.write f]) ∧
    (s.pChar = false → (sendReliable s f f.length now).2 = [Event.logSkipped]) := by
  unfold sendReliable sendCommand State.pendingFrame memcpy
  by_cases h : s.pChar = true <;> simp [h]

theorem transmitted_noWrite : ∀ (tr : List (Nat × Event)), NoWrite tr →
    transmitted (tr.map Prod.snd) = (retransmissions tr).map Prod.snd := by
  intro tr
  induction tr with
  | nil => intro _; rfl
  | cons x xs ih =>
    intro h
    have hx : writtenFrame x.2 = none := h x (List.mem_cons_self _ _)
    have hxs : NoWrite xs := fun y hy => h y (List.mem_cons_of_mem _ hy)
    have ih := ih hxs
    obtain ⟨t, e⟩ := x
    cases e <;>
      simp_all [transmitted, retransmissions, resentFrame, writtenFrame, List.filterMap_cons]

theorem sorted_split (t : Nat) (A B : List TickIn)
    (h : List.Pairwise (· ≤ ·) (t :: (A ++ B).map TickIn.now)) :
    List.Pairwise (· ≤ ·) (t :: A.map TickIn.now) ∧
    ∀ u, (∀ T, t ≤ T → (∀ i ∈ A, i.now ≤ T) → u ≤ T) →
      List.Pairwise (· ≤ ·) (u :: B.map TickIn.now) := by
  rw [List.map_append, ← List.cons_append, List.pairwise_append] at h
  obtain ⟨h1, h2, h3⟩ := h
  refine ⟨h1, fun u hu => ?_⟩
  rw [List.pairwise_cons]
  refine ⟨?_, h2⟩
  intro y hy
  obtain ⟨j, hj, rfl⟩ := List.mem_map.mp hy
  apply hu
  · exact h3 t (List.mem_cons_self _ _) _ hy
  · intro i hi
    exact h3 i.now (List.mem_cons_of_mem _ (List.mem_map.mpr ⟨i, hi, rfl⟩)) _ hy

theorem sorted_last (t : Nat) (pre : List TickIn) (a : TickIn)
    (h : List.Pairwise (· ≤ ·) (t :: (pre ++ [a]).map TickIn.now)) :
    t ≤ a.now ∧ ∀ i ∈ pre ++ [a], i.now ≤ a.now := by
  rw [List.pairwise_cons] at h
  obtain ⟨h0, h1⟩ := h
  rw [List.map_append, List.pairwise_append] at h1
  refine ⟨h0 a.now (by simp), ?_⟩
  intro i hi
  rw [List.mem_append, List.mem_singleton] at hi
  rcases hi with hi | rfl
  · exact h1.2.2 i.now (List.mem_map.mpr ⟨i, hi, rfl⟩) a.now (by simp)
  · exact le_refl _

/-! ## Reliable delivery -/

/-- C2: with a link present, after `sendReliable (f)` at time `t0` and over any
later iterations with non-decreasing times in which no reliable command is
issued: `f` is written once immediately; the repeat step retransmits at most
twice, always `f`; every retransmission comes at least 120 ms after the
previous transmission; once two retransmissions have happened `repeatCount`
is 0 and no later iteration retransmits; and when the iterations include two
that are suitably spaced, exactly two retransmissions happen, so three
transmissions in total, which are all the BLE writes when no other command is
sent. -/
theorem C2_reliable_three_transmissions (s : State) (f : Frame) (t0 : Nat)
    (ticks : List TickIn) (hlink : s.pChar = true) (_ : f.length = 9)
    (hsorted : List.Pairwise (· ≤ ·) (t0 :: ticks.map TickIn.now))
    (hquiet : NoReliableIssue (runLoop (sendReliable s f f.length t0).1 ticks).2) :
    (sendReliable s f f.length t0).2 = [Event.write f] ∧
    (retransmissions (runLoop (sendReliable s f f.length t0).1 ticks).2).length ≤ 2 ∧
    (∀ x ∈ retransmissions (runLoop (sendReliable s f f.length t0).1 ticks).2, x.2 = f) ∧
    List.Chain (fun a b => a + 120 ≤ b) t0
      ((retransmissions (runLoop (sendReliable s f f.length t0).1 ticks).2).map Prod.fst) ∧
    (∀ pre post : List TickIn, ticks = pre ++ post →
      (retransmissions (runLoop (sendReliable s f f.length t0).1 pre).2).length = 2 →
      (runLoop (sendReliable s f f.length t0).1 pre).1.repeatCount = 0 ∧
      retransmissions
        (runLoop (runLoop (sendReliable s f f.length t0).1 pre).1 post).2 = []) ∧
    (∀ (pre mid post : List TickIn) (a b : TickIn), ticks = pre ++ a :: (mid ++ b :: post) →
      t0 + 120 ≤ a.now → a.now + 120 ≤ b.now → b.now < t0 + ULONG_MOD →
      (retransmissions (runLoop (sendReliable s f f.length t0).1 ticks).2).length = 2 ∧
      (NoWrite (runLoop (sendReliable s f f.length t0).1 ticks).2 →
        transmitted ((sendReliable s f f.length t0).2 ++
          (runLoop (sendReliable s f f.length t0).1 ticks).2.map Prod.snd) = [f, f, f])) := by
  obtain ⟨p1, p2, p3, p4, p5, _⟩ := sendReliable_spec s f t0
  have p5 := p5 hlink
  rw [hlink] at p4
  generalize sendReliable s f f.length t0 = r0 at *
  obtain ⟨i1, i2, i3, i4, i5, i6, _⟩ :=
    run_retry_inv f ticks r0.1 t0 p4 p1 p3 (by omega) hsorted hquiet
  have hle : (retransmissions (runLoop r0.1 ticks).2).length ≤ 2 := by omega
  refine ⟨p5, hle, i4, i6, ?_, ?_⟩
  · intro pre post hsplit hpre
    subst hsplit
    rw [runLoop_append, NoReliableIssue_append] at hquiet
    rw [runLoop_append, retransmissions_append, List.length_append] at hle
    rw [List.map_append, ← List.cons_append, List.pairwise_append] at hsorted
    obtain ⟨j1, j2, j3, j4, j5, j6, _⟩ :=
      run_retry_inv f pre r0.1 t0 p4 p1 p3 (by omega) hsorted.1 hquiet.1
    refine ⟨by omega, ?_⟩
    apply List.eq_nil_of_length_eq_zero
    omega
  · intro pre mid post a b hsplit ha hb hwrap
    have hsplit2 : ticks = (pre ++ [a]) ++ ((mid ++ [b]) ++ post) := by
      simp [hsplit]
    have hq := hquiet
    rw [hsplit2, runLoop_append, runLoop_append, NoReliableIssue_append,
      NoReliableIssue_append] at hq
    obtain ⟨hqA, hqB, hqC⟩ := hq
    rw [hsplit2] at hsorted
    obtain ⟨hsA, hsBC⟩ := sorted_split t0 (pre ++ [a]) ((mid ++ [b]) ++ post) hsorted
    obtain ⟨hta, hAa⟩ := sorted_last t0 pre a hsA
    obtain ⟨j1, j2, j3, _, j5, _, u, j7, j8, j9⟩ :=
      run_retry_inv f (pre ++ [a]) r0.1 t0 p4 p1 p3 (by omega) hsA hqA
    have hprogA := run_retry_progress pre r0.1 t0 a p4 p3 (by omega) hsA hqA ha (by omega)
    have hua : u ≤ a.now := j9 a.now hta hAa
    obtain ⟨hsB, hsC⟩ := sorted_split u (mid ++ [b]) post (hsBC u j9)
    obtain ⟨hub, hBb⟩ := sorted_last u mid b hsB
    obtain ⟨k1, k2, k3, _, k5, _, v, k7, k8, k9⟩ :=
      run_retry_inv f (mid ++ [b]) (runLoop r0.1 (pre ++ [a])).1 u j1 j2 j7 j3 hsB hqB
    have hcB : (runLoop (runLoop r0.1 (pre ++ [a])).1 (mid ++ [b])).1.repeatCount = 0 := by
      by_cases hpos : 0 < (runLoop r0.1 (pre ++ [a])).1.repeatCount
      · have := run_retry_progress mid (runLoop r0.1 (pre ++ [a])).1 u b j1 j7 hpos hsB hqB (by omega) (by omega)
        omega
      · omega
    obtain ⟨_, _, m3, _, m5, _⟩ :=
      run_retry_inv f post (runLoop (runLoop r0.1 (pre ++ [a])).1 (mid ++ [b])).1 v k1 k2 k7 k3 (hsC v k9) hqC
    have hfin : (runLoop r0.1 ticks).1.repeatCount = 0 := by
      rw [hsplit2, runLoop_append, runLoop_append]
      simp only []
      omega
    have hlen2 : (retransmissions (runLoop r0.1 ticks).2).length = 2 := by omega
    refine ⟨hlen2, fun hw => ?_⟩
    rw [p5, List.singleton_append, transmitted, transmitted_noWrite _ hw]
    have hall : ∀ g ∈ (retransmissions (runLoop r0.1 ticks).2).map Prod.snd, g = f := by
      intro g hg
      obtain ⟨x, hx, rfl⟩ := List.mem_map.mp hg
      exact i4 x hx
    have hl : ((retransmissions (runLoop r0.1 ticks).2).map Prod.snd).length = 2 := by
      rw [List.length_map, hlen2]
    generalize (retransmissions (runLoop r0.1 ticks).2).map Prod.snd = l at hall hl
    match l, hl, hall with
    | [x, y], _, hall =>
      rw [hall x (by simp), hall y (by simp)]

/-- C2 on a concrete run: `powerOn` frame sent at 1000 ms, iterations at 1050,
1120, 1300 and 1500 ms. -/
theorem C2_reliable_three_transmissions_witness :
    linkedInit.pChar = true ∧ powerOnCmd.length = 9 ∧
    List.Pairwise (· ≤ ·) (1000 :: retryRun.map TickIn.now) ∧
    NoReliableIssue
      (runLoop (sendReliable linkedInit powerOnCmd powerOnCmd.length 1000).1 retryRun).2 ∧
    NoWrite (runLoop (sendReliable linkedInit powerOnCmd powerOnCmd.length 1000).1 retryRun).2 ∧
    transmitted
      ((sendReliable linkedInit powerOnCmd powerOnCmd.length 1000).2 ++
        (runLoop (sendReliable linkedInit powerOnCmd powerOnCmd.length 1000).1
          retryRun).2.map Prod.snd)
      = [powerOnCmd, powerOnCmd, powerOnCmd] :=
  ⟨rfl, rfl, by decide, by decide, by decide,
    ((C2_reliable_three_transmissions linkedInit powerOnCmd 1000 retryRun
      rfl rfl (by decide) (by decide)).2.2.2.2.2
      [tickAt 1050] [] [tickAt 1500] (tickAt 1120) (tickAt 1300)
      rfl (by decide) (by decide) (by decide)).2 (by decide)⟩

/-! ## A reliable send supersedes the pending one -/

theorem connectStep_pendingFrame (s : State) (b : Bool) :
    (connectStep s b).1.pendingFrame = s.pendingFrame ∧
    (connectStep s b).1.repeatCount = s.repeatCount ∧
    ∀ e ∈ (connectStep s b).2, resentFrame e = none := by
  unfold connectStep State.pendingFrame
  split <;> simp [resentFrame]

theorem retryStep_pendingFrame (s : State) (now : Nat) :
    (retryStep s now).1.pendingFrame = s.pendingFrame ∧
    ∀ g ∈ (retryStep s now).2.filterMap resentFrame, g = s.pendingFrame := by
  unfold retryStep State.pendingFrame
  split <;> simp [resentFrame]

theorem sameRetry_pendingFrame {s t : State} (h : SameRetry s t) :
    t.pendingFrame = s.pendingFrame := by
  obtain ⟨_, h2, h3, _⟩ := h
  unfold State.pendingFrame
  rw [h2, h3]

/-- Whatever the link state, an iteration that issues no reliable command
keeps the pending frame and retransmits nothing else. -/
theorem loop_pendingFrame (s : State) (i : TickIn)
    (hq : ∀ e ∈ (loop s i).2, issuesReliable e = false) :
    (loop s i).1.pendingFrame = s.pendingFrame ∧
    ∀ g ∈ (loop s i).2.filterMap resentFrame, g = s.pendingFrame := by
  unfold loop at hq ⊢
  simp only [] at hq ⊢
  obtain ⟨c1, _, c3⟩ := connectStep_pendingFrame s i.scanFound
  generalize connectStep s i.scanFound = r1 at *
  obtain ⟨f1, f2⟩ := fadeStartupStep_sameRetry r1.1 i.now
  generalize fadeStartupStep r1.1 i.now = r2 at *
  obtain ⟨g1, g2⟩ := retryStep_pendingFrame r2.1 i.now
  generalize retryStep r2.1 i.now = r3 at *
  have hpc : pendingColorStep r3.1 i.now = (r3.1, []) :=
    pendingColorStep_quiet r3.1 i.now (fun e he => hq e (by simp [he]))
  rw [hpc] at hq ⊢
  simp only [List.append_nil] at hq ⊢
  obtain ⟨a1, a2⟩ := alarmStep_quiet r3.1 i.now i.localTime (fun e he => hq e (by simp [he]))
  generalize alarmStep r3.1 i.now i.localTime = r5 at *
  obtain ⟨m1, m2⟩ := rampStep_sameRetry r5.1 i.now
  generalize rampStep r5.1 i.now = r6 at *
  have e1 : r1.2.filterMap resentFrame = [] := by
    rw [List.filterMap_eq_nil_iff]
    exact c3
  have e2 : r2.2.filterMap resentFrame = [] := by
    rw [List.filterMap_eq_nil_iff]
    exact fun e he => (f2 e he).1
  have e6 : r6.2.filterMap resentFrame = [] := by
    rw [List.filterMap_eq_nil_iff]
    exact fun e he => (m2 e he).1
  have hfr : r6.1.pendingFrame = s.pendingFrame := by
    rw [sameRetry_pendingFrame m1, sameRetry_pendingFrame a1, g1, sameRetry_pendingFrame f1, c1]
  refine ⟨hfr, ?_⟩
  simp only [List.filterMap_append, e1, e2, e6, a2, List.filterMap_nil, List.append_nil,
    List.nil_append]
  intro g hg
  rw [g2 g hg, sameRetry_pendingFrame f1, c1]

theorem run_pendingFrame : ∀ (ticks : List TickIn) (s : State),
    NoReliableIssue (runLoop s ticks).2 →
    (runLoop s ticks).1.pendingFrame = s.pendingFrame ∧
    ∀ x ∈ retransmissions (runLoop s ticks).2, x.2 = s.pendingFrame := by
  intro ticks
  induction ticks with
  | nil =>
    intro s _
    simp [runLoop, retransmissions]
  | cons i is ih =>
    intro s hq
    simp only [runLoop, NoReliableIssue_append] at hq ⊢
    obtain ⟨hq1, hq2⟩ := hq
    obtain ⟨k1, k2⟩ := loop_pendingFrame s i (NoReliableIssue_tick _ _ hq1)
    obtain ⟨a1, a2⟩ := ih (loop s i).1 hq2
    refine ⟨a1.trans k1, ?_⟩
    intro x hx
    rw [retransmissions_append, retransmissions_tick, List.mem_append] at hx
    rcases hx with hx | hx
    · obtain ⟨g, hg, rfl⟩ := List.mem_map.mp hx
      exact k2 g hg
    · exact (a2 x hx).trans k1

/-- C3: whatever retry is pending (any stored frame, any remaining count),
`sendReliable (g)` at time `t` leaves the stored frame `g`, the remaining count
2 and the stamp `millis ()` at `t`, which is `t` itself for a reading below
`2 ^ 32`; in every later run, until a newer reliable command is
issued, every retransmission carries `g`, and a superseded frame `f ≠ g` is
never retransmitted. -/
theorem C3_reliable_send_supersedes (s : State) (g : Frame) (t : Nat) (_ : g.length = 9) :
    (sendReliable s g g.length t).1.pendingFrame = g ∧
    (sendReliable s g g.length t).1.repeatCount = 2 ∧
    (sendReliable s g g.length t).1.lastRepeatTime = millis t ∧
    (t < ULONG_MOD → (sendReliable s g g.length t).1.lastRepeatTime = t) ∧
    ∀ ticks : List TickIn, NoReliableIssue (runLoop (sendReliable s g g.length t).1 ticks).2 →
      (∀ x ∈ retransmissions (runLoop (sendReliable s g g.length t).1 ticks).2, x.2 = g) ∧
      (s.pendingFrame ≠ g →
        ∀ x ∈ retransmissions (runLoop (sendReliable s g g.length t).1 ticks).2,
          x.2 ≠ s.pendingFrame) := by
  obtain ⟨p1, p2, p3, _⟩ := sendReliable_spec s g t
  refine ⟨p1, p2, p3, fun ht => p3.trans (millis_of_lt t ht), ?_⟩
  intro ticks hq
  obtain ⟨_, h2⟩ := run_pendingFrame ticks (sendReliable s g g.length t).1 hq
  rw [p1] at h2
  refine ⟨h2, ?_⟩
  intro hne x hx heq
  exact hne (heq.symm.trans (h2 x hx))

/-- C3 on a concrete state: a `powerOff` retry with one attempt left is
superseded by a color command at 5000 ms; iterations at 5070, 5120, 5240 ms. -/
theorem C3_reliable_send_supersedes_witness :
    (colorCmd 255 255 220).length = 9 ∧
    NoReliableIssue (runLoop
      (sendReliable pendingOffState (colorCmd 255 255 220) (colorCmd 255 255 220).length 5000).1
      [tickAt 5070, tickAt 5120, tickAt 5240]).2 ∧
    pendingOffState.pendingFrame ≠ colorCmd 255 255 220 ∧
    ∀ x ∈ retransmissions (runLoop
      (sendReliable pendingOffState (colorCmd 255 255 220) (colorCmd 255 255 220).length 5000).1
      [tickAt 5070, tickAt 5120, tickAt 5240]).2, x.2 ≠ pendingOffState.pendingFrame :=
  ⟨rfl, by decide, by decide,
    ((C3_reliable_send_supersedes pendingOffState (colorCmd 255 255 220) 5000 rfl).2.2.2.2
      [tickAt 5070, tickAt 5120, tickAt 5240] (by decide)).2 (by decide)⟩

/-! ## Completion of the ramp -/

/-- C5: in a fading state with a link present and `elapsed >= fadeDuration`
(any duration, 0 included), the ramp step is the closed form below, in which no
quotient occurs: it writes exactly one frame, `SetColor (255, 60, 10)`,
whatever the current color, leaves the ramp not fading, and leaves the
pending-retry record untouched. With duration 0 every fading, linked step
takes this branch. -/
theorem C5_ramp_completion (s : State) (now : Nat)
    (hfade : s.isFading = true) (hlink : s.pChar = true)
    (hdone : s.fadeDuration ≤ elapsedMs (millis now) s.fadeStartTime) :
    rampStep s now =
      ({ s with isFading := false },
        [Event.logSetColor 255 60 10, Event.write [0x7B, 0xFF, 0x07, 255, 60, 10, 0x00, 0xFF, 0xBF],
          Event.logRampComplete]) ∧
    transmitted (rampStep s now).2 = [colorCmd 255 60 10] ∧
    (rampStep s now).1.isFading = false ∧
    SameRetry s (rampStep s now).1 := by
  have h : rampStep s now =
      ({ s with isFading := false },
        [Event.logSetColor 255 60 10, Event.write [0x7B, 0xFF, 0x07, 255, 60, 10, 0x00, 0xFF, 0xBF],
          Event.logRampComplete]) := by
    simp [rampStep, hfade, hlink, hdone, setColor, sendCommand, colorCmd, RAMP_R, RAMP_G, RAMP_B]
  rw [h]
  simp [transmitted, colorCmd, SameRetry]

/-- C5 with duration 0: the fading linked state completes at once. -/
theorem C5_ramp_completion_witness :
    rampZero.isFading = true ∧ rampZero.pChar = true ∧
    rampZero.fadeDuration ≤ elapsedMs (millis 40) rampZero.fadeStartTime ∧
    transmitted (rampStep rampZero 40).2 = [colorCmd 255 60 10] ∧
    (rampStep rampZero 40).1.isFading = false :=
  ⟨rfl, rfl, by decide, (C5_ramp_completion rampZero 40 rfl rfl (by decide)).2.1,
    (C5_ramp_completion rampZero 40 rfl rfl (by decide)).2.2.1⟩

/-! ## Starting a ramp -/

theorem startRamp_flags (s : State) (t : Nat) :
    (startRamp s t).1.isFading = false ∧
    (startRamp s t).1.pendingColorSend = false ∧
    (startRamp s t).1.fadePending = true ∧
    (startRamp s t).1.fadePendingTime = millis t := by
  by_cases h : s.pChar = true <;> simp [startRamp, powerOn, sendReliable, sendCommand, h]

/-- C9: from every state and at every call time `t`, `startRamp ()` leaves
`isFading` and `pendingColorSend` false, `fadePending` true with
`fadePendingTime = t`, and the pending retry holding the `PowerOn` frame with
count 2 and stamp `t` (both stamps are `millis ()` at `t`, which is `t` itself
for a reading below `2 ^ 32`); the `PowerOn` frame is written once when a link is
present; `fadeDuration`, the manual color and the alarm configuration are
unchanged. -/
theorem C9_startRamp_effect (s : State) (t : Nat) :
    (startRamp s t).1.isFading = false ∧
    (startRamp s t).1.pendingColorSend = false ∧
    (startRamp s t).1.fadePending = true ∧
    (startRamp s t).1.fadePendingTime = millis t ∧
    (startRamp s t).1.pendingFrame = powerOnCmd ∧
    (startRamp s t).1.repeatCount = 2 ∧
    (startRamp s t).1.lastRepeatTime = millis t ∧
    (s.pChar = true → transmitted (startRamp s t).2 = [powerOnCmd]) ∧
    (s.pChar = false → transmitted (startRamp s t).2 = []) ∧
    (startRamp s t).1.fadeDuration = s.fadeDuration ∧
    (startRamp s t).1.manualR = s.manualR ∧
    (startRamp s t).1.manualG = s.manualG ∧
    (startRamp s t).1.manualB = s.manualB ∧
    (startRamp s t).1.alarmEnabled = s.alarmEnabled ∧
    (startRamp s t).1.alarmHour = s.alarmHour ∧
    (startRamp s t).1.alarmMin = s.alarmMin ∧
    (startRamp s t).1.alarmTriggeredToday = s.alarmTriggeredToday ∧
    (startRamp s t).1.lastResetDay = s.lastResetDay ∧
    (startRamp s t).1.utcOffsetSeconds = s.utcOffsetSeconds ∧
    (startRamp s t).1.pChar = s.pChar ∧
    (t < ULONG_MOD →
      (startRamp s t).1.fadePendingTime = t ∧ (startRamp s t).1.lastRepeatTime = t) := by
  have hm : t < ULONG_MOD → millis t = t := millis_of_lt t
  by_cases h : s.pChar = true <;>
    simp [startRamp, powerOn, sendReliable, sendCommand, memcpy, State.pendingFrame, h,
      transmitted, powerOnCmd] <;> exact hm

/-- C9 at the linked initial state, called at 1000 ms. -/
theorem C9_startRamp_effect_witness :
    linkedInit.pChar = true ∧ transmitted (startRamp linkedInit 1000).2 = [powerOnCmd] :=
  ⟨rfl, (C9_startRamp_effect linkedInit 1000).2.2.2.2.2.2.2.1 rfl⟩

/-! ## The once-per-day latch -/

theorem sameLatch_refl (s : State) : SameLatch s s := ⟨rfl, rfl⟩

theorem sameLatch_trans {s t u : State} (h1 : SameLatch s t) (h2 : SameLatch t u) :
    SameLatch s u :=
  ⟨h2.1.trans h1.1, h2.2.trans h1.2⟩

theorem alarmTriggers_append (a b : List Event) :
    alarmTriggers (a ++ b) = alarmTriggers a + alarmTriggers b := by
  simp [alarmTriggers, List.count_append]

theorem sendCommand_latch (s : State) (cmd : Frame) (size : Nat) :
    (sendCommand s cmd size).1 = s ∧ alarmTriggers (sendCommand s cmd size).2 = 0 := by
  unfold sendCommand
  split <;> simp [alarmTriggers]

theorem sendReliable_latch (s : State) (cmd : Frame) (size now : Nat) :
    SameLatch s (sendReliable s cmd size now).1 ∧
      alarmTriggers (sendReliable s cmd size now).2 = 0 := by
  obtain ⟨h1, h2⟩ := sendCommand_latch s cmd size
  unfold sendReliable
  simp only [h1, h2]
  exact ⟨⟨rfl, rfl⟩, trivial⟩

theorem startRamp_latch (s : State) (now : Nat) :
    SameLatch s (startRamp s now).1 ∧ alarmTriggers (startRamp s now).2 = 0 := by
  obtain ⟨h1, h2⟩ := sendReliable_latch { s with pendingColorSend := false, isFading := false }
    powerOnCmd powerOnCmd.length now
  unfold startRamp powerOn
  refine ⟨⟨h1.1, h1.2⟩, ?_⟩
  simp only [alarmTriggers] at h2 ⊢
  simp [List.count_cons, h2]

theorem connectStep_latch (s : State) (b : Bool) :
    SameLatch s (connectStep s b).1 ∧ alarmTriggers (connectStep s b).2 = 0 := by
  unfold connectStep
  split <;> simp [SameLatch, alarmTriggers]

theorem setColor_latch (s : State) (r g b : Nat) :
    (setColor s r g b).1 = s ∧ alarmTriggers (setColor s r g b).2 = 0 := by
  obtain ⟨h1, h2⟩ := sendCommand_latch s (colorCmd r g b) (colorCmd r g b).length
  unfold setColor
  refine ⟨h1, ?_⟩
  simp only [alarmTriggers] at h2 ⊢
  simp [List.count_cons, h2]

theorem fadeStartupStep_latch (s : State) (now : Nat) :
    SameLatch s (fadeStartupStep s now).1 ∧ alarmTriggers (fadeStartupStep s now).2 = 0 := by
  unfold fadeStartupStep
  split
  · obtain ⟨h1, h2⟩ := setColor_latch
      { s with fadePending := false, currentR := 0, currentG := 0, currentB := 0 } 0 0 0
    simp only [h1, alarmTriggers_append, h2]
    exact ⟨⟨rfl, rfl⟩, by simp [alarmTriggers]⟩
  · exact ⟨sameLatch_refl s, rfl⟩

theorem retryStep_latch (s : State) (now : Nat) :
    SameLatch s (retryStep s now).1 ∧ alarmTriggers (retryStep s now).2 = 0 := by
  unfold retryStep
  split <;> simp [SameLatch, alarmTriggers]

theorem pendingColorStep_latch (s : State) (now : Nat) :
    SameLatch s (pendingColorStep s now).1 ∧ alarmTriggers (pendingColorStep s now).2 = 0 := by
  unfold pendingColorStep
  split
  · obtain ⟨h1, h2⟩ := sendReliable_latch { s with pendingColorSend := false }
      (colorCmd s.manualR s.manualG s.manualB) (colorCmd s.manualR s.manualG s.manualB).length now
    unfold setColorReliable
    refine ⟨⟨h1.1, h1.2⟩, ?_⟩
    simp only [alarmTriggers] at h2 ⊢
    simp [List.count_cons, h2]
  · exact ⟨sameLatch_refl s, rfl⟩

theorem rampStep_latch (s : State) (now : Nat) :
    SameLatch s (rampStep s now).1 ∧ alarmTriggers (rampStep s now).2 = 0 := by
  unfold rampStep
  split
  · simp only []
    split
    · obtain ⟨h1, h2⟩ := setColor_latch s RAMP_R RAMP_G RAMP_B
      simp only [h1, alarmTriggers_append, h2]
      exact ⟨⟨rfl, rfl⟩, by simp [alarmTriggers]⟩
    · split
      · rename_i hne
        obtain ⟨h1, h2⟩ := setColor_latch
          { s with
            currentR := rampChannel RAMP_R (elapsedMs (millis now) s.fadeStartTime) s.fadeDuration
            currentG := rampChannel RAMP_G (elapsedMs (millis now) s.fadeStartTime) s.fadeDuration
            currentB := rampChannel RAMP_B (elapsedMs (millis now) s.fadeStartTime) s.fadeDuration }
          (rampChannel RAMP_R (elapsedMs (millis now) s.fadeStartTime) s.fadeDuration)
          (rampChannel RAMP_G (elapsedMs (millis now) s.fadeStartTime) s.fadeDuration)
          (rampChannel RAMP_B (elapsedMs (millis now) s.fadeStartTime) s.fadeDuration)
        rw [h1]
        exact ⟨⟨rfl, rfl⟩, h2⟩
      · exact ⟨sameLatch_refl s, rfl⟩
  · exact ⟨sameLatch_refl s, rfl⟩

/-- The three outcomes of the alarm check. -/
theorem alarmStep_cases (s : State) (now : Nat) (lt : Option Tm) :
    ((alarmEligible s = false ∨ lt = none) ∧ alarmStep s now lt = (s, [])) ∨
    (∃ tm, lt = some tm ∧ alarmEligible s = true ∧ alarmDue (dayReset s tm) tm = false ∧
      alarmStep s now lt = (dayReset s tm, [])) ∨
    (∃ tm, lt = some tm ∧ alarmEligible s = true ∧ alarmDue (dayReset s tm) tm = true ∧
      alarmStep s now lt =
        ((startRamp { dayReset s tm with alarmTriggeredToday := true } now).1,
          Event.logAlarmTriggered ::
            (startRamp { dayReset s tm with alarmTriggeredToday := true } now).2)) := by
  unfold alarmStep
  by_cases he : alarmEligible s = true
  · cases lt with
    | none => simp
    | some tm =>
      by_cases hd : alarmDue (dayReset s tm) tm = true
      · right; right
        exact ⟨tm, rfl, he, hd, by simp [he, hd]⟩
      · right; left
        simp only [Bool.not_eq_true] at hd
        exact ⟨tm, rfl, he, hd, by simp [he, hd]⟩
  · simp only [Bool.not_eq_true] at he
    left
    simp [he]

theorem dayReset_same_day (s : State) (tm : Tm) (h : tm.tm_mday = s.lastResetDay) :
    dayReset s tm = s := by
  simp [dayReset, h]

theorem dayReset_lastResetDay (s : State) (tm : Tm) :
    (dayReset s tm).lastResetDay = tm.tm_mday := by
  unfold dayReset
  split
  · rfl
  · rename_i h
    simp only [ne_eq, not_not] at h
    exact h.symm

/-- Once latched on day `d`, the alarm check does nothing on day `d`. -/
theorem alarmStep_latched (s : State) (now : Nat) (lt : Option Tm) (d : Int)
    (h1 : s.alarmTriggeredToday = true) (h2 : s.lastResetDay = d)
    (hday : ∀ tm, lt = some tm → tm.tm_mday = d) :
    alarmStep s now lt = (s, []) := by
  rcases alarmStep_cases s now lt with ⟨_, h⟩ | ⟨tm, hlt, _, _, h⟩ | ⟨tm, hlt, _, hdue, _⟩
  · exact h
  · rw [h, dayReset_same_day s tm ((hday tm hlt).trans h2.symm)]
  · rw [dayReset_same_day s tm ((hday tm hlt).trans h2.symm)] at hdue
    simp [alarmDue, h1] at hdue

/-- The alarm check triggers at most once, and a trigger latches the day. -/
theorem alarmStep_trigger (s : State) (now : Nat) (lt : Option Tm) (d : Int)
    (hday : ∀ tm, lt = some tm → tm.tm_mday = d) :
    alarmTriggers (alarmStep s now lt).2 ≤ 1 ∧
    (alarmTriggers (alarmStep s now lt).2 = 1 →
      (alarmStep s now lt).1.alarmTriggeredToday = true ∧
      (alarmStep s now lt).1.lastResetDay = d) := by
  rcases alarmStep_cases s now lt with ⟨_, h⟩ | ⟨tm, hlt, _, _, h⟩ | ⟨tm, hlt, _, hdue, h⟩
  · rw [h]; simp [alarmTriggers]
  · rw [h]; simp [alarmTriggers]
  · rw [h]
    obtain ⟨⟨k1, k2⟩, k3⟩ := startRamp_latch { dayReset s tm with alarmTriggeredToday := true } now
    simp only [alarmTriggers] at k3
    simp only [alarmTriggers, List.count_cons_self, k3]
    refine ⟨le_refl _, fun _ => ⟨k1, ?_⟩⟩
    rw [k2]
    exact (dayReset_lastResetDay s tm).trans (hday tm hlt)

/-- With respect to the latch, an iteration is its alarm check, run at some
state that carries the same latch as the state the iteration starts from. -/
theorem loop_latch (s : State) (i : TickIn) :
    ∃ s4, SameLatch s s4 ∧ SameLatch (alarmStep s4 i.now i.localTime).1 (loop s i).1 ∧
      alarmTriggers (loop s i).2 = alarmTriggers (alarmStep s4 i.now i.localTime).2 := by
  unfold loop
  simp only []
  obtain ⟨a1, a2⟩ := connectStep_latch s i.scanFound
  generalize connectStep s i.scanFound = r1 at *
  obtain ⟨b1, b2⟩ := fadeStartupStep_latch r1.1 i.now
  generalize fadeStartupStep r1.1 i.now = r2 at *
  obtain ⟨c1, c2⟩ := retryStep_latch r2.1 i.now
  generalize retryStep r2.1 i.now = r3 at *
  obtain ⟨d1, d2⟩ := pendingColorStep_latch r3.1 i.now
  generalize pendingColorStep r3.1 i.now = r4 at *
  refine ⟨r4.1, sameLatch_trans (sameLatch_trans (sameLatch_trans a1 b1) c1) d1, ?_, ?_⟩
  · exact (rampStep_latch _ i.now).1
  · simp only [alarmTriggers_append, a2, b2, c2, d2, (rampStep_latch _ i.now).2]
    omega

theorem handleStart_latch (s : State) (time : Option Int) (now : Nat) :
    SameLatch s (handleStart s time now).1 ∧ alarmTriggers (handleStart s time now).2 = 0 := by
  unfold handleStart
  cases time with
  | none =>
    obtain ⟨h1, h2⟩ := startRamp_latch s now
    refine ⟨h1, ?_⟩
    simp only [alarmTriggers] at h2 ⊢
    simp [List.count_cons, h2]
  | some v =>
    obtain ⟨h1, h2⟩ := startRamp_latch { s with fadeDuration := toULong v } now
    refine ⟨⟨h1.1, h1.2⟩, ?_⟩
    simp only [alarmTriggers] at h2 ⊢
    simp [List.count_cons, h2]

theorem handleStop_latch (s : State) (now : Nat) :
    SameLatch s (handleStop s now).1 ∧ alarmTriggers (handleStop s now).2 = 0 := by
  obtain ⟨h1, h2⟩ := sendReliable_latch { s with pendingColorSend := false }
    powerOffCmd powerOffCmd.length now
  unfold handleStop powerOff
  refine ⟨⟨h1.1, h1.2⟩, ?_⟩
  simp only [alarmTriggers] at h2 ⊢
  simp [List.count_cons, h2]

theorem setManual_latch (s : State) (r g b : Option Int) : SameLatch s (setManual s r g b) := by
  unfold setManual
  cases r <;> cases g <;> cases b <;> exact ⟨rfl, rfl⟩

theorem handleOn_latch (s : State) (r g b : Option Int) (now : Nat) :
    SameLatch s (handleOn s r g b now).1 ∧ alarmTriggers (handleOn s r g b now).2 = 0 := by
  have hl := setManual_latch s r g b
  unfold handleOn powerOn
  simp only []
  generalize setManual s r g b = s3 at *
  obtain ⟨h1, h2⟩ := sendReliable_latch { s3 with isFading := false, fadePending := false }
    powerOnCmd powerOnCmd.length now
  refine ⟨⟨h1.1.trans hl.1, h1.2.trans hl.2⟩, ?_⟩
  simp only [alarmTriggers] at h2 ⊢
  simp [List.count_cons, h2]

theorem step_latch_tick (s : State) (i : TickIn) :
    ∃ s4, SameLatch s s4 ∧ SameLatch (alarmStep s4 i.now i.localTime).1 (step s (Action.tick i)).1 ∧
      alarmTriggers (step s (Action.tick i)).2 = alarmTriggers (alarmStep s4 i.now i.localTime).2 :=
  loop_latch s i

theorem onDay_tick (d : Int) (i : TickIn) (h : (Action.tick i).onDay d = true) :
    ∀ tm, i.localTime = some tm → tm.tm_mday = d := by
  intro tm htm
  simpa [Action.onDay, htm] using h

/-- Any action other than a reconfiguration, on day `d`: the alarm triggers at
most once in it, a trigger latches day `d`, and a latched state stays latched
without triggering. -/
theorem step_latch (d : Int) (s : State) (a : Action)
    (hk : a.keepsAlarm = true) (hd : a.onDay d = true) :
    alarmTriggers (step s a).2 ≤ 1 ∧
    (alarmTriggers (step s a).2 = 1 →
      (step s a).1.alarmTriggeredToday = true ∧ (step s a).1.lastResetDay = d) ∧
    (s.alarmTriggeredToday = true ∧ s.lastResetDay = d →
      alarmTriggers (step s a).2 = 0 ∧
      (step s a).1.alarmTriggeredToday = true ∧ (step s a).1.lastResetDay = d) := by
  cases a with
  | tick i =>
    obtain ⟨s4, ⟨l1, l2⟩, ⟨m1, m2⟩, hev⟩ := step_latch_tick s i
    have hday := onDay_tick d i hd
    obtain ⟨t1, t2⟩ := alarmStep_trigger s4 i.now i.localTime d hday
    rw [hev]
    refine ⟨t1, fun h => ?_, fun h => ?_⟩
    · obtain ⟨u1, u2⟩ := t2 h
      exact ⟨m1.trans u1, m2.trans u2⟩
    · have hq := alarmStep_latched s4 i.now i.localTime d (l1.trans h.1) (l2.trans h.2) hday
      rw [hq] at m1 m2 ⊢
      exact ⟨rfl, m1.trans (l1.trans h.1), m2.trans (l2.trans h.2)⟩
  | start time now =>
    obtain ⟨⟨l1, l2⟩, hev⟩ := handleStart_latch s time now
    simp only [step]
    rw [hev]
    exact ⟨by omega, fun h => by omega, fun h => ⟨rfl, l1.trans h.1, l2.trans h.2⟩⟩
  | stop now =>
    obtain ⟨⟨l1, l2⟩, hev⟩ := handleStop_latch s now
    simp only [step]
    rw [hev]
    exact ⟨by omega, fun h => by omega, fun h => ⟨rfl, l1.trans h.1, l2.trans h.2⟩⟩
  | instantOn r g b now =>
    obtain ⟨⟨l1, l2⟩, hev⟩ := handleOn_latch s r g b now
    simp only [step]
    rw [hev]
    exact ⟨by omega, fun h => by omega, fun h => ⟨rfl, l1.trans h.1, l2.trans h.2⟩⟩
  | setAlarm p => simp [Action.keepsAlarm] at hk

theorem run_latched (d : Int) : ∀ (acts : List Action) (s : State),
    (∀ a ∈ acts, a.keepsAlarm = true ∧ a.onDay d = true) →
    s.alarmTriggeredToday = true → s.lastResetDay = d →
    alarmTriggers (runActions s acts).2 = 0 := by
  intro acts
  induction acts with
  | nil => intro s _ _ _; rfl
  | cons a as ih =>
    intro s hall h1 h2
    obtain ⟨hk, hd⟩ := hall a (List.mem_cons_self _ _)
    obtain ⟨_, _, h3⟩ := step_latch d s a hk hd
    obtain ⟨e0, e1, e2⟩ := h3 ⟨h1, h2⟩
    simp only [runActions, alarmTriggers_append, e0]
    rw [ih (step s a).1 (fun b hb => hall b (List.mem_cons_of_mem _ hb)) e1 e2]

/-- C6: over any sequence of loop iterations (and `/start`, `/stop`, `/on`
requests) with no alarm reconfiguration, in which every readable wall-clock
time has the same day of month, the alarm check sets the latch and invokes
`startRamp` on at most one iteration, however many iterations read the
configured hour and minute. -/
theorem C6_alarm_once_per_day (d : Int) : ∀ (acts : List Action) (s : State),
    (∀ a ∈ acts, a.keepsAlarm = true ∧ a.onDay d = true) →
    alarmTriggers (runActions s acts).2 ≤ 1 := by
  intro acts
  induction acts with
  | nil => intro s _; simp [runActions, alarmTriggers]
  | cons a as ih =>
    intro s hall
    obtain ⟨hk, hd⟩ := hall a (List.mem_cons_self _ _)
    have hrest : ∀ b ∈ as, b.keepsAlarm = true ∧ b.onDay d = true :=
      fun b hb => hall b (List.mem_cons_of_mem _ hb)
    obtain ⟨h1, h2, _⟩ := step_latch d s a hk hd
    simp only [runActions, alarmTriggers_append]
    by_cases hfire : alarmTriggers (step s a).2 = 1
    · obtain ⟨e1, e2⟩ := h2 hfire
      rw [run_latched d as (step s a).1 hrest e1 e2]
      omega
    · have := ih (step s a).1 hrest
      omega

set_option maxRecDepth 100000 in
/-- C6 on day 5: five iterations read 07:00, the alarm triggers once. -/
theorem C6_alarm_once_per_day_witness :
    (∀ a ∈ alarmDayRun, a.keepsAlarm = true ∧ a.onDay 5 = true) ∧
    alarmTriggers (runActions alarmArmed alarmDayRun).2 ≤ 1 ∧
    alarmTriggers (runActions alarmArmed alarmDayRun).2 = 1 :=
  ⟨by decide, C6_alarm_once_per_day 5 alarmDayRun alarmArmed (by decide), by decide⟩

theorem handleSetAlarm_latch (s : State) (p : AlarmParams) :
    (handleSetAlarm s p).1.alarmTriggeredToday = false ∧
    alarmTriggers (handleSetAlarm s p).2 = 0 := by
  unfold handleSetAlarm
  exact ⟨rfl, by simp [alarmTriggers]⟩

theorem dayReset_unlatched (s : State) (tm : Tm) (h : s.alarmTriggeredToday = false) :
    (dayReset s tm).alarmTriggeredToday = false := by
  unfold dayReset
  split
  · rfl
  · exact h

/-- A cleared latch stays cleared through any action in which the alarm does
not trigger. -/
theorem step_unlatched (s : State) (a : Action) (h : s.alarmTriggeredToday = false)
    (h0 : alarmTriggers (step s a).2 = 0) : (step s a).1.alarmTriggeredToday = false := by
  cases a with
  | tick i =>
    obtain ⟨s4, ⟨l1, _⟩, ⟨m1, _⟩, hev⟩ := step_latch_tick s i
    rw [hev] at h0
    rw [m1]
    rcases alarmStep_cases s4 i.now i.localTime with
      ⟨_, hq⟩ | ⟨tm, _, _, _, hq⟩ | ⟨tm, _, _, _, hq⟩
    · rw [hq]; exact l1.trans h
    · rw [hq]; exact dayReset_unlatched s4 tm (l1.trans h)
    · rw [hq] at h0
      simp [alarmTriggers] at h0
  | start time now => exact (handleStart_latch s time now).1.1.trans h
  | stop now => exact (handleStop_latch s now).1.1.trans h
  | instantOn r g b now => exact (handleOn_latch s r g b now).1.1.trans h
  | setAlarm p => exact (handleSetAlarm_latch s p).1

theorem run_unlatched : ∀ (acts : List Action) (s : State), s.alarmTriggeredToday = false →
    alarmTriggers (runActions s acts).2 = 0 →
    (runActions s acts).1.alarmTriggeredToday = false := by
  intro acts
  induction acts with
  | nil => intro s h _; exact h
  | cons a as ih =>
    intro s h h0
    simp only [runActions, alarmTriggers_append] at h0 ⊢
    exact ih (step s a).1 (step_unlatched s a h (by omega)) (by omega)

/-- With the latch clear, an eligible alarm check at the configured hour and
minute triggers and invokes `startRamp`. -/
theorem alarmStep_fires (s : State) (now : Nat) (tm : Tm) (hl : s.alarmTriggeredToday = false)
    (hel : alarmEligible s = true) (hh : tm.tm_hour = s.alarmHour)
    (hm : tm.tm_min = s.alarmMin) :
    alarmStep s now (some tm) =
      ((startRamp { dayReset s tm with alarmTriggeredToday := true } now).1,
        Event.logAlarmTriggered ::
          (startRamp { dayReset s tm with alarmTriggeredToday := true } now).2) ∧
    alarmTriggers (alarmStep s now (some tm)).2 = 1 := by
  have hdue : alarmDue (dayReset s tm) tm = true := by
    have h1 := dayReset_unlatched s tm hl
    have h2 : (dayReset s tm).alarmHour = s.alarmHour := by unfold dayReset; split <;> rfl
    have h3 : (dayReset s tm).alarmMin = s.alarmMin := by unfold dayReset; split <;> rfl
    simp [alarmDue, h1, h2, h3, hh, hm]
  have heq : alarmStep s now (some tm) =
      ((startRamp { dayReset s tm with alarmTriggeredToday := true } now).1,
        Event.logAlarmTriggered ::
          (startRamp { dayReset s tm with alarmTriggeredToday := true } now).2) := by
    simp [alarmStep, hel, hdue]
  refine ⟨heq, ?_⟩
  rw [heq]
  obtain ⟨_, k3⟩ := startRamp_latch { dayReset s tm with alarmTriggeredToday := true } now
  simp only [alarmTriggers] at k3 ⊢
  simp [List.count_cons, k3]

/-- C8: for every state and every combination of present and absent
parameters, `/setalarm` leaves `alarmTriggeredToday` false; the latch then
stays clear through any actions in which the alarm does not trigger, so the
next eligible alarm check (idle, linked, enabled) at which the clock reads the
configured hour and minute triggers and invokes `startRamp`, the same day
included. -/
theorem C8_setalarm_clears_latch (s : State) (p : AlarmParams) :
    (handleSetAlarm s p).1.alarmTriggeredToday = false ∧
    ∀ (acts : List Action) (now : Nat) (tm : Tm),
      alarmTriggers (runActions (handleSetAlarm s p).1 acts).2 = 0 →
      alarmEligible (runActions (handleSetAlarm s p).1 acts).1 = true →
      tm.tm_hour = (runActions (handleSetAlarm s p).1 acts).1.alarmHour →
      tm.tm_min = (runActions (handleSetAlarm s p).1 acts).1.alarmMin →
      alarmTriggers (alarmStep (runActions (handleSetAlarm s p).1 acts).1 now (some tm)).2 = 1 ∧
      (alarmStep (runActions (handleSetAlarm s p).1 acts).1 now (some tm)).1.fadePending
        = true := by
  obtain ⟨h1, _⟩ := handleSetAlarm_latch s p
  refine ⟨h1, ?_⟩
  intro acts now tm h0 hel hh hm
  have hl := run_unlatched acts (handleSetAlarm s p).1 h1 h0
  obtain ⟨heq, hcount⟩ := alarmStep_fires _ now tm hl hel hh hm
  refine ⟨hcount, ?_⟩
  rw [heq]
  exact (startRamp_flags _ now).2.2.1

set_option maxRecDepth 100000 in
/-- C8 on day 5: the alarm fired at 07:00, is reconfigured to 07:01, one more
iteration reads 07:00 without triggering, and the check at 07:01 of the same
day triggers. -/
theorem C8_setalarm_clears_latch_witness :
    (runActions alarmArmed alarmDayRun).1.alarmTriggeredToday = true ∧
    alarmTriggers (runActions
      (handleSetAlarm (runActions alarmArmed alarmDayRun).1 setAlarm0701).1
      [Action.tick (tickClock 11700 5 7 0)]).2 = 0 ∧
    alarmTriggers (alarmStep (runActions
      (handleSetAlarm (runActions alarmArmed alarmDayRun).1 setAlarm0701).1
      [Action.tick (tickClock 11700 5 7 0)]).1 60000 (some ⟨5, 7, 1⟩)).2 = 1 :=
  ⟨by decide, by decide,
    ((C8_setalarm_clears_latch (runActions alarmArmed alarmDayRun).1 setAlarm0701).2
      [Action.tick (tickClock 11700 5 7 0)] 60000 ⟨5, 7, 1⟩
      (by decide) (by decide) (by decide) (by decide)).1⟩

/-! ## Restarting a ramp does not resume it -/

theorem sendCommand_override (u : State) (x c1 c2 c3 : Nat) (cmd : Frame) (size : Nat) :
    sendCommand (overrideRamp u x c1 c2 c3) cmd size
      = (overrideRamp (sendCommand u cmd size).1 x c1 c2 c3, (sendCommand u cmd size).2) := by
  unfold sendCommand
  by_cases h : u.pChar = true <;> simp [overrideRamp, h]

theorem sendReliable_override (u : State) (x c1 c2 c3 : Nat) (cmd : Frame) (size now : Nat) :
    sendReliable (overrideRamp u x c1 c2 c3) cmd size now
      = (overrideRamp (sendReliable u cmd size now).1 x c1 c2 c3,
          (sendReliable u cmd size now).2) := by
  unfold sendReliable
  rw [sendCommand_override]
  unfold sendCommand
  by_cases h : u.pChar = true <;> simp [overrideRamp, h]

theorem sendReliable_isFading (u : State) (cmd : Frame) (size now : Nat) :
    (sendReliable u cmd size now).1.isFading = u.isFading := by
  unfold sendReliable sendCommand
  by_cases h : u.pChar = true <;> simp [h]

theorem startRamp_override (u : State) (x c1 c2 c3 : Nat) (now : Nat) :
    startRamp (overrideRamp u x c1 c2 c3) now
      = (overrideRamp (startRamp u now).1 x c1 c2 c3, (startRamp u now).2) := by
  unfold startRamp powerOn
  have h := sendReliable_override { u with pendingColorSend := false, isFading := false }
    x c1 c2 c3 powerOnCmd powerOnCmd.length now
  have e : ({ overrideRamp u x c1 c2 c3 with pendingColorSend := false, isFading := false } : State)
      = overrideRamp { u with pendingColorSend := false, isFading := false } x c1 c2 c3 := rfl
  simp only [e, h]
  rfl

theorem connectStep_override (u : State) (x c1 c2 c3 : Nat) (b : Bool) :
    connectStep (overrideRamp u x c1 c2 c3) b
      = (overrideRamp (connectStep u b).1 x c1 c2 c3, (connectStep u b).2) ∧
    (connectStep u b).1.isFading = u.isFading := by
  unfold connectStep
  by_cases h : u.pChar = true <;> simp [overrideRamp, h]

theorem retryStep_override (u : State) (x c1 c2 c3 : Nat) (now : Nat) :
    retryStep (overrideRamp u x c1 c2 c3) now
      = (overrideRamp (retryStep u now).1 x c1 c2 c3, (retryStep u now).2) ∧
    (retryStep u now).1.isFading = u.isFading := by
  unfold retryStep
  by_cases h : (decide (0 < u.repeatCount) && u.pChar
      && decide (120 ≤ elapsedMs (millis now) u.lastRepeatTime)) = true <;>
    simp [overrideRamp, h]

theorem setColorReliable_override (u : State) (x c1 c2 c3 : Nat) (r g b now : Nat) :
    setColorReliable (overrideRamp u x c1 c2 c3) r g b now
      = (overrideRamp (setColorReliable u r g b now).1 x c1 c2 c3,
          (setColorReliable u r g b now).2) ∧
    (setColorReliable u r g b now).1.isFading = u.isFading := by
  unfold setColorReliable
  simp only [sendReliable_override, sendReliable_isFading]
  exact ⟨trivial, trivial⟩

theorem pendingColorStep_override (u : State) (x c1 c2 c3 : Nat) (now : Nat) :
    pendingColorStep (overrideRamp u x c1 c2 c3) now
      = (overrideRamp (pendingColorStep u now).1 x c1 c2 c3, (pendingColorStep u now).2) ∧
    (pendingColorStep u now).1.isFading = u.isFading := by
  obtain ⟨k1, k2⟩ := setColorReliable_override { u with pendingColorSend := false } x c1 c2 c3
    u.manualR u.manualG u.manualB now
  have e : ({ overrideRamp u x c1 c2 c3 with pendingColorSend := false } : State)
      = overrideRamp { u with pendingColorSend := false } x c1 c2 c3 := rfl
  unfold pendingColorStep
  by_cases h : (u.pendingColorSend && u.pChar
      && decide (150 < elapsedMs (millis now) u.pendingColorTime)) = true
  · have h2 : ((overrideRamp u x c1 c2 c3).pendingColorSend && (overrideRamp u x c1 c2 c3).pChar
        && decide (150 < elapsedMs (millis now) (overrideRamp u x c1 c2 c3).pendingColorTime))
        = true := h
    rw [if_pos h, if_pos h2, e]
    exact ⟨k1, k2⟩
  · have h2 : ¬ ((overrideRamp u x c1 c2 c3).pendingColorSend && (overrideRamp u x c1 c2 c3).pChar
        && decide (150 < elapsedMs (millis now) (overrideRamp u x c1 c2 c3).pendingColorTime))
        = true := h
    rw [if_neg h, if_neg h2]
    exact ⟨rfl, rfl⟩

theorem dayReset_override (u : State) (x c1 c2 c3 : Nat) (tm : Tm) :
    dayReset (overrideRamp u x c1 c2 c3) tm = overrideRamp (dayReset u tm) x c1 c2 c3 ∧
    (dayReset u tm).isFading = u.isFading := by
  unfold dayReset
  by_cases h : tm.tm_mday ≠ u.lastResetDay <;> simp [overrideRamp, h]

theorem alarmStep_override (u : State) (x c1 c2 c3 : Nat) (now : Nat) (lt : Option Tm) :
    alarmStep (overrideRamp u x c1 c2 c3) now lt
      = (overrideRamp (alarmStep u now lt).1 x c1 c2 c3, (alarmStep u now lt).2) ∧
    (u.isFading = false → (alarmStep u now lt).1.isFading = false) := by
  have he : alarmEligible (overrideRamp u x c1 c2 c3) = alarmEligible u := rfl
  rcases alarmStep_cases u now lt with ⟨hc, hq⟩ | ⟨tm, hlt, hel, hdue, hq⟩ | ⟨tm, hlt, hel, hdue, hq⟩
  · rw [hq]
    refine ⟨?_, fun h => h⟩
    unfold alarmStep
    rcases hc with hc | hc
    · rw [he, hc]; rfl
    · rw [hc]; split <;> rfl
  · obtain ⟨d1, d2⟩ := dayReset_override u x c1 c2 c3 tm
    rw [hq]
    refine ⟨?_, fun h => d2.trans h⟩
    have hdue2 : alarmDue (overrideRamp (dayReset u tm) x c1 c2 c3) tm = false := hdue
    simp [alarmStep, hlt, he, hel, d1, hdue2]
  · obtain ⟨d1, _⟩ := dayReset_override u x c1 c2 c3 tm
    rw [hq]
    refine ⟨?_, fun _ => (startRamp_flags _ now).1⟩
    have hdue2 : alarmDue (overrideRamp (dayReset u tm) x c1 c2 c3) tm = true := hdue
    have e : ({ overrideRamp (dayReset u tm) x c1 c2 c3 with alarmTriggeredToday := true } : State)
        = overrideRamp { dayReset u tm with alarmTriggeredToday := true } x c1 c2 c3 := rfl
    simp [alarmStep, hlt, he, hel, d1, hdue2, e, startRamp_override]

theorem fadeStartupStep_override (u : State) (x c1 c2 c3 : Nat) (now : Nat) :
    (fadeStartupStep (overrideRamp u x c1 c2 c3) now = fadeStartupStep u now) ∨
    (fadeStartupStep (overrideRamp u x c1 c2 c3) now
        = (overrideRamp (fadeStartupStep u now).1 x c1 c2 c3, (fadeStartupStep u now).2) ∧
      (fadeStartupStep u now).1.isFading = u.isFading) := by
  unfold fadeStartupStep
  by_cases h : (u.fadePending && u.pChar
      && decide (200 < elapsedMs (millis now) u.fadePendingTime)) = true
  · left
    simp only [Bool.and_eq_true, decide_eq_true_eq] at h
    obtain ⟨⟨hfp, hp⟩, ht⟩ := h
    simp [overrideRamp, hfp, ht, setColor, sendCommand, hp]
  · right
    simp [overrideRamp, h]

theorem rampStep_idle (u : State) (now : Nat) (h : u.isFading = false) :
    rampStep u now = (u, []) := by
  simp [rampStep, h]

/-- A step that commutes with replacing the ramp progress, and keeps a
non-fading state non-fading, respects `RampEq`. -/
theorem rampEq_of_override (X : State → State × List Event)
    (hc : ∀ u x c1 c2 c3, u.isFading = false →
      X (overrideRamp u x c1 c2 c3) = (overrideRamp (X u).1 x c1 c2 c3, (X u).2) ∧
      (X u).1.isFading = false) :
    ∀ u v, RampEq u v → RampEq (X u).1 (X v).1 ∧ (X v).2 = (X u).2 := by
  intro u v h
  rcases h with rfl | ⟨hf, x, c1, c2, c3, rfl⟩
  · exact ⟨Or.inl rfl, rfl⟩
  · obtain ⟨k1, k2⟩ := hc u x c1 c2 c3 hf
    rw [k1]
    exact ⟨Or.inr ⟨k2, x, c1, c2, c3, rfl⟩, rfl⟩

theorem fadeStartupStep_rampEq (now : Nat) (u v : State) (h : RampEq u v) :
    RampEq (fadeStartupStep u now).1 (fadeStartupStep v now).1 ∧
      (fadeStartupStep v now).2 = (fadeStartupStep u now).2 := by
  rcases h with rfl | ⟨hf, x, c1, c2, c3, rfl⟩
  · exact ⟨Or.inl rfl, rfl⟩
  · rcases fadeStartupStep_override u x c1 c2 c3 now with k | ⟨k1, k2⟩
    · rw [k]
      exact ⟨Or.inl rfl, rfl⟩
    · rw [k1]
      exact ⟨Or.inr ⟨k2.trans hf, x, c1, c2, c3, rfl⟩, rfl⟩

theorem rampStep_rampEq (now : Nat) (u v : State) (h : RampEq u v) :
    RampEq (rampStep u now).1 (rampStep v now).1 ∧ (rampStep v now).2 = (rampStep u now).2 := by
  rcases h with rfl | ⟨hf, x, c1, c2, c3, rfl⟩
  · exact ⟨Or.inl rfl, rfl⟩
  · have hf2 : (overrideRamp u x c1 c2 c3).isFading = false := hf
    rw [rampStep_idle u now hf, rampStep_idle _ now hf2]
    exact ⟨Or.inr ⟨hf, x, c1, c2, c3, rfl⟩, rfl⟩

/-- An iteration of the loop respects `RampEq`: it cannot tell apart two idle
states that differ only in the old ramp start time and current color. -/
theorem loop_rampEq (i : TickIn) (u v : State) (h : RampEq u v) :
    RampEq (loop u i).1 (loop v i).1 ∧ (loop v i).2 = (loop u i).2 := by
  unfold loop
  simp only []
  obtain ⟨a1, a2⟩ := rampEq_of_override (fun s => connectStep s i.scanFound)
    (fun u x c1 c2 c3 hf =>
      ⟨(connectStep_override u x c1 c2 c3 i.scanFound).1,
        (connectStep_override u x c1 c2 c3 i.scanFound).2.trans hf⟩) u v h
  try beta_reduce at a1 a2
  generalize connectStep u i.scanFound = p1 at *
  generalize connectStep v i.scanFound = q1 at *
  obtain ⟨b1, b2⟩ := fadeStartupStep_rampEq i.now p1.1 q1.1 a1
  generalize fadeStartupStep p1.1 i.now = p2 at *
  generalize fadeStartupStep q1.1 i.now = q2 at *
  obtain ⟨c1, c2⟩ := rampEq_of_override (fun s => retryStep s i.now)
    (fun u x c1 c2 c3 hf =>
      ⟨(retryStep_override u x c1 c2 c3 i.now).1,
        (retryStep_override u x c1 c2 c3 i.now).2.trans hf⟩) p2.1 q2.1 b1
  try beta_reduce at c1 c2
  generalize retryStep p2.1 i.now = p3 at *
  generalize retryStep q2.1 i.now = q3 at *
  obtain ⟨d1, d2⟩ := rampEq_of_override (fun s => pendingColorStep s i.now)
    (fun u x c1 c2 c3 hf =>
      ⟨(pendingColorStep_override u x c1 c2 c3 i.now).1,
        (pendingColorStep_override u x c1 c2 c3 i.now).2.trans hf⟩) p3.1 q3.1 c1
  try beta_reduce at d1 d2
  generalize pendingColorStep p3.1 i.now = p4 at *
  generalize pendingColorStep q3.1 i.now = q4 at *
  obtain ⟨e1, e2⟩ := rampEq_of_override (fun s => alarmStep s i.now i.localTime)
    (fun u x c1 c2 c3 hf =>
      ⟨(alarmStep_override u x c1 c2 c3 i.now i.localTime).1,
        (alarmStep_override u x c1 c2 c3 i.now i.localTime).2 hf⟩) p4.1 q4.1 d1
  try beta_reduce at e1 e2
  generalize alarmStep p4.1 i.now i.localTime = p5 at *
  generalize alarmStep q4.1 i.now i.localTime = q5 at *
  obtain ⟨f1, f2⟩ := rampStep_rampEq i.now p5.1 q5.1 e1
  refine ⟨f1, ?_⟩
  rw [a2, b2, c2, d2, e2, f2]

theorem powerOn_override (u : State) (x c1 c2 c3 : Nat) (now : Nat) :
    powerOn (overrideRamp u x c1 c2 c3) now
      = (overrideRamp (powerOn u now).1 x c1 c2 c3, (powerOn u now).2) ∧
    (powerOn u now).1.isFading = u.isFading := by
  unfold powerOn
  refine ⟨?_, sendReliable_isFading _ _ _ _⟩
  rw [sendReliable_override]

theorem handleStart_override (u : State) (x c1 c2 c3 : Nat) (time : Option Int) (now : Nat) :
    handleStart (overrideRamp u x c1 c2 c3) time now
      = (overrideRamp (handleStart u time now).1 x c1 c2 c3, (handleStart u time now).2) ∧
    (handleStart u time now).1.isFading = false := by
  unfold handleStart
  cases time with
  | none =>
    refine ⟨?_, (startRamp_flags u now).1⟩
    simp only []
    rw [startRamp_override]
    rfl
  | some v =>
    have e : ({ overrideRamp u x c1 c2 c3 with fadeDuration := toULong v } : State)
        = overrideRamp { u with fadeDuration := toULong v } x c1 c2 c3 := rfl
    refine ⟨?_, (startRamp_flags _ now).1⟩
    simp only []
    rw [e, startRamp_override]

theorem handleStop_override (u : State) (x c1 c2 c3 : Nat) (now : Nat) :
    handleStop (overrideRamp u x c1 c2 c3) now
      = (overrideRamp (handleStop u now).1 x c1 c2 c3, (handleStop u now).2) ∧
    (handleStop u now).1.isFading = false := by
  unfold handleStop powerOff
  have e : ({ overrideRamp u x c1 c2 c3 with pendingColorSend := false } : State)
      = overrideRamp { u with pendingColorSend := false } x c1 c2 c3 := rfl
  refine ⟨?_, rfl⟩
  simp only []
  rw [e, sendReliable_override]
  rfl

theorem setManual_override (u : State) (x c1 c2 c3 : Nat) (r g b : Option Int) :
    setManual (overrideRamp u x c1 c2 c3) r g b = overrideRamp (setManual u r g b) x c1 c2 c3 := by
  unfold setManual
  cases r <;> cases g <;> cases b <;> rfl

theorem handleOn_override (u : State) (x c1 c2 c3 : Nat) (r g b : Option Int) (now : Nat) :
    handleOn (overrideRamp u x c1 c2 c3) r g b now
      = (overrideRamp (handleOn u r g b now).1 x c1 c2 c3, (handleOn u r g b now).2) ∧
    (handleOn u r g b now).1.isFading = false := by
  unfold handleOn
  simp only [setManual_override]
  generalize setManual u r g b = w
  obtain ⟨k1, k2⟩ :=
    powerOn_override { w with isFading := false, fadePending := false } x c1 c2 c3 now
  have e : ({ overrideRamp w x c1 c2 c3 with isFading := false, fadePending := false } : State)
      = overrideRamp { w with isFading := false, fadePending := false } x c1 c2 c3 := rfl
  refine ⟨?_, k2⟩
  rw [e, k1]
  rfl

theorem handleSetAlarm_override (u : State) (x c1 c2 c3 : Nat) (p : AlarmParams) :
    handleSetAlarm (overrideRamp u x c1 c2 c3) p
      = (overrideRamp (handleSetAlarm u p).1 x c1 c2 c3, (handleSetAlarm u p).2) ∧
    (handleSetAlarm u p).1.isFading = u.isFading := by
  obtain ⟨h, m, d, e, o⟩ := p
  unfold handleSetAlarm
  cases h <;> cases m <;> cases d <;> cases e <;> cases o <;> exact ⟨rfl, rfl⟩

theorem step_rampEq (a : Action) (u v : State) (h : RampEq u v) :
    RampEq (step u a).1 (step v a).1 ∧ (step v a).2 = (step u a).2 := by
  cases a with
  | tick i => exact loop_rampEq i u v h
  | start time now =>
    exact rampEq_of_override (fun s => handleStart s time now)
      (fun u x c1 c2 c3 _ => handleStart_override u x c1 c2 c3 time now) u v h
  | stop now =>
    exact rampEq_of_override (fun s => handleStop s now)
      (fun u x c1 c2 c3 _ => handleStop_override u x c1 c2 c3 now) u v h
  | instantOn r g b now =>
    exact rampEq_of_override (fun s => handleOn s r g b now)
      (fun u x c1 c2 c3 _ => handleOn_override u x c1 c2 c3 r g b now) u v h
  | setAlarm p =>
    exact rampEq_of_override (fun s => handleSetAlarm s p)
      (fun u x c1 c2 c3 hf =>
        ⟨(handleSetAlarm_override u x c1 c2 c3 p).1,
          (handleSetAlarm_override u x c1 c2 c3 p).2.trans hf⟩) u v h

/-- Two `RampEq` states produce the same events under every sequence of actions. -/
theorem run_rampEq : ∀ (acts : List Action) (u v : State), RampEq u v →
    (runActions v acts).2 = (runActions u acts).2 ∧
      RampEq (runActions u acts).1 (runActions v acts).1 := by
  intro acts
  induction acts with
  | nil => intro u v h; exact ⟨rfl, h⟩
  | cons a as ih =>
    intro u v h
    obtain ⟨h1, h2⟩ := step_rampEq a u v h
    obtain ⟨h3, h4⟩ := ih (step u a).1 (step v a).1 h1
    simp only [runActions]
    exact ⟨by rw [h2, h3], h4⟩

/-! ### Where fading begins -/

theorem sameRamp_refl (s : State) : SameRamp s s := ⟨rfl, rfl, rfl, rfl, rfl, rfl, rfl⟩

theorem sameRamp_trans {s t u : State} (h1 : SameRamp s t) (h2 : SameRamp t u) :
    SameRamp s u := by
  obtain ⟨a1, a2, a3, a4, a5, a6, a7⟩ := h1
  obtain ⟨b1, b2, b3, b4, b5, b6, b7⟩ := h2
  exact ⟨b1.trans a1, b2.trans a2, b3.trans a3, b4.trans a4, b5.trans a5, b6.trans a6,
    b7.trans a7⟩

theorem retryStep_sameRamp (s : State) (now : Nat) : SameRamp s (retryStep s now).1 := by
  unfold retryStep
  split <;> exact ⟨rfl, rfl, rfl, rfl, rfl, rfl, rfl⟩

theorem sendReliable_sameRamp (s : State) (cmd : Frame) (size now : Nat) :
    SameRamp s (sendReliable s cmd size now).1 := by
  unfold sendReliable sendCommand
  split <;> exact ⟨rfl, rfl, rfl, rfl, rfl, rfl, rfl⟩

theorem pendingColorStep_sameRamp (s : State) (now : Nat) :
    SameRamp s (pendingColorStep s now).1 := by
  unfold pendingColorStep
  split
  · exact sendReliable_sameRamp { s with pendingColorSend := false } _ _ now
  · exact sameRamp_refl s

theorem alarmStep_fading (s : State) (now : Nat) (lt : Option Tm) (h : s.isFading = true) :
    alarmStep s now lt = (s, []) := by
  simp [alarmStep, alarmEligible, h]

/-- The two outcomes of the fade-startup step. -/
theorem fadeStartupStep_cases (s : State) (now : Nat) :
    (s.fadePending = true ∧ s.pChar = true ∧ 200 < elapsedMs (millis now) s.fadePendingTime ∧
      fadeStartupStep s now =
        ({ s with fadePending := false, currentR := 0, currentG := 0, currentB := 0,
                  isFading := true, fadeStartTime := millis now },
          [Event.logSetColor 0 0 0, Event.write (colorCmd 0 0 0), Event.logBeganFading])) ∨
    (¬ (s.fadePending = true ∧ s.pChar = true ∧ 200 < elapsedMs (millis now) s.fadePendingTime) ∧
      fadeStartupStep s now = (s, [])) := by
  unfold fadeStartupStep
  by_cases h : s.fadePending = true ∧ s.pChar = true ∧
      200 < elapsedMs (millis now) s.fadePendingTime
  · left
    obtain ⟨h1, h2, h3⟩ := h
    refine ⟨h1, h2, h3, ?_⟩
    simp [h1, h2, h3, setColor, sendCommand, colorCmd]
  · right
    refine ⟨h, ?_⟩
    have : ¬ ((s.fadePending && s.pChar
        && decide (200 < elapsedMs (millis now) s.fadePendingTime)) = true) := by
      simpa [and_assoc] using h
    rw [if_neg this]

theorem elapsedMs_self (now : Nat) : elapsedMs (millis now) (millis now) = 0 := by
  have := elapsedMs_millis now now (le_refl now)
  simpa using this

theorem roundNE_zero (b : Nat) : roundNE 0 b = 0 := by
  simp [roundNE]

theorem f32Round_zero (b : Nat) : f32Round 0 b = 0 := by
  simp [f32Round, roundNE_zero]

/-- At elapsed time 0 every channel of the ramp color is 0. -/
theorem rampChannel_zero (hue duration : Nat) : rampChannel hue 0 duration = 0 := by
  have h0 : f32OfNat 0 = 0 := by simp [f32OfNat, f32Round_zero]
  have hd : ∀ y, f32Div 0 y = 0 := fun y => by simp [f32Div, f32Round_zero]
  have hm : ∀ y, f32Mul y 0 = 0 := fun y => by simp [f32Mul, f32Round_zero]
  simp [rampChannel, rampScaled, rampCurve, h0, hd, hm, f32ToU8, f32Trunc]

/-- The ramp step in the iteration that has just begun fading: elapsed time 0. -/
theorem rampStep_fresh (s : State) (now : Nat) (hf : s.isFading = true)
    (hs : s.fadeStartTime = millis now) (hr : s.currentR = 0) (hg : s.currentG = 0)
    (hb : s.currentB = 0) :
    (rampStep s now).1.isFading = true → rampStep s now = (s, []) := by
  unfold rampStep
  rw [hs, elapsedMs_self]
  by_cases hp : s.pChar = true
  · by_cases hd : s.fadeDuration ≤ 0
    · simp [hf, hp, hd, setColor, sendCommand]
    · simp [hf, hp, hd, rampChannel_zero, hr, hg, hb]
  · simp [hf, hp]

/-- An iteration that starts not fading and ends fading has begun the ramp
in its fade-startup step: the start time is the time of this iteration and the
current color is black. -/
theorem loop_begins_fading (u : State) (i : TickIn) (hf : u.isFading = false)
    (hb : (loop u i).1.isFading = true) :
    (loop u i).1.fadeStartTime = millis i.now ∧ (loop u i).1.currentR = 0 ∧
    (loop u i).1.currentG = 0 ∧ (loop u i).1.currentB = 0 ∧
    elapsedMs (millis i.now) (loop u i).1.fadeStartTime = 0 := by
  unfold loop at hb ⊢
  simp only [] at hb ⊢
  have h1 : (connectStep u i.scanFound).1.isFading = false :=
    (connectStep_override u 0 0 0 0 i.scanFound).2.trans hf
  generalize connectStep u i.scanFound = r1 at *
  obtain ⟨_, s2, s3, _, s5, s6, s7⟩ := retryStep_sameRamp (fadeStartupStep r1.1 i.now).1 i.now
  obtain ⟨_, t2, t3, _, t5, t6, t7⟩ :=
    pendingColorStep_sameRamp (retryStep (fadeStartupStep r1.1 i.now).1 i.now).1 i.now
  generalize pendingColorStep (retryStep (fadeStartupStep r1.1 i.now).1 i.now).1 i.now = r4 at *
  generalize retryStep (fadeStartupStep r1.1 i.now).1 i.now = r3 at *
  rcases fadeStartupStep_cases r1.1 i.now with ⟨_, _, _, hq⟩ | ⟨_, hq⟩
  · rw [hq] at s2 s3 s5 s6 s7
    simp only [] at s2 s3 s5 s6 s7
    have f4 : r4.1.isFading = true := t2.trans s2
    rw [alarmStep_fading r4.1 i.now i.localTime f4] at hb ⊢
    simp only [] at hb ⊢
    have hfresh := rampStep_fresh r4.1 i.now f4 (t3.trans s3) (t5.trans s5) (t6.trans s6)
      (t7.trans s7) hb
    rw [hfresh]
    simp only []
    rw [t3.trans s3, t5.trans s5, t6.trans s6, t7.trans s7]
    exact ⟨rfl, rfl, rfl, rfl, elapsedMs_self i.now⟩
  · rw [hq] at s2
    simp only [] at s2
    have f4 : r4.1.isFading = false := (t2.trans s2).trans h1
    have f5 := (alarmStep_override r4.1 0 0 0 0 i.now i.localTime).2 f4
    rw [rampStep_idle _ i.now f5] at hb
    simp only [] at hb
    rw [f5] at hb
    exact absurd hb (by decide)

/-- No request handler begins fading. -/
theorem step_begins_fading (u : State) (a : Action) (hf : u.isFading = false)
    (hb : (step u a).1.isFading = true) : ∃ i, a = Action.tick i := by
  cases a with
  | tick i => exact ⟨i, rfl⟩
  | start time now =>
    have := (handleStart_override u 0 0 0 0 time now).2
    simp only [step] at hb
    rw [this] at hb
    exact absurd hb (by decide)
  | stop now =>
    have := (handleStop_override u 0 0 0 0 now).2
    simp only [step] at hb
    rw [this] at hb
    exact absurd hb (by decide)
  | instantOn r g b now =>
    have := (handleOn_override u 0 0 0 0 r g b now).2
    simp only [step] at hb
    rw [this] at hb
    exact absurd hb (by decide)
  | setAlarm p =>
    have := (handleSetAlarm_override u 0 0 0 0 p).2
    simp only [step] at hb
    rw [this, hf] at hb
    exact absurd hb (by decide)

/-- C10: after `startRamp ()` the ramp is not fading, and nothing any later
action outputs depends on the old `fadeStartTime` or current color: replacing
them in the state `startRamp` is called on changes no event of any later run.
Fading begins again only in a loop iteration, and that iteration sets
`fadeStartTime` to its own time and the current color to (0,0,0), so the
elapsed time of the new ramp starts at 0. -/
theorem C10_restart_does_not_resume (s : State) (t : Nat) :
    (startRamp s t).1.isFading = false ∧
    (∀ (x c1 c2 c3 : Nat) (acts : List Action),
      (runActions (startRamp (overrideRamp s x c1 c2 c3) t).1 acts).2
        = (runActions (startRamp s t).1 acts).2) ∧
    (∀ (u : State) (a : Action), u.isFading = false → (step u a).1.isFading = true →
      ∃ i, a = Action.tick i ∧ (step u a).1.fadeStartTime = millis i.now ∧
        (step u a).1.currentR = 0 ∧ (step u a).1.currentG = 0 ∧ (step u a).1.currentB = 0 ∧
        elapsedMs (millis i.now) (step u a).1.fadeStartTime = 0) := by
  have h0 := (startRamp_flags s t).1
  refine ⟨h0, ?_, ?_⟩
  · intro x c1 c2 c3 acts
    have hreq : RampEq (startRamp s t).1 (startRamp (overrideRamp s x c1 c2 c3) t).1 := by
      rw [startRamp_override]
      exact Or.inr ⟨h0, x, c1, c2, c3, rfl⟩
    exact (run_rampEq acts _ _ hreq).1
  · intro u a hf hb
    obtain ⟨i, rfl⟩ := step_begins_fading u a hf hb
    exact ⟨i, rfl, loop_begins_fading u i hf hb⟩

set_option maxRecDepth 100000 in
/-- C10 on a ramp that began at 500 ms and is restarted at 100000 ms: the
iteration at 100300 ms begins fading anew, from its own time. -/
theorem C10_restart_does_not_resume_witness :
    (startRamp fadingState 100000).1.isFading = false ∧
    (step (startRamp fadingState 100000).1 (Action.tick (tickAt 100300))).1.isFading = true ∧
    ∃ i, Action.tick (tickAt 100300) = Action.tick i ∧
      (step (startRamp fadingState 100000).1 (Action.tick (tickAt 100300))).1.fadeStartTime
        = millis i.now ∧
      (step (startRamp fadingState 100000).1 (Action.tick (tickAt 100300))).1.currentR = 0 ∧
      (step (startRamp fadingState 100000).1 (Action.tick (tickAt 100300))).1.currentG = 0 ∧
      (step (startRamp fadingState 100000).1 (Action.tick (tickAt 100300))).1.currentB = 0 ∧
      elapsedMs (millis i.now)
        (step (startRamp fadingState 100000).1 (Action.tick (tickAt 100300))).1.fadeStartTime
        = 0 :=
  ⟨by decide, by decide,
    (C10_restart_does_not_resume fadingState 100000).2.2 (startRamp fadingState 100000).1
      (Action.tick (tickAt 100300)) (by decide) (by decide)⟩

/-! ## Single-precision rounding is monotone -/

theorem ilog2Aux_eq_log2 : ∀ (fuel n : Nat), n ≤ fuel → ilog2Aux fuel n = Nat.log2 n := by
  intro fuel
  induction fuel with
  | zero =>
    intro n hn
    have : n = 0 := by omega
    subst this
    simp [ilog2Aux, Nat.log2_zero]
  | succ k ih =>
    intro n hn
    rw [ilog2Aux, Nat.log2]
    by_cases h : n < 2
    · have h2 : ¬ n ≥ 2 := by omega
      simp [h, h2]
    · have h2 : n ≥ 2 := by omega
      simp only [h, h2, if_true, if_false]
      rw [ih (n / 2) (by omega)]

theorem ilog2_eq_log2 (n : Nat) : ilog2 n = Nat.log2 n :=
  ilog2Aux_eq_log2 n n (le_refl n)

theorem ilog2_lt_pow (n : Nat) : n < 2 ^ (ilog2 n + 1) := by
  rw [ilog2_eq_log2]
  exact Nat.lt_log2_self

theorem ilog2_pow_le (n : Nat) (h : n ≠ 0) : 2 ^ ilog2 n ≤ n := by
  rw [ilog2_eq_log2]
  exact Nat.log2_self_le h

theorem ilog2_mono {m n : Nat} (h : m ≤ n) : ilog2 m ≤ ilog2 n := by
  rw [ilog2_eq_log2, ilog2_eq_log2, Nat.log2_eq_log_two, Nat.log2_eq_log_two]
  exact Nat.log_mono_right h

/-- Characterisation of `roundNE` by comparisons with the half-way points. -/
theorem roundNE_succ_le (a b k : Nat) (hb : 0 < b) :
    k + 1 ≤ roundNE a b ↔
      (2 * k + 1) * b < 2 * a ∨ ((2 * k + 1) * b = 2 * a ∧ k % 2 = 1) := by
  have hdm : b * (a / b) + a % b = a := Nat.div_add_mod a b
  have hr : a % b < b := Nat.mod_lt a hb
  generalize hq : a / b = q at hdm
  generalize hrr : a % b = r at hdm hr
  have hround : roundNE a b =
      if 2 * r < b then q else if b < 2 * r then q + 1 else if q % 2 = 0 then q else q + 1 := by
    simp only [roundNE, hq, hrr]
  rw [hround]
  rcases Nat.lt_trichotomy k q with hlt | heq | hgt
  · -- k < q
    have h1 : (k + 1) * b ≤ q * b := Nat.mul_le_mul_right b hlt
    have h2 : (2 * k + 1) * b < 2 * a := by
      have e1 : (k + 1) * b = k * b + b := by ring
      have e2 : (2 * k + 1) * b = 2 * (k * b) + b := by ring
      have e3 : b * q = q * b := by ring
      omega
    constructor
    · intro _; exact Or.inl h2
    · intro _
      split
      · omega
      · split
        · omega
        · split <;> omega
  · subst heq
    have e2 : (2 * k + 1) * b = 2 * (b * k) + b := by ring
    constructor
    · intro h
      split at h
      · omega
      · split at h
        · left; omega
        · split at h
          · omega
          · right
            constructor <;> omega
    · intro h
      rcases h with h | ⟨h1, h2⟩
      · have : b < 2 * r := by omega
        have h3 : ¬ 2 * r < b := by omega
        simp [h3, this]
      · have h3 : ¬ 2 * r < b := by omega
        have h4 : ¬ b < 2 * r := by omega
        have h5 : ¬ k % 2 = 0 := by omega
        simp [h3, h4, h5]
  · -- q < k
    have h1 : (q + 1) * b ≤ k * b := Nat.mul_le_mul_right b hgt
    have e1 : (q + 1) * b = b * q + b := by ring
    have e2 : (2 * k + 1) * b = 2 * (k * b) + b := by ring
    constructor
    · intro h
      exfalso
      split at h
      · omega
      · split at h
        · omega
        · split at h <;> omega
    · intro h
      exfalso
      rcases h with h | ⟨h, _⟩ <;> omega

/-- Rounding to the nearest integer is monotone in the fraction. -/
theorem roundNE_mono (a b c d : Nat) (hb : 0 < b) (hd : 0 < d) (h : a * d ≤ c * b) :
    roundNE a b ≤ roundNE c d := by
  rcases Nat.eq_zero_or_pos (roundNE a b) with h0 | hpos
  · omega
  · obtain ⟨k, hk⟩ : ∃ k, roundNE a b = k + 1 := ⟨roundNE a b - 1, by omega⟩
    rw [hk]
    have hchar := (roundNE_succ_le a b k hb).mp (by omega)
    rw [roundNE_succ_le c d k hd]
    have key : (2 * k + 1) * b ≤ 2 * a → (2 * k + 1) * d ≤ 2 * c := by
      intro h1
      have h2 : (2 * k + 1) * d * b ≤ 2 * c * b := by
        calc (2 * k + 1) * d * b = (2 * k + 1) * b * d := by ring
          _ ≤ 2 * a * d := Nat.mul_le_mul_right d h1
          _ = 2 * (a * d) := by ring
          _ ≤ 2 * (c * b) := Nat.mul_le_mul_left 2 h
          _ = 2 * c * b := by ring
      exact Nat.le_of_mul_le_mul_right h2 hb
    rcases hchar with h1 | ⟨h1, h2⟩
    · left
      have h2 : (2 * k + 1) * d * b < 2 * c * b := by
        calc (2 * k + 1) * d * b = (2 * k + 1) * b * d := by ring
          _ < 2 * a * d := Nat.mul_lt_mul_of_pos_right h1 hd
          _ = 2 * (a * d) := by ring
          _ ≤ 2 * (c * b) := Nat.mul_le_mul_left 2 h
          _ = 2 * c * b := by ring
      exact Nat.lt_of_mul_lt_mul_right h2
    · have h3 := key (le_of_eq h1)
      rcases Nat.lt_or_eq_of_le h3 with h4 | h4
      · exact Or.inl h4
      · exact Or.inr ⟨h4, h2⟩

theorem roundNE_exact (k b : Nat) (hb : 0 < b) : roundNE (k * b) b = k := by
  have h1 : k * b / b = k := Nat.mul_div_cancel k hb
  have h2 : k * b % b = 0 := Nat.mul_mod_left k b
  simp [roundNE, h1, h2, hb]

theorem roundNE_le_of_le (a b k : Nat) (hb : 0 < b) (h : a ≤ k * b) : roundNE a b ≤ k := by
  have := roundNE_mono a b (k * b) b hb hb (Nat.mul_le_mul_right b h)
  rwa [roundNE_exact k b hb] at this

theorem le_roundNE_of_le (a b k : Nat) (hb : 0 < b) (h : k * b ≤ a) : k ≤ roundNE a b := by
  have := roundNE_mono (k * b) b a b hb hb (Nat.mul_le_mul_right b h)
  rwa [roundNE_exact k b hb] at this

theorem div_le_div_of_cross (a b c d : Nat) (hb : 0 < b) (hd : 0 < d) (h : a * d ≤ c * b) :
    a / b ≤ c / d := by
  rw [Nat.le_div_iff_mul_le hd]
  have h1 : a / b * b ≤ a := Nat.div_mul_le_self a b
  have h2 : a / b * d * b ≤ c * b := by
    calc a / b * d * b = a / b * b * d := by ring
      _ ≤ a * d := Nat.mul_le_mul_right d h1
      _ ≤ c * b := h
  exact Nat.le_of_mul_le_mul_right h2 hb

/-- A rounded value does not exceed the next power of two above the input. -/
theorem f32Round_le_pow (a b : Nat) (hb : 0 < b) :
    f32Round a b ≤ 2 ^ (ilog2 (a / b) + 1) := by
  unfold f32Round f32Shift
  have hlt : a / b < 2 ^ (ilog2 (a / b) + 1) := ilog2_lt_pow (a / b)
  generalize ilog2 (a / b) = L at *
  have ha : a < 2 ^ (L + 1) * b := by
    rw [Nat.div_lt_iff_lt_mul hb] at hlt
    exact hlt
  have hsplit : 2 ^ (L + 1) = 2 ^ (L + 1 - (L - 23)) * 2 ^ (L - 23) := by
    rw [← Nat.pow_add]
    congr 1
    omega
  have hpos : 0 < b * 2 ^ (L - 23) := Nat.mul_pos hb (Nat.pow_pos (by norm_num))
  have hr : roundNE a (b * 2 ^ (L - 23)) ≤ 2 ^ (L + 1 - (L - 23)) := by
    apply roundNE_le_of_le _ _ _ hpos
    calc a ≤ 2 ^ (L + 1) * b := le_of_lt ha
      _ = 2 ^ (L + 1 - (L - 23)) * 2 ^ (L - 23) * b := by rw [← hsplit]
      _ = 2 ^ (L + 1 - (L - 23)) * (b * 2 ^ (L - 23)) := by ring
  calc roundNE a (b * 2 ^ (L - 23)) * 2 ^ (L - 23)
      ≤ 2 ^ (L + 1 - (L - 23)) * 2 ^ (L - 23) := Nat.mul_le_mul_right _ hr
    _ = 2 ^ (L + 1) := hsplit.symm

/-- A rounded value is at least the power of two below the input, once the
input has 24 or more bits. -/
theorem pow_le_f32Round (a b : Nat) (hb : 0 < b) (hL : 24 ≤ ilog2 (a / b)) :
    2 ^ ilog2 (a / b) ≤ f32Round a b := by
  unfold f32Round f32Shift
  have hne : a / b ≠ 0 := by
    intro h0
    rw [h0] at hL
    have : ilog2 0 = 0 := by decide
    omega
  have hle : 2 ^ ilog2 (a / b) ≤ a / b := ilog2_pow_le (a / b) hne
  generalize ilog2 (a / b) = L at *
  have ha : 2 ^ L * b ≤ a := by
    rw [Nat.le_div_iff_mul_le hb] at hle
    exact hle
  have hsplit : 2 ^ L = 2 ^ 23 * 2 ^ (L - 23) := by
    rw [← Nat.pow_add]
    congr 1
    omega
  have hpos : 0 < b * 2 ^ (L - 23) := Nat.mul_pos hb (Nat.pow_pos (by norm_num))
  have hr : 2 ^ 23 ≤ roundNE a (b * 2 ^ (L - 23)) := by
    apply le_roundNE_of_le _ _ _ hpos
    calc 2 ^ 23 * (b * 2 ^ (L - 23)) = 2 ^ 23 * 2 ^ (L - 23) * b := by ring
      _ = 2 ^ L * b := by rw [← hsplit]
      _ ≤ a := ha
  calc 2 ^ L = 2 ^ 23 * 2 ^ (L - 23) := hsplit
    _ ≤ roundNE a (b * 2 ^ (L - 23)) * 2 ^ (L - 23) := Nat.mul_le_mul_right _ hr

/-- Rounding to binary32 is monotone in the fraction. -/
theorem f32Round_mono (a b c d : Nat) (hb : 0 < b) (hd : 0 < d) (h : a * d ≤ c * b) :
    f32Round a b ≤ f32Round c d := by
  have hdiv : a / b ≤ c / d := div_le_div_of_cross a b c d hb hd h
  have hlog : ilog2 (a / b) ≤ ilog2 (c / d) := ilog2_mono hdiv
  rcases Nat.lt_or_ge (ilog2 (a / b) - 23) (ilog2 (c / d) - 23) with hlt | hge
  · -- the inputs lie in different binades
    have h24 : 24 ≤ ilog2 (c / d) := by omega
    have hinc : ilog2 (a / b) + 1 ≤ ilog2 (c / d) := by omega
    calc f32Round a b ≤ 2 ^ (ilog2 (a / b) + 1) := f32Round_le_pow a b hb
      _ ≤ 2 ^ ilog2 (c / d) := Nat.pow_le_pow_right (by norm_num) hinc
      _ ≤ f32Round c d := pow_le_f32Round c d hd h24
  · -- same spacing
    have hsh : ilog2 (a / b) - 23 = ilog2 (c / d) - 23 := by omega
    unfold f32Round f32Shift
    rw [hsh]
    apply Nat.mul_le_mul_right
    have hp : 0 < 2 ^ (ilog2 (c / d) - 23) := Nat.pow_pos (by norm_num)
    apply roundNE_mono _ _ _ _ (Nat.mul_pos hb hp) (Nat.mul_pos hd hp)
    calc a * (d * 2 ^ (ilog2 (c / d) - 23)) = a * d * 2 ^ (ilog2 (c / d) - 23) := by ring
      _ ≤ c * b * 2 ^ (ilog2 (c / d) - 23) := Nat.mul_le_mul_right _ h
      _ = c * (b * 2 ^ (ilog2 (c / d) - 23)) := by ring

/-! ## Range of the ramp color -/

theorem f32OfNat_mono {m n : Nat} (h : m ≤ n) : f32OfNat m ≤ f32OfNat n := by
  unfold f32OfNat
  apply f32Round_mono _ _ _ _ (by norm_num) (by norm_num)
  simp only [Nat.mul_one]
  exact Nat.mul_le_mul_right _ h

theorem f32Mul_mono {x y z w : Nat} (h1 : x ≤ z) (h2 : y ≤ w) : f32Mul x y ≤ f32Mul z w := by
  unfold f32Mul
  have hp : 0 < 2 ^ F32_FRAC := Nat.pow_pos (by norm_num)
  apply f32Round_mono _ _ _ _ hp hp
  exact Nat.mul_le_mul_right _ (Nat.mul_le_mul h1 h2)

theorem f32Div_mono_left {x z : Nat} (y : Nat) (hy : 0 < y) (h : x ≤ z) :
    f32Div x y ≤ f32Div z y := by
  unfold f32Div
  apply f32Round_mono _ _ _ _ hy hy
  exact Nat.mul_le_mul_right _ (Nat.mul_le_mul_right _ h)

set_option maxRecDepth 100000 in
theorem f32OfNat_one : f32OfNat 1 = 2 ^ F32_FRAC := by decide

set_option maxRecDepth 100000 in
theorem f32Round_one : f32Round (2 ^ F32_FRAC) 1 = 2 ^ F32_FRAC := by decide

set_option maxRecDepth 100000 in
theorem f32Mul_one_one : f32Mul (2 ^ F32_FRAC) (2 ^ F32_FRAC) = 2 ^ F32_FRAC := by decide

set_option maxRecDepth 100000 in
theorem f32Mul_hue_one :
    f32Mul (f32OfNat RAMP_R) (2 ^ F32_FRAC) = RAMP_R * 2 ^ F32_FRAC ∧
    f32Mul (f32OfNat RAMP_G) (2 ^ F32_FRAC) = RAMP_G * 2 ^ F32_FRAC ∧
    f32Mul (f32OfNat RAMP_B) (2 ^ F32_FRAC) = RAMP_B * 2 ^ F32_FRAC := by decide

theorem f32OfNat_pos {n : Nat} (h : 0 < n) : 0 < f32OfNat n := by
  have h1 : f32OfNat 1 ≤ f32OfNat n := f32OfNat_mono h
  rw [f32OfNat_one] at h1
  have : 0 < 2 ^ F32_FRAC := Nat.pow_pos (by norm_num)
  omega

/-- A quotient of floats `x / y` with `x ≤ y` is at most 1. -/
theorem f32Div_le_one (x y : Nat) (hy : 0 < y) (h : x ≤ y) : f32Div x y ≤ 2 ^ F32_FRAC := by
  have h1 : f32Round (x * 2 ^ F32_FRAC) y ≤ f32Round (2 ^ F32_FRAC) 1 := by
    apply f32Round_mono _ _ _ _ hy (by norm_num)
    calc x * 2 ^ F32_FRAC * 1 = 2 ^ F32_FRAC * x := by ring
      _ ≤ 2 ^ F32_FRAC * y := Nat.mul_le_mul_left _ h
  rw [f32Round_one] at h1
  exact h1

/-- The curve value `progress³` never exceeds 1. -/
theorem rampCurve_le_one (e d : Nat) (hd : 0 < d) (h : e ≤ d) :
    rampCurve e d ≤ 2 ^ F32_FRAC := by
  unfold rampCurve
  have hp : f32Div (f32OfNat e) (f32OfNat d) ≤ 2 ^ F32_FRAC :=
    f32Div_le_one _ _ (f32OfNat_pos hd) (f32OfNat_mono h)
  simp only []
  generalize f32Div (f32OfNat e) (f32OfNat d) = p at hp
  have hq : f32Mul p p ≤ 2 ^ F32_FRAC := by
    have := f32Mul_mono hp hp
    rwa [f32Mul_one_one] at this
  have := f32Mul_mono hq hp
  rwa [f32Mul_one_one] at this

/-- Each channel of the ramp color is at most the channel of the hue, so the
conversion to 8 bits never wraps. -/
theorem rampChannel_le_hue (e d : Nat) (hd : 0 < d) (h : e ≤ d) :
    f32Trunc (rampScaled RAMP_R e d) ≤ RAMP_R ∧ f32Trunc (rampScaled RAMP_G e d) ≤ RAMP_G ∧
    f32Trunc (rampScaled RAMP_B e d) ≤ RAMP_B ∧
    rampChannel RAMP_R e d = f32Trunc (rampScaled RAMP_R e d) ∧
    rampChannel RAMP_G e d = f32Trunc (rampScaled RAMP_G e d) ∧
    rampChannel RAMP_B e d = f32Trunc (rampScaled RAMP_B e d) := by
  have hc := rampCurve_le_one e d hd h
  obtain ⟨m1, m2, m3⟩ := f32Mul_hue_one
  have hp : 0 < 2 ^ F32_FRAC := Nat.pow_pos (by norm_num)
  have b1 : f32Trunc (rampScaled RAMP_R e d) ≤ RAMP_R := by
    unfold f32Trunc rampScaled
    have := f32Mul_mono (le_refl (f32OfNat RAMP_R)) hc
    rw [m1] at this
    exact Nat.div_le_of_le_mul (by rw [Nat.mul_comm]; exact this)
  have b2 : f32Trunc (rampScaled RAMP_G e d) ≤ RAMP_G := by
    unfold f32Trunc rampScaled
    have := f32Mul_mono (le_refl (f32OfNat RAMP_G)) hc
    rw [m2] at this
    exact Nat.div_le_of_le_mul (by rw [Nat.mul_comm]; exact this)
  have b3 : f32Trunc (rampScaled RAMP_B e d) ≤ RAMP_B := by
    unfold f32Trunc rampScaled
    have := f32Mul_mono (le_refl (f32OfNat RAMP_B)) hc
    rw [m3] at this
    exact Nat.div_le_of_le_mul (by rw [Nat.mul_comm]; exact this)
  refine ⟨b1, b2, b3, ?_, ?_, ?_⟩
  · unfold rampChannel f32ToU8
    apply Nat.mod_eq_of_lt
    have : RAMP_R = 255 := rfl
    omega
  · unfold rampChannel f32ToU8
    apply Nat.mod_eq_of_lt
    have : RAMP_G = 60 := rfl
    omega
  · unfold rampChannel f32ToU8
    apply Nat.mod_eq_of_lt
    have : RAMP_B = 10 := rfl
    omega

/-! ## Distance of the ramp color from the exact formula -/

theorem roundNE_err (a c : Nat) (hc : 0 < c) :
    2 * (roundNE a c * c) ≤ 2 * a + c ∧ 2 * a ≤ 2 * (roundNE a c * c) + c := by
  have hdm : c * (a / c) + a % c = a := Nat.div_add_mod a c
  have hr : a % c < c := Nat.mod_lt a hc
  unfold roundNE
  simp only []
  generalize a / c = q at hdm
  generalize a % c = r at hdm hr
  have e1 : (q + 1) * c = c * q + c := by ring
  have e2 : q * c = c * q := by ring
  split
  · rw [e2]; omega
  · split
    · rw [e1]; omega
    · split
      · rw [e2]; omega
      · rw [e1]; omega

set_option maxRecDepth 100000 in
theorem ilog2_pow23 : ilog2 (2 ^ 23) = 23 := by decide

/-- In the normal range a rounding to binary32 has relative error at most
`2 ^ (-24)`. -/
theorem f32Round_rel (a b : Nat) (hb : 0 < b) (hn : 2 ^ 23 * b ≤ a) :
    2 ^ 24 * (f32Round a b * b) ≤ (2 ^ 24 + 1) * a ∧
    (2 ^ 24 - 1) * a ≤ 2 ^ 24 * (f32Round a b * b) := by
  have hdiv : 2 ^ 23 ≤ a / b := (Nat.le_div_iff_mul_le hb).mpr hn
  have hL : 23 ≤ ilog2 (a / b) := by
    have := ilog2_mono hdiv
    rwa [ilog2_pow23] at this
  have hne : a / b ≠ 0 := by omega
  have hle : 2 ^ ilog2 (a / b) ≤ a / b := ilog2_pow_le (a / b) hne
  unfold f32Round f32Shift
  generalize ilog2 (a / b) = L at *
  have ha : 2 ^ L * b ≤ a := (Nat.le_div_iff_mul_le hb).mp hle
  have hsplit : 2 ^ L = 2 ^ 23 * 2 ^ (L - 23) := by
    rw [← Nat.pow_add]
    congr 1
    omega
  have hpos : 0 < b * 2 ^ (L - 23) := Nat.mul_pos hb (Nat.pow_pos (by norm_num))
  obtain ⟨r1, r2⟩ := roundNE_err a (b * 2 ^ (L - 23)) hpos
  have hc : 2 ^ 23 * (b * 2 ^ (L - 23)) ≤ a := by
    calc 2 ^ 23 * (b * 2 ^ (L - 23)) = 2 ^ 23 * 2 ^ (L - 23) * b := by ring
      _ = 2 ^ L * b := by rw [← hsplit]
      _ ≤ a := ha
  have e : roundNE a (b * 2 ^ (L - 23)) * 2 ^ (L - 23) * b
      = roundNE a (b * 2 ^ (L - 23)) * (b * 2 ^ (L - 23)) := by ring
  rw [e]
  generalize roundNE a (b * 2 ^ (L - 23)) * (b * 2 ^ (L - 23)) = M at *
  generalize b * 2 ^ (L - 23) = c at *
  constructor <;> omega

theorem relU_pos : 0 < relU := by unfold relU; norm_num

theorem relU_le_one : relU ≤ 1 := by unfold relU; norm_num

theorem relU_pow_nonneg (k : Nat) : 0 ≤ relU ^ k := pow_nonneg (le_of_lt relU_pos) k

theorem near_round (a b : Nat) (hb : 0 < b) (hn : 2 ^ 23 * b ≤ a) :
    Near 1 ((a : ℚ) / (b : ℚ)) (f32Round a b : ℚ) := by
  obtain ⟨h1, h2⟩ := f32Round_rel a b hb hn
  have hbq : (0 : ℚ) < (b : ℚ) := by exact_mod_cast hb
  have q1 : ((2 : ℚ) ^ 24) * ((f32Round a b : ℚ) * b) ≤ (2 ^ 24 + 1) * (a : ℚ) := by
    exact_mod_cast h1
  have q2 : ((2 : ℚ) ^ 24 - 1) * (a : ℚ) ≤ 2 ^ 24 * ((f32Round a b : ℚ) * b) := by
    have : ((2 ^ 24 - 1 : Nat) : ℚ) = (2 : ℚ) ^ 24 - 1 := by norm_num
    rw [← this]
    exact_mod_cast h2
  have hR : (0 : ℚ) ≤ (f32Round a b : ℚ) := Nat.cast_nonneg _
  have hA : (0 : ℚ) ≤ (a : ℚ) := Nat.cast_nonneg _
  unfold Near relU
  rw [pow_one]
  constructor
  · rw [div_mul_eq_mul_div, div_le_iff₀ hbq]
    norm_num at q2 ⊢
    linarith
  · rw [le_div_iff₀ hbq]
    norm_num at q1 ⊢
    nlinarith

theorem near_refl (x : ℚ) : Near 0 x x := by
  unfold Near
  simp

theorem near_trans {j k : Nat} {x y z : ℚ} (h1 : Near j x y) (h2 : Near k y z) :
    Near (j + k) x z := by
  obtain ⟨a1, a2⟩ := h1
  obtain ⟨b1, b2⟩ := h2
  have hj := relU_pow_nonneg j
  have hk := relU_pow_nonneg k
  unfold Near
  rw [pow_add]
  constructor
  · calc x * (relU ^ j * relU ^ k) = x * relU ^ j * relU ^ k := by ring
      _ ≤ y * relU ^ k := mul_le_mul_of_nonneg_right a1 hk
      _ ≤ z := b1
  · calc z * (relU ^ j * relU ^ k) = z * relU ^ k * relU ^ j := by ring
      _ ≤ y * relU ^ j := mul_le_mul_of_nonneg_right b2 hj
      _ ≤ x := a2

theorem near_mul {j k : Nat} {x y z w : ℚ} (hx : 0 ≤ x) (hy : 0 ≤ y) (hz : 0 ≤ z)
    (hw : 0 ≤ w) (h1 : Near j x y) (h2 : Near k z w) : Near (j + k) (x * z) (y * w) := by
  obtain ⟨a1, a2⟩ := h1
  obtain ⟨b1, b2⟩ := h2
  have hj := relU_pow_nonneg j
  have hk := relU_pow_nonneg k
  unfold Near
  rw [pow_add]
  constructor
  · calc x * z * (relU ^ j * relU ^ k) = x * relU ^ j * (z * relU ^ k) := by ring
      _ ≤ y * w := mul_le_mul a1 b1 (mul_nonneg hz hk) hy
  · calc y * w * (relU ^ j * relU ^ k) = y * relU ^ j * (w * relU ^ k) := by ring
      _ ≤ x * z := mul_le_mul a2 b2 (mul_nonneg hw hk) hx

theorem near_div {j k : Nat} {x y z w : ℚ} (hx : 0 ≤ x) (hy : 0 ≤ y) (hz : 0 < z)
    (hw : 0 < w) (h1 : Near j x y) (h2 : Near k z w) : Near (j + k) (x / z) (y / w) := by
  obtain ⟨a1, a2⟩ := h1
  obtain ⟨b1, b2⟩ := h2
  have hj := relU_pow_nonneg j
  have hk := relU_pow_nonneg k
  unfold Near
  rw [pow_add]
  constructor
  · rw [div_mul_eq_mul_div, div_le_div_iff₀ hz hw]
    calc x * (relU ^ j * relU ^ k) * w = x * relU ^ j * (w * relU ^ k) := by ring
      _ ≤ y * z := mul_le_mul a1 b2 (mul_nonneg (le_of_lt hw) hk) hy
  · rw [div_mul_eq_mul_div, div_le_div_iff₀ hw hz]
    calc y * (relU ^ j * relU ^ k) * z = y * relU ^ j * (z * relU ^ k) := by ring
      _ ≤ x * w := mul_le_mul a2 b1 (mul_nonneg (le_of_lt hz) hk) hx

theorem near_scale {k : Nat} {x y : ℚ} (s : ℚ) (hs : 0 ≤ s) (h : Near k x y) :
    Near k (x * s) (y * s) := by
  obtain ⟨a1, a2⟩ := h
  unfold Near
  constructor
  · calc x * s * relU ^ k = x * relU ^ k * s := by ring
      _ ≤ y * s := mul_le_mul_of_nonneg_right a1 hs
  · calc y * s * relU ^ k = y * relU ^ k * s := by ring
      _ ≤ x * s := mul_le_mul_of_nonneg_right a2 hs

theorem near_congr {k : Nat} {x y x2 y2 : ℚ} (hx : x = x2) (hy : y = y2) (h : Near k x y) :
    Near k x2 y2 := by
  rw [← hx, ← hy]
  exact h

theorem near_ofNat (n : Nat) (h : 1 ≤ n) :
    Near 1 ((n : ℚ) * 2 ^ 149) (f32OfNat n : ℚ) := by
  have hn : 2 ^ 23 * 1 ≤ n * 2 ^ F32_FRAC := by
    have : 2 ^ 23 ≤ 2 ^ F32_FRAC := Nat.pow_le_pow_right (by norm_num) (by unfold F32_FRAC; omega)
    calc 2 ^ 23 * 1 = 1 * 2 ^ 23 := by ring
      _ ≤ n * 2 ^ F32_FRAC := Nat.mul_le_mul h this
  have := near_round (n * 2 ^ F32_FRAC) 1 (by norm_num) hn
  refine near_congr ?_ rfl this
  unfold F32_FRAC
  push_cast
  ring

theorem near_f32Div (x y : Nat) (hy : 0 < y) (hn : 2 ^ 23 * y ≤ x * 2 ^ F32_FRAC) :
    Near 1 ((x : ℚ) * 2 ^ 149 / (y : ℚ)) (f32Div x y : ℚ) := by
  have := near_round (x * 2 ^ F32_FRAC) y hy hn
  refine near_congr ?_ rfl this
  unfold F32_FRAC
  push_cast
  ring

theorem near_f32Mul (x y : Nat) (hn : 2 ^ 23 * 2 ^ F32_FRAC ≤ x * y) :
    Near 1 ((x : ℚ) * (y : ℚ) / 2 ^ 149) (f32Mul x y : ℚ) := by
  have := near_round (x * y) (2 ^ F32_FRAC) (Nat.pow_pos (by norm_num)) hn
  refine near_congr ?_ rfl this
  unfold F32_FRAC
  push_cast
  ring

set_option maxRecDepth 100000 in
theorem f32_bounds :
    f32OfNat (2 ^ 32) = 2 ^ 32 * 2 ^ F32_FRAC ∧
    f32Round (2 ^ F32_FRAC * 2 ^ F32_FRAC) (2 ^ 32 * 2 ^ F32_FRAC) = 2 ^ 117 ∧
    f32Mul (2 ^ 117) (2 ^ 117) = 2 ^ 85 ∧
    f32Mul (2 ^ 85) (2 ^ 117) = 2 ^ 53 := by decide

/-- Lower bounds on the intermediate floats of the ramp: none is subnormal. -/
theorem ramp_lower_bounds (e d : Nat) (he : 1 ≤ e) (hd1 : 1 ≤ d) (hd : d ≤ 2 ^ 32) :
    2 ^ F32_FRAC ≤ f32OfNat e ∧ 2 ^ F32_FRAC ≤ f32OfNat d ∧
    f32OfNat d ≤ 2 ^ 32 * 2 ^ F32_FRAC ∧
    2 ^ 117 ≤ f32Div (f32OfNat e) (f32OfNat d) ∧
    2 ^ 85 ≤ f32Mul (f32Div (f32OfNat e) (f32OfNat d)) (f32Div (f32OfNat e) (f32OfNat d)) ∧
    2 ^ 53 ≤ rampCurve e d := by
  obtain ⟨k1, k2, k3, k4⟩ := f32_bounds
  have b1 : 2 ^ F32_FRAC ≤ f32OfNat e := by
    have := f32OfNat_mono he
    rwa [f32OfNat_one] at this
  have b2 : 2 ^ F32_FRAC ≤ f32OfNat d := by
    have := f32OfNat_mono hd1
    rwa [f32OfNat_one] at this
  have b3 : f32OfNat d ≤ 2 ^ 32 * 2 ^ F32_FRAC := by
    have := f32OfNat_mono hd
    rwa [k1] at this
  have hU : 0 < 2 ^ F32_FRAC := Nat.pow_pos (by norm_num)
  have b4 : 2 ^ 117 ≤ f32Div (f32OfNat e) (f32OfNat d) := by
    unfold f32Div
    rw [← k2]
    apply f32Round_mono _ _ _ _ (Nat.mul_pos (Nat.pow_pos (by norm_num)) hU) (by omega)
    calc 2 ^ F32_FRAC * 2 ^ F32_FRAC * f32OfNat d
        ≤ 2 ^ F32_FRAC * 2 ^ F32_FRAC * (2 ^ 32 * 2 ^ F32_FRAC) := Nat.mul_le_mul_left _ b3
      _ = 2 ^ F32_FRAC * 2 ^ F32_FRAC * (2 ^ 32 * 2 ^ F32_FRAC) := rfl
      _ ≤ f32OfNat e * 2 ^ F32_FRAC * (2 ^ 32 * 2 ^ F32_FRAC) :=
          Nat.mul_le_mul_right _ (Nat.mul_le_mul_right _ b1)
  have b5 : 2 ^ 85 ≤ f32Mul (f32Div (f32OfNat e) (f32OfNat d))
      (f32Div (f32OfNat e) (f32OfNat d)) := by
    rw [← k3]
    exact f32Mul_mono b4 b4
  refine ⟨b1, b2, b3, b4, b5, ?_⟩
  unfold rampCurve
  simp only []
  rw [← k4]
  exact f32Mul_mono b5 b4

/-- The float product `hue * curve` is within 12 roundings of the exact value
`hue * (e / d) ^ 3`, for a hue that converts to float exactly. -/
theorem rampScaled_near (hue e d : Nat) (he : 1 ≤ e) (hd1 : 1 ≤ d) (hd : d ≤ 2 ^ 32)
    (hh : 1 ≤ hue) (hhue : f32OfNat hue = hue * 2 ^ F32_FRAC) :
    Near 12 ((hue : ℚ) * ((e : ℚ) / (d : ℚ)) ^ 3 * 2 ^ 149) (rampScaled hue e d : ℚ) := by
  obtain ⟨b1, b2, b3, b4, b5, b6⟩ := ramp_lower_bounds e d he hd1 hd
  have hU : (0 : ℚ) < 2 ^ 149 := by positivity
  have hUn : 0 < 2 ^ F32_FRAC := Nat.pow_pos (by norm_num)
  have hEq : (0 : ℚ) < (e : ℚ) := by exact_mod_cast he
  have hDq : (0 : ℚ) < (d : ℚ) := by exact_mod_cast hd1
  have hfe : 0 < f32OfNat e := by omega
  have hfd : 0 < f32OfNat d := by omega
  have hfeq : (0 : ℚ) < (f32OfNat e : ℚ) := by exact_mod_cast hfe
  have hfdq : (0 : ℚ) < (f32OfNat d : ℚ) := by exact_mod_cast hfd
  have hcurve : rampCurve e d
      = f32Mul (f32Mul (f32Div (f32OfNat e) (f32OfNat d)) (f32Div (f32OfNat e) (f32OfNat d)))
          (f32Div (f32OfNat e) (f32OfNat d)) := rfl
  -- conversions
  have a1 := near_ofNat e he
  have a2 := near_ofNat d hd1
  -- progress
  have n3 : 2 ^ 23 * f32OfNat d ≤ f32OfNat e * 2 ^ F32_FRAC := by
    have h55 : 2 ^ 23 * (2 ^ 32 * 2 ^ F32_FRAC) ≤ 2 ^ F32_FRAC * 2 ^ F32_FRAC := by
      unfold F32_FRAC
      norm_num
    calc 2 ^ 23 * f32OfNat d ≤ 2 ^ 23 * (2 ^ 32 * 2 ^ F32_FRAC) := Nat.mul_le_mul_left _ b3
      _ ≤ 2 ^ F32_FRAC * 2 ^ F32_FRAC := h55
      _ ≤ f32OfNat e * 2 ^ F32_FRAC := Nat.mul_le_mul_right _ b1
  have a3 := near_f32Div (f32OfNat e) (f32OfNat d) hfd n3
  have c3 : Near 3 ((e : ℚ) / (d : ℚ) * 2 ^ 149)
      (f32Div (f32OfNat e) (f32OfNat d) : ℚ) := by
    have b := near_scale (2 ^ 149) (le_of_lt hU)
      (near_div (mul_nonneg (le_of_lt hEq) (le_of_lt hU)) (le_of_lt hfeq)
        (mul_pos hDq hU) hfdq a1 a2)
    have b' := near_trans b (near_congr (by ring) rfl a3)
    refine near_congr ?_ rfl b'
    field_simp
    ring
  generalize f32Div (f32OfNat e) (f32OfNat d) = p at *
  have hpq : (0 : ℚ) ≤ (p : ℚ) := Nat.cast_nonneg _
  have hx : (0 : ℚ) ≤ (e : ℚ) / (d : ℚ) * 2 ^ 149 := by positivity
  -- progress * progress
  have n4 : 2 ^ 23 * 2 ^ F32_FRAC ≤ p * p := by
    have h1 : 2 ^ 23 * 2 ^ F32_FRAC ≤ 2 ^ 117 * 2 ^ 117 := by
      unfold F32_FRAC
      norm_num
    exact le_trans h1 (Nat.mul_le_mul b4 b4)
  have a4 := near_f32Mul p p n4
  have c4 : Near 7 (((e : ℚ) / (d : ℚ)) ^ 2 * 2 ^ 149) (f32Mul p p : ℚ) := by
    have b := near_scale (1 / 2 ^ 149) (by positivity) (near_mul hx hpq hx hpq c3 c3)
    have b' := near_trans b (near_congr (by ring) rfl a4)
    refine near_congr ?_ rfl b'
    field_simp
    ring
  generalize f32Mul p p = q at *
  have hqq : (0 : ℚ) ≤ (q : ℚ) := Nat.cast_nonneg _
  have hx2 : (0 : ℚ) ≤ ((e : ℚ) / (d : ℚ)) ^ 2 * 2 ^ 149 := by positivity
  -- curve
  have n5 : 2 ^ 23 * 2 ^ F32_FRAC ≤ q * p := by
    have h1 : 2 ^ 23 * 2 ^ F32_FRAC ≤ 2 ^ 85 * 2 ^ 117 := by
      unfold F32_FRAC
      norm_num
    exact le_trans h1 (Nat.mul_le_mul b5 b4)
  have a5 := near_f32Mul q p n5
  have c5 : Near 11 (((e : ℚ) / (d : ℚ)) ^ 3 * 2 ^ 149) (f32Mul q p : ℚ) := by
    have b := near_scale (1 / 2 ^ 149) (by positivity) (near_mul hx2 hqq hx hpq c4 c3)
    have b' := near_trans b (near_congr (by ring) rfl a5)
    refine near_congr ?_ rfl b'
    field_simp
    ring
  -- hue * curve
  have hscaled : rampScaled hue e d = f32Mul (hue * 2 ^ F32_FRAC) (rampCurve e d) := by
    unfold rampScaled
    rw [hhue]
  rw [hscaled, hcurve]
  rw [hcurve] at b6
  generalize f32Mul q p = c at *
  have n6 : 2 ^ 23 * 2 ^ F32_FRAC ≤ hue * 2 ^ F32_FRAC * c := by
    calc 2 ^ 23 * 2 ^ F32_FRAC = 1 * 2 ^ F32_FRAC * 2 ^ 23 := by ring
      _ ≤ hue * 2 ^ F32_FRAC * c :=
          Nat.mul_le_mul (Nat.mul_le_mul_right _ hh)
            (le_trans (Nat.pow_le_pow_right (by norm_num) (by norm_num)) b6)
  have a6 := near_f32Mul (hue * 2 ^ F32_FRAC) c n6
  have b := near_scale (hue : ℚ) (Nat.cast_nonneg _) c5
  have b' := near_trans b (near_congr (by unfold F32_FRAC; push_cast; field_simp; ring) rfl a6)
  refine near_congr ?_ rfl b'
  ring

theorem rampScaled_le (hue e d : Nat) (hd : 0 < d) (h : e ≤ d)
    (hmul : f32Mul (f32OfNat hue) (2 ^ F32_FRAC) = hue * 2 ^ F32_FRAC) :
    rampScaled hue e d ≤ hue * 2 ^ F32_FRAC := by
  unfold rampScaled
  have := f32Mul_mono (le_refl (f32OfNat hue)) (rampCurve_le_one e d hd h)
  rwa [hmul] at this

theorem floor_close (x y : ℚ) (hx : 0 ≤ x) (hy : 0 ≤ y) (h1 : x < y + 1) (h2 : y < x + 1) :
    ⌊y⌋₊ ≤ ⌊x⌋₊ + 1 ∧ ⌊x⌋₊ ≤ ⌊y⌋₊ + 1 := by
  constructor
  · rw [← Nat.floor_add_one hx]
    exact Nat.floor_mono (le_of_lt h2)
  · rw [← Nat.floor_add_one hy]
    exact Nat.floor_mono (le_of_lt h1)

theorem relU_pow12 : 1 - 12 / 2 ^ 24 ≤ relU ^ 12 := by
  unfold relU
  norm_num

set_option maxRecDepth 100000 in
/-- For a hue that is exact in binary32, the computed channel is at most the
hue and differs from `floor (hue * (e / d) ^ 3)` by at most 1. -/
theorem rampChannel_close (hue e d : Nat) (hd1 : 1 ≤ d) (hd : d ≤ 2 ^ 32) (hed : e ≤ d)
    (hh : 1 ≤ hue) (hh2 : hue ≤ 255) (hhue : f32OfNat hue = hue * 2 ^ F32_FRAC)
    (hmul : f32Mul (f32OfNat hue) (2 ^ F32_FRAC) = hue * 2 ^ F32_FRAC) :
    rampChannel hue e d ≤ hue ∧ rampChannel hue e d ≤ specChannel hue e d + 1 ∧
    specChannel hue e d ≤ rampChannel hue e d + 1 := by
  have hle := rampScaled_le hue e d hd1 hed hmul
  have hUn : 0 < 2 ^ F32_FRAC := Nat.pow_pos (by norm_num)
  have htr : f32Trunc (rampScaled hue e d) ≤ hue := by
    unfold f32Trunc
    exact Nat.div_le_of_le_mul (by rw [Nat.mul_comm]; exact hle)
  have hch : rampChannel hue e d = f32Trunc (rampScaled hue e d) := by
    unfold rampChannel f32ToU8
    exact Nat.mod_eq_of_lt (by omega)
  rcases Nat.eq_zero_or_pos e with h0 | hpos
  · subst h0
    have hz : specChannel hue 0 d = 0 := by simp [specChannel]
    rw [rampChannel_zero, hz]
    omega
  · have hn := rampScaled_near hue e d hpos hd1 hd hh hhue
    have hU : (0 : ℚ) < 2 ^ 149 := by positivity
    have hEq : (0 : ℚ) < (e : ℚ) := by exact_mod_cast hpos
    have hDq : (0 : ℚ) < (d : ℚ) := by exact_mod_cast hd1
    have hhq : (hue : ℚ) ≤ 255 := by exact_mod_cast hh2
    have hh0 : (0 : ℚ) ≤ (hue : ℚ) := Nat.cast_nonneg _
    have hn2 : Near 12 ((hue : ℚ) * ((e : ℚ) / (d : ℚ)) ^ 3)
        ((rampScaled hue e d : ℚ) / 2 ^ 149) := by
      have := near_scale (1 / 2 ^ 149) (by positivity) hn
      refine near_congr ?_ ?_ this
      · field_simp
        ring
      · ring
    generalize hv : rampScaled hue e d = v at *
    obtain ⟨n1, n2⟩ := hn2
    have hr := relU_pow12
    have hr1 : relU ^ 12 ≤ 1 := pow_le_one₀ (le_of_lt relU_pos) relU_le_one
    -- both values lie in [0, hue]
    have hfrac : (e : ℚ) / (d : ℚ) ≤ 1 := by
      rw [div_le_one hDq]
      exact_mod_cast hed
    have hfrac0 : (0 : ℚ) ≤ (e : ℚ) / (d : ℚ) := by positivity
    have hx0 : (0 : ℚ) ≤ (hue : ℚ) * ((e : ℚ) / (d : ℚ)) ^ 3 := by positivity
    have hx1 : (hue : ℚ) * ((e : ℚ) / (d : ℚ)) ^ 3 ≤ hue := by
      have : ((e : ℚ) / (d : ℚ)) ^ 3 ≤ 1 := pow_le_one₀ hfrac0 hfrac
      calc (hue : ℚ) * ((e : ℚ) / (d : ℚ)) ^ 3 ≤ hue * 1 := mul_le_mul_of_nonneg_left this hh0
        _ = hue := by ring
    have hy0 : (0 : ℚ) ≤ (v : ℚ) / 2 ^ 149 := by positivity
    have hy1 : (v : ℚ) / 2 ^ 149 ≤ hue := by
      rw [div_le_iff₀ hU]
      have : ((v : ℕ) : ℚ) ≤ ((hue * 2 ^ F32_FRAC : ℕ) : ℚ) := by exact_mod_cast hle
      unfold F32_FRAC at this
      push_cast at this
      exact this
    have hfx : ⌊(hue : ℚ) * ((e : ℚ) / (d : ℚ)) ^ 3⌋₊ = specChannel hue e d := by
      have e1 : (hue : ℚ) * ((e : ℚ) / (d : ℚ)) ^ 3
          = ((hue * e ^ 3 : ℕ) : ℚ) / ((d ^ 3 : ℕ) : ℚ) := by
        push_cast
        rw [div_pow]
        ring
      rw [e1, Nat.floor_div_eq_div]
      rfl
    have hfy : ⌊(v : ℚ) / 2 ^ 149⌋₊ = f32Trunc v := by
      have e1 : (v : ℚ) / 2 ^ 149 = (v : ℚ) / ((2 ^ 149 : ℕ) : ℚ) := by
        push_cast
        rfl
      rw [e1, Nat.floor_div_eq_div]
      rfl
    generalize (hue : ℚ) * ((e : ℚ) / (d : ℚ)) ^ 3 = x at *
    generalize hy : (v : ℚ) / 2 ^ 149 = y at *
    have c1 : x < y + 1 := by nlinarith
    have c2 : y < x + 1 := by nlinarith
    obtain ⟨f1, f2⟩ := floor_close x y hx0 hy0 c1 c2
    rw [hfx, hfy] at f1 f2
    rw [hch]
    exact ⟨htr, f1, f2⟩

/-! ## The ramp color -/

set_option maxRecDepth 100000 in
theorem f32OfNat_hue :
    f32OfNat RAMP_R = RAMP_R * 2 ^ F32_FRAC ∧ f32OfNat RAMP_G = RAMP_G * 2 ^ F32_FRAC ∧
    f32OfNat RAMP_B = RAMP_B * 2 ^ F32_FRAC := by decide

/-- After the ramp step of a fading, linked state that has not completed, the
current color is the computed color. -/
theorem rampStep_current (s : State) (now : Nat) (hf : s.isFading = true)
    (hl : s.pChar = true) (he : elapsedMs (millis now) s.fadeStartTime < s.fadeDuration) :
    (rampStep s now).1.currentR
      = rampChannel RAMP_R (elapsedMs (millis now) s.fadeStartTime) s.fadeDuration ∧
    (rampStep s now).1.currentG
      = rampChannel RAMP_G (elapsedMs (millis now) s.fadeStartTime) s.fadeDuration ∧
    (rampStep s now).1.currentB
      = rampChannel RAMP_B (elapsedMs (millis now) s.fadeStartTime) s.fadeDuration := by
  unfold rampStep
  have hnd : ¬ s.fadeDuration ≤ elapsedMs (millis now) s.fadeStartTime := by omega
  simp only [hf, hl, Bool.and_self, if_true, hnd, if_false]
  split
  · simp [setColor, sendCommand, hl]
  · rename_i hne
    simp only [not_or, not_not] at hne
    exact ⟨hne.1.symm, hne.2.1.symm, hne.2.2.symm⟩

set_option maxRecDepth 100000 in
/-- C4, as stated, fails: with duration `2 ^ 25` ms and elapsed `2 ^ 25 - 1` ms
the conversion `(float) elapsed` rounds up to the duration, the fading tick
computes and sends (255, 60, 10), and `floor (H * (e / D) ^ 3)` is
(254, 59, 9); with the default duration 3600000 ms and elapsed 1908609 ms the
red channel is 38 while the floor is 37. -/
theorem C4_exact_formula_counterexample :
    rampLong.isFading = true ∧ rampLong.pChar = true ∧
    elapsedMs (millis 33554431) rampLong.fadeStartTime = 33554431 ∧
    rampLong.fadeDuration = 33554432 ∧
    f32OfNat 33554431 = f32OfNat 33554432 ∧
    transmitted (rampStep rampLong 33554431).2 = [colorCmd 255 60 10] ∧
    (rampStep rampLong 33554431).1.isFading = true ∧
    (rampStep rampLong 33554431).1.currentR = 255 ∧
    specChannel RAMP_R 33554431 33554432 = 254 ∧
    specChannel RAMP_G 33554431 33554432 = 59 ∧
    specChannel RAMP_B 33554431 33554432 = 9 ∧
    rampChannel RAMP_R 1908609 3600000 = 38 ∧ specChannel RAMP_R 1908609 3600000 = 37 ∧
    ¬ (∀ D e : Nat, 0 < D → e < D → rampChannel RAMP_R e D = specChannel RAMP_R e D) := by
  refine ⟨rfl, rfl, by decide, rfl, by decide, by decide, by decide, by decide, by decide,
    by decide, by decide, by decide, by decide, ?_⟩
  intro h
  have h1 := h 33554432 33554431 (by decide) (by decide)
  revert h1
  decide

/-- C4, amended: for every duration `0 < D < 2 ^ 32` and elapsed `e < D`, the
color the fading tick computes is, per channel, the truncated single-precision
product `H * curve`; each channel is at most its hue, hence within [0,255] and
the 8-bit conversion never wraps; and each channel differs from
`floor (H * (e / D) ^ 3)` by at most 1. -/
theorem C4_ramp_color (s : State) (now : Nat) (hf : s.isFading = true) (hl : s.pChar = true)
    (hD : s.fadeDuration < ULONG_MOD)
    (he : elapsedMs (millis now) s.fadeStartTime < s.fadeDuration) :
    (rampStep s now).1.currentR
      = rampChannel RAMP_R (elapsedMs (millis now) s.fadeStartTime) s.fadeDuration ∧
    (rampStep s now).1.currentG
      = rampChannel RAMP_G (elapsedMs (millis now) s.fadeStartTime) s.fadeDuration ∧
    (rampStep s now).1.currentB
      = rampChannel RAMP_B (elapsedMs (millis now) s.fadeStartTime) s.fadeDuration ∧
    (rampStep s now).1.currentR ≤ 255 ∧ (rampStep s now).1.currentG ≤ 60 ∧
    (rampStep s now).1.currentB ≤ 10 ∧
    (rampStep s now).1.currentR
      = f32Trunc (rampScaled RAMP_R (elapsedMs (millis now) s.fadeStartTime) s.fadeDuration) ∧
    (rampStep s now).1.currentG
      = f32Trunc (rampScaled RAMP_G (elapsedMs (millis now) s.fadeStartTime) s.fadeDuration) ∧
    (rampStep s now).1.currentB
      = f32Trunc (rampScaled RAMP_B (elapsedMs (millis now) s.fadeStartTime) s.fadeDuration) ∧
    (rampStep s now).1.currentR
      ≤ specChannel RAMP_R (elapsedMs (millis now) s.fadeStartTime) s.fadeDuration + 1 ∧
    specChannel RAMP_R (elapsedMs (millis now) s.fadeStartTime) s.fadeDuration
      ≤ (rampStep s now).1.currentR + 1 ∧
    (rampStep s now).1.currentG
      ≤ specChannel RAMP_G (elapsedMs (millis now) s.fadeStartTime) s.fadeDuration + 1 ∧
    specChannel RAMP_G (elapsedMs (millis now) s.fadeStartTime) s.fadeDuration
      ≤ (rampStep s now).1.currentG + 1 ∧
    (rampStep s now).1.currentB
      ≤ specChannel RAMP_B (elapsedMs (millis now) s.fadeStartTime) s.fadeDuration + 1 ∧
    specChannel RAMP_B (elapsedMs (millis now) s.fadeStartTime) s.fadeDuration
      ≤ (rampStep s now).1.currentB + 1 := by
  obtain ⟨c1, c2, c3⟩ := rampStep_current s now hf hl he
  rw [c1, c2, c3]
  generalize elapsedMs (millis now) s.fadeStartTime = e at *
  generalize s.fadeDuration = d at *
  have hd1 : 1 ≤ d := by omega
  have hd : d ≤ 2 ^ 32 := by unfold ULONG_MOD at hD; omega
  have hed : e ≤ d := by omega
  obtain ⟨u1, u2, u3⟩ := f32OfNat_hue
  obtain ⟨m1, m2, m3⟩ := f32Mul_hue_one
  obtain ⟨_, _, _, t1, t2, t3⟩ := rampChannel_le_hue e d hd1 hed
  obtain ⟨r1, r2, r3⟩ := rampChannel_close RAMP_R e d hd1 hd hed (by decide) (by decide) u1 m1
  obtain ⟨g1, g2, g3⟩ := rampChannel_close RAMP_G e d hd1 hd hed (by decide) (by decide) u2 m2
  obtain ⟨b1, b2, b3⟩ := rampChannel_close RAMP_B e d hd1 hd hed (by decide) (by decide) u3 m3
  exact ⟨rfl, rfl, rfl, r1, g1, b1, t1, t2, t3, r2, r3, g2, g3, b2, b3⟩

set_option maxRecDepth 100000 in
/-- C4 at the scenario of the specification: duration 3600000 ms, elapsed
1800000 ms, color (31, 7, 1). -/
theorem C4_ramp_color_witness :
    rampRunning.isFading = true ∧ rampRunning.pChar = true ∧
    rampRunning.fadeDuration < ULONG_MOD ∧
    elapsedMs (millis 1800000) rampRunning.fadeStartTime < rampRunning.fadeDuration ∧
    (rampStep rampRunning 1800000).1.currentR = 31 ∧
    (rampStep rampRunning 1800000).1.currentG = 7 ∧
    (rampStep rampRunning 1800000).1.currentB = 1 ∧
    specChannel RAMP_R 1800000 3600000 = 31 ∧ specChannel RAMP_G 1800000 3600000 = 7 ∧
    specChannel RAMP_B 1800000 3600000 = 1 :=
  ⟨rfl, rfl, by decide, by decide,
    (C4_ramp_color rampRunning 1800000 rfl rfl (by decide) (by decide)).1.trans (by decide),
    (C4_ramp_color rampRunning 1800000 rfl rfl (by decide) (by decide)).2.1.trans (by decide),
    (C4_ramp_color rampRunning 1800000 rfl rfl (by decide) (by decide)).2.2.1.trans (by decide),
    by decide, by decide, by decide⟩

/-! ## Wake handshake -/

/-- C11, as stated, fails at the boundary: with a link present and exactly
200 ms elapsed since `fadePendingTime`, the fade-startup step changes nothing
and sends nothing, and the whole iteration sends no `SetColor (0,0,0)`. -/
theorem C11_wake_boundary_counterexample :
    awaitingWake.fadePending = true ∧ awaitingWake.pChar = true ∧
    awaitingWake.fadePendingTime = 1000 ∧
    elapsedMs (millis 1200) awaitingWake.fadePendingTime = 200 ∧
    fadeStartupStep awaitingWake 1200 = (awaitingWake, []) ∧
    (loop awaitingWake (tickAt 1200)).1.isFading = false ∧
    (loop awaitingWake (tickAt 1200)).1.fadePending = true ∧
    transmitted (loop awaitingWake (tickAt 1200)).2 = [powerOnCmd] ∧
    ¬ (∀ (s : State) (now : Nat), s.fadePending = true → s.pChar = true →
        200 ≤ elapsedMs (millis now) s.fadePendingTime →
        transmitted (fadeStartupStep s now).2 = [colorCmd 0 0 0]) := by
  refine ⟨by decide, by decide, by decide, by decide, by decide, by decide, by decide,
    by decide, ?_⟩
  intro h
  have h1 := h awaitingWake 1200 (by decide) (by decide) (by decide)
  revert h1
  decide

/-- C11, amended: in a state awaiting wake with a link present, on a tick at
which more than 200 ms have elapsed since `fadePendingTime` the fade-startup
step writes `SetColor (0,0,0)` exactly once without touching the pending-retry
record, sets the current color to (0,0,0), records `fadeStartTime` as the
time of the tick, clears `fadePending` and sets `isFading`; on a tick at which
at most 200 ms have elapsed, or with no link, it changes nothing and sends
nothing. -/
theorem C11_wake_handshake (s : State) (now : Nat) (hp : s.fadePending = true) :
    (s.pChar = true → 200 < elapsedMs (millis now) s.fadePendingTime →
      fadeStartupStep s now =
        ({ s with fadePending := false, currentR := 0, currentG := 0, currentB := 0,
                  isFading := true, fadeStartTime := millis now },
          [Event.logSetColor 0 0 0, Event.write (colorCmd 0 0 0), Event.logBeganFading]) ∧
      transmitted (fadeStartupStep s now).2 = [colorCmd 0 0 0] ∧
      SameRetry s (fadeStartupStep s now).1 ∧
      (fadeStartupStep s now).1.currentR = 0 ∧ (fadeStartupStep s now).1.currentG = 0 ∧
      (fadeStartupStep s now).1.currentB = 0 ∧
      (fadeStartupStep s now).1.fadeStartTime = millis now ∧
      (fadeStartupStep s now).1.fadePending = false ∧
      (fadeStartupStep s now).1.isFading = true) ∧
    (elapsedMs (millis now) s.fadePendingTime ≤ 200 ∨ s.pChar = false →
      fadeStartupStep s now = (s, [])) := by
  constructor
  · intro hl ht
    rcases fadeStartupStep_cases s now with ⟨_, _, _, hq⟩ | ⟨hn, _⟩
    · rw [hq]
      exact ⟨rfl, rfl, ⟨rfl, rfl, rfl, rfl, rfl⟩, rfl, rfl, rfl, rfl, rfl, rfl⟩
    · exact absurd ⟨hp, hl, ht⟩ hn
  · intro h
    rcases fadeStartupStep_cases s now with ⟨_, h2, h3, _⟩ | ⟨_, hq⟩
    · rcases h with h | h
      · omega
      · rw [h] at h2
        exact absurd h2 (by decide)
    · exact hq

/-- C11 on the state awaiting wake since 1000 ms: nothing at 1200 ms, the
handshake at 1201 ms. -/
theorem C11_wake_handshake_witness :
    awaitingWake.fadePending = true ∧ awaitingWake.pChar = true ∧
    200 < elapsedMs (millis 1201) awaitingWake.fadePendingTime ∧
    transmitted (fadeStartupStep awaitingWake 1201).2 = [colorCmd 0 0 0] ∧
    (fadeStartupStep awaitingWake 1201).1.isFading = true ∧
    elapsedMs (millis 1200) awaitingWake.fadePendingTime ≤ 200 ∧
    fadeStartupStep awaitingWake 1200 = (awaitingWake, []) :=
  ⟨by decide, by decide, by decide,
    ((C11_wake_handshake awaitingWake 1201 (by decide)).1 (by decide) (by decide)).2.1,
    ((C11_wake_handshake awaitingWake 1201 (by decide)).1 (by decide) (by decide)).2.2.2.2.2.2.2.2,
    by decide,
    (C11_wake_handshake awaitingWake 1200 (by decide)).2 (Or.inl (by decide))⟩

/-! ## Invariants of an iteration, step by step -/

/-- An invariant `I` and an event property `E` hold along an iteration when
every step keeps them; a step may instead produce an event with property `B`,
after which nothing more is asserted. -/
theorem loop_guarded_invariant (I : State → Prop) (E B : Event → Prop) (i : TickIn)
    (h1 : ∀ s, I s → (∃ e ∈ (connectStep s i.scanFound).2, B e) ∨
      (I (connectStep s i.scanFound).1 ∧ ∀ e ∈ (connectStep s i.scanFound).2, E e))
    (h2 : ∀ s, I s → (∃ e ∈ (fadeStartupStep s i.now).2, B e) ∨
      (I (fadeStartupStep s i.now).1 ∧ ∀ e ∈ (fadeStartupStep s i.now).2, E e))
    (h3 : ∀ s, I s → (∃ e ∈ (retryStep s i.now).2, B e) ∨
      (I (retryStep s i.now).1 ∧ ∀ e ∈ (retryStep s i.now).2, E e))
    (h4 : ∀ s, I s → (∃ e ∈ (pendingColorStep s i.now).2, B e) ∨
      (I (pendingColorStep s i.now).1 ∧ ∀ e ∈ (pendingColorStep s i.now).2, E e))
    (h5 : ∀ s, I s → (∃ e ∈ (alarmStep s i.now i.localTime).2, B e) ∨
      (I (alarmStep s i.now i.localTime).1 ∧ ∀ e ∈ (alarmStep s i.now i.localTime).2, E e))
    (h6 : ∀ s, I s → (∃ e ∈ (rampStep s i.now).2, B e) ∨
      (I (rampStep s i.now).1 ∧ ∀ e ∈ (rampStep s i.now).2, E e)) :
    ∀ s, I s → (∃ e ∈ (loop s i).2, B e) ∨ (I (loop s i).1 ∧ ∀ e ∈ (loop s i).2, E e) := by
  intro s hs
  unfold loop
  simp only []
  rcases h1 s hs with ⟨e, he, hb⟩ | ⟨a1, a2⟩
  · exact Or.inl ⟨e, by simp [he], hb⟩
  generalize connectStep s i.scanFound = r1 at *
  rcases h2 r1.1 a1 with ⟨e, he, hb⟩ | ⟨b1, b2⟩
  · exact Or.inl ⟨e, by simp [he], hb⟩
  generalize fadeStartupStep r1.1 i.now = r2 at *
  rcases h3 r2.1 b1 with ⟨e, he, hb⟩ | ⟨c1, c2⟩
  · exact Or.inl ⟨e, by simp [he], hb⟩
  generalize retryStep r2.1 i.now = r3 at *
  rcases h4 r3.1 c1 with ⟨e, he, hb⟩ | ⟨d1, d2⟩
  · exact Or.inl ⟨e, by simp [he], hb⟩
  generalize pendingColorStep r3.1 i.now = r4 at *
  rcases h5 r4.1 d1 with ⟨e, he, hb⟩ | ⟨e1, e2⟩
  · exact Or.inl ⟨e, by simp [he], hb⟩
  generalize alarmStep r4.1 i.now i.localTime = r5 at *
  rcases h6 r5.1 e1 with ⟨e, he, hb⟩ | ⟨f1, f2⟩
  · exact Or.inl ⟨e, by simp [he], hb⟩
  refine Or.inr ⟨f1, ?_⟩
  intro e he
  simp only [List.mem_append] at he
  rcases he with ((((he | he) | he) | he) | he) | he
  · exact a2 e he
  · exact b2 e he
  · exact c2 e he
  · exact d2 e he
  · exact e2 e he
  · exact f2 e he

/-- The two outcomes of the reliable-repeat step. -/
theorem retryStep_cases (s : State) (now : Nat) :
    (0 < s.repeatCount ∧ s.pChar = true ∧ 120 ≤ elapsedMs (millis now) s.lastRepeatTime ∧
      retryStep s now =
        ({ s with repeatCount := s.repeatCount - 1, lastRepeatTime := millis now },
          [Event.retransmit s.pendingFrame, Event.logRetry (s.repeatCount - 1)])) ∨
    (¬ (0 < s.repeatCount ∧ s.pChar = true ∧ 120 ≤ elapsedMs (millis now) s.lastRepeatTime) ∧
      retryStep s now = (s, [])) := by
  unfold retryStep State.pendingFrame
  by_cases h : 0 < s.repeatCount ∧ s.pChar = true ∧
      120 ≤ elapsedMs (millis now) s.lastRepeatTime
  · left
    obtain ⟨h1, h2, h3⟩ := h
    refine ⟨h1, h2, h3, ?_⟩
    simp [h1, h2, h3]
  · right
    refine ⟨h, ?_⟩
    have : ¬ ((decide (0 < s.repeatCount) && s.pChar
        && decide (120 ≤ elapsedMs (millis now) s.lastRepeatTime)) = true) := by
      simpa [and_assoc] using h
    rw [if_neg this]

/-- The two outcomes of the pending instant-on step. -/
theorem pendingColorStep_cases (s : State) (now : Nat) :
    (s.pendingColorSend = true ∧ s.pChar = true ∧
      150 < elapsedMs (millis now) s.pendingColorTime ∧
      pendingColorStep s now =
        ({ s with pendingColorSend := false
                  repeatCmd := memcpy s.repeatCmd (colorCmd s.manualR s.manualG s.manualB) 9
                  repeatCmdLen := 9
                  repeatCount := 2
                  lastRepeatTime := millis now },
          [Event.logSetColorReliable s.manualR s.manualG s.manualB,
            Event.write (colorCmd s.manualR s.manualG s.manualB)])) ∨
    (¬ (s.pendingColorSend = true ∧ s.pChar = true ∧
        150 < elapsedMs (millis now) s.pendingColorTime) ∧
      pendingColorStep s now = (s, [])) := by
  unfold pendingColorStep
  by_cases h : s.pendingColorSend = true ∧ s.pChar = true ∧
      150 < elapsedMs (millis now) s.pendingColorTime
  · left
    obtain ⟨h1, h2, h3⟩ := h
    refine ⟨h1, h2, h3, ?_⟩
    simp [h1, h2, h3, setColorReliable, sendReliable, sendCommand, colorCmd]
  · right
    refine ⟨h, ?_⟩
    have : ¬ ((s.pendingColorSend && s.pChar
        && decide (150 < elapsedMs (millis now) s.pendingColorTime)) = true) := by
      simpa [and_assoc] using h
    rw [if_neg this]

/-- The two outcomes of the day reset. -/
theorem dayReset_cases (s : State) (tm : Tm) :
    dayReset s tm = s ∨
    dayReset s tm = { s with alarmTriggeredToday := false, lastResetDay := tm.tm_mday } := by
  unfold dayReset
  split
  · exact Or.inr rfl
  · exact Or.inl rfl

/-- Closed form of `startRamp`, with and without a link. -/
theorem startRamp_eq (s : State) (now : Nat) :
    startRamp s now =
      ({ s with pendingColorSend := false, isFading := false
                repeatCmd := memcpy s.repeatCmd powerOnCmd 9
                repeatCmdLen := 9
                repeatCount := 2
                lastRepeatTime := millis now
                fadePending := true
                fadePendingTime := millis now },
        [Event.logRampStarting s.fadeDuration, Event.logPowerOn,
          if s.pChar then Event.write powerOnCmd else Event.logSkipped]) := by
  by_cases h : s.pChar = true <;>
    simp [startRamp, powerOn, sendReliable, sendCommand, powerOnCmd, h]

/-! ## Instant-on -/

theorem toU8_natCast (n : Nat) (h : n ≤ 255) : toU8 (n : Int) = n := by
  unfold toU8
  omega

/-- Closed form of the `/on` handler. -/
theorem handleOn_eq (s : State) (r g b : Option Int) (now : Nat) :
    handleOn s r g b now =
      ({ setManual s r g b with
          isFading := false
          fadePending := false
          repeatCmd := memcpy s.repeatCmd powerOnCmd 9
          repeatCmdLen := 9
          repeatCount := 2
          lastRepeatTime := millis now
          pendingColorSend := true
          pendingColorTime := millis now },
        [Event.logApiOn (setManual s r g b).manualR (setManual s r g b).manualG
            (setManual s r g b).manualB, Event.logPowerOn,
          if s.pChar then Event.write powerOnCmd else Event.logSkipped]) := by
  have h1 : (setManual s r g b).pChar = s.pChar := by
    unfold setManual
    cases r <;> cases g <;> cases b <;> rfl
  have h2 : (setManual s r g b).repeatCmd = s.repeatCmd := by
    unfold setManual
    cases r <;> cases g <;> cases b <;> rfl
  unfold handleOn
  simp only []
  generalize setManual s r g b = w at *
  by_cases h : s.pChar = true <;>
    simp [powerOn, sendReliable, sendCommand, powerOnCmd, h, h1, h2]

theorem pendingFrame_memcpy (buf f : Frame) (u : State) (h1 : u.repeatCmd = memcpy buf f f.length)
    (h2 : u.repeatCmdLen = f.length) : u.pendingFrame = f := by
  unfold State.pendingFrame
  rw [h1, h2]
  simp [memcpy]

theorem onlyPowerOn_nil : ∀ e ∈ ([] : List Event), OnlyPowerOn e := by
  intro e he
  cases he

theorem earlyInv_mono {t now now2 : Nat} {u : State} (h : EarlyInv t now u) (hle : now ≤ now2) :
    EarlyInv t now2 u := by
  obtain ⟨h1, h2, h3, h4, h5⟩ := h
  refine ⟨h1, h2, h3, h4, fun hf => ?_⟩
  obtain ⟨t1, a, b, c⟩ := h5 hf
  exact ⟨t1, a, by omega, c⟩

/-- During the first 150 ms after an instant-on, an iteration keeps the
invariant and transmits nothing but `PowerOn`. -/
theorem loop_early (t : Nat) (i : TickIn) (hlo : t ≤ i.now) (hhi : i.now ≤ t + 150)
    (u : State) (hu : EarlyInv t i.now u) :
    EarlyInv t i.now (loop u i).1 ∧ ∀ e ∈ (loop u i).2, OnlyPowerOn e := by
  have key := loop_guarded_invariant (EarlyInv t i.now) OnlyPowerOn (fun _ => False) i
    ?_ ?_ ?_ ?_ ?_ ?_ u hu
  · rcases key with ⟨_, _, hf⟩ | h
    · exact absurd hf id
    · exact h
  · -- connect
    intro s hs
    rw [connectStep_linked s i.scanFound hs.1]
    exact Or.inr ⟨hs, onlyPowerOn_nil⟩
  · -- fade startup cannot fire yet
    intro s hs
    right
    rcases fadeStartupStep_cases s i.now with ⟨hf, _, ht, _⟩ | ⟨_, hq⟩
    · exfalso
      obtain ⟨t1, a, b, c⟩ := hs.2.2.2.2 hf
      rw [c] at ht
      have := elapsedMs_millis_le t1 i.now b
      omega
    · rw [hq]
      exact ⟨hs, onlyPowerOn_nil⟩
  · -- retry resends PowerOn
    intro s hs
    right
    obtain ⟨h1, h2, h3, h4, h5⟩ := hs
    rcases retryStep_cases s i.now with ⟨_, _, _, hq⟩ | ⟨_, hq⟩
    · rw [hq]
      refine ⟨⟨h1, h2, h3, h4, h5⟩, ?_⟩
      intro e he f hf
      simp only [List.mem_cons, List.mem_singleton, List.not_mem_nil, or_false] at he
      rcases he with rfl | rfl
      · simp [writtenFrame, resentFrame] at hf
        rw [← hf]
        exact h3
      · simp [writtenFrame, resentFrame] at hf
    · rw [hq]
      exact ⟨⟨h1, h2, h3, h4, h5⟩, onlyPowerOn_nil⟩
  · -- the pending color send cannot fire yet
    intro s hs
    right
    rcases pendingColorStep_cases s i.now with ⟨hf, _, ht, _⟩ | ⟨_, hq⟩
    · exfalso
      rw [hs.2.2.2.1 hf] at ht
      have := elapsedMs_millis_le t i.now hlo
      omega
    · rw [hq]
      exact ⟨hs, onlyPowerOn_nil⟩
  · -- alarm
    intro s hs
    right
    obtain ⟨h1, h2, h3, h4, h5⟩ := hs
    rcases alarmStep_cases s i.now i.localTime with
      ⟨_, hq⟩ | ⟨tm, _, _, _, hq⟩ | ⟨tm, _, _, _, hq⟩
    · rw [hq]
      exact ⟨⟨h1, h2, h3, h4, h5⟩, onlyPowerOn_nil⟩
    · rw [hq]
      refine ⟨?_, onlyPowerOn_nil⟩
      rcases dayReset_cases s tm with hd | hd <;> rw [hd] <;> exact ⟨h1, h2, h3, h4, h5⟩
    · rw [hq, startRamp_eq]
      have hp : ({ dayReset s tm with alarmTriggeredToday := true } : State).pChar = true := by
        rcases dayReset_cases s tm with hd | hd <;> rw [hd] <;> exact h1
      refine ⟨⟨hp, rfl, ?_, ?_, ?_⟩, ?_⟩
      · exact pendingFrame_memcpy _ powerOnCmd _ rfl rfl
      · exact fun hc => absurd (show false = true from hc) (by decide)
      · intro _
        exact ⟨i.now, hlo, le_refl _, rfl⟩
      · intro e he f hf
        rw [hp] at he
        simp only [List.mem_cons, List.mem_singleton, List.not_mem_nil, or_false, if_true] at he
        rcases he with rfl | rfl | rfl | rfl
        · simp [writtenFrame, resentFrame] at hf
        · simp [writtenFrame, resentFrame] at hf
        · simp [writtenFrame, resentFrame] at hf
        · simp [writtenFrame, resentFrame] at hf
          exact hf.symm
  · -- ramp is idle
    intro s hs
    right
    rw [rampStep_idle s i.now hs.2.1]
    exact ⟨hs, onlyPowerOn_nil⟩

theorem run_early (t : Nat) : ∀ (ticks : List TickIn) (u : State) (T : Nat),
    EarlyInv t T u → t ≤ T → List.Pairwise (· ≤ ·) (T :: ticks.map TickIn.now) →
    (∀ i ∈ ticks, i.now ≤ t + 150) →
    ∀ x ∈ (runLoop u ticks).2, OnlyPowerOn x.2 := by
  intro ticks
  induction ticks with
  | nil =>
    intro u T _ _ _ _ x hx
    simp [runLoop] at hx
  | cons i is ih =>
    intro u T hu hT hs hhi x hx
    simp only [List.map_cons, List.pairwise_cons, List.mem_cons, forall_eq_or_imp,
      List.mem_map, forall_exists_index, and_imp, forall_apply_eq_imp_iff₂] at hs
    obtain ⟨⟨hti, _⟩, hiis, hsorted⟩ := hs
    have hlo : t ≤ i.now := le_trans hT hti
    obtain ⟨k1, k2⟩ := loop_early t i hlo (hhi i (List.mem_cons_self _ _)) u
      (earlyInv_mono hu hti)
    simp only [runLoop, List.mem_append, List.mem_map] at hx
    rcases hx with ⟨e, he, rfl⟩ | hx
    · exact k2 e he
    · have hs2 : List.Pairwise (· ≤ ·) (i.now :: is.map TickIn.now) := by
        simp only [List.pairwise_cons, List.mem_map, forall_exists_index, and_imp,
          forall_apply_eq_imp_iff₂]
        exact ⟨hiis, hsorted⟩
      exact ih (loop u i).1 i.now k1 hlo hs2
        (fun j hj => hhi j (List.mem_cons_of_mem _ hj)) x hx

theorem mem_transmitted {es : List Event} {f : Frame} (h : f ∈ transmitted es) :
    ∃ e ∈ es, writtenFrame e = some f ∨ resentFrame e = some f := by
  induction es with
  | nil => simp [transmitted] at h
  | cons e es ih =>
    cases e <;> simp only [transmitted, List.mem_cons] at h
    case write g =>
      rcases h with rfl | h
      · exact ⟨_, List.mem_cons_self _ _, Or.inl rfl⟩
      · obtain ⟨e, he, hf⟩ := ih h
        exact ⟨e, List.mem_cons_of_mem _ he, hf⟩
    case retransmit g =>
      rcases h with rfl | h
      · exact ⟨_, List.mem_cons_self _ _, Or.inr rfl⟩
      · obtain ⟨e, he, hf⟩ := ih h
        exact ⟨e, List.mem_cons_of_mem _ he, hf⟩
    all_goals
      obtain ⟨e, he, hf⟩ := ih h
      exact ⟨e, List.mem_cons_of_mem _ he, hf⟩

/-! ## Invariants of a run -/

theorem runLoop_guarded_invariant (I : State → Prop) (E B : Event → Prop)
    (hstep : ∀ (i : TickIn) (s : State), I s →
      (∃ e ∈ (loop s i).2, B e) ∨ (I (loop s i).1 ∧ ∀ e ∈ (loop s i).2, E e)) :
    ∀ (ticks : List TickIn) (s : State), I s →
      (∃ x ∈ (runLoop s ticks).2, B x.2) ∨
      (I (runLoop s ticks).1 ∧ ∀ x ∈ (runLoop s ticks).2, E x.2) := by
  intro ticks
  induction ticks with
  | nil =>
    intro s hs
    exact Or.inr ⟨hs, fun x hx => by simp [runLoop] at hx⟩
  | cons i is ih =>
    intro s hs
    simp only [runLoop]
    rcases hstep i s hs with ⟨e, he, hb⟩ | ⟨h1, h2⟩
    · exact Or.inl ⟨(i.now, e), by simp [he], hb⟩
    · rcases ih (loop s i).1 h1 with ⟨x, hx, hb⟩ | ⟨k1, k2⟩
      · exact Or.inl ⟨x, by simp [hx], hb⟩
      · refine Or.inr ⟨k1, ?_⟩
        intro x hx
        simp only [List.mem_append, List.mem_map] at hx
        rcases hx with ⟨e, he, rfl⟩ | hx
        · exact h2 e he
        · exact k2 x hx

theorem runActions_invariant (I : State → Prop) (E : Event → Prop)
    (hstep : ∀ (a : Action) (s : State), I s → I (step s a).1 ∧ ∀ e ∈ (step s a).2, E e) :
    ∀ (acts : List Action) (s : State), I s →
      I (runActions s acts).1 ∧ ∀ e ∈ (runActions s acts).2, E e := by
  intro acts
  induction acts with
  | nil =>
    intro s hs
    exact ⟨hs, fun e he => by simp [runActions] at he⟩
  | cons a as ih =>
    intro s hs
    obtain ⟨h1, h2⟩ := hstep a s hs
    obtain ⟨k1, k2⟩ := ih (step s a).1 h1
    simp only [runActions]
    refine ⟨k1, ?_⟩
    intro e he
    simp only [List.mem_append] at he
    rcases he with he | he
    · exact h2 e he
    · exact k2 e he

/-- The two outcomes of the connection step. -/
theorem connectStep_cases (s : State) (b : Bool) :
    (s.pChar = true ∧ connectStep s b = (s, [])) ∨
    (s.pChar = false ∧ connectStep s b = ({ s with pChar := b }, [Event.logScanning])) := by
  unfold connectStep
  by_cases h : s.pChar = true
  · exact Or.inl ⟨h, by simp [h]⟩
  · simp only [Bool.not_eq_true] at h
    exact Or.inr ⟨h, by simp [h]⟩

/-! ## Stop -/

/-- Closed form of the `/stop` handler. -/
theorem handleStop_eq (s : State) (now : Nat) :
    handleStop s now =
      ({ s with pendingColorSend := false
                repeatCmd := memcpy s.repeatCmd powerOffCmd 9
                repeatCmdLen := 9
                repeatCount := 2
                lastRepeatTime := millis now
                isFading := false
                fadePending := false },
        [Event.logApiStop, Event.logPowerOff,
          if s.pChar then Event.write powerOffCmd else Event.logSkipped]) := by
  by_cases h : s.pChar = true <;>
    simp [handleStop, powerOff, sendReliable, sendCommand, powerOffCmd, h]

theorem onlyPowerOffRetry_nil : ∀ e ∈ ([] : List Event), OnlyPowerOffRetry e := by
  intro e he
  cases he

/-- While no reliable command is issued, a stopped device stays stopped and an
iteration transmits nothing but retries of `PowerOff`. -/
theorem loop_stopped (i : TickIn) (u : State) (hu : Stopped u) :
    (∃ e ∈ (loop u i).2, issuesReliable e = true) ∨
    (Stopped (loop u i).1 ∧ ∀ e ∈ (loop u i).2, OnlyPowerOffRetry e) := by
  refine loop_guarded_invariant Stopped OnlyPowerOffRetry (fun e => issuesReliable e = true) i
    ?_ ?_ ?_ ?_ ?_ ?_ u hu
  · intro s hs
    right
    rcases connectStep_cases s i.scanFound with ⟨_, hq⟩ | ⟨_, hq⟩
    · rw [hq]
      exact ⟨hs, onlyPowerOffRetry_nil⟩
    · rw [hq]
      refine ⟨hs, ?_⟩
      intro e he
      simp only [List.mem_singleton] at he
      subst he
      exact ⟨rfl, fun f hf => by simp [resentFrame] at hf⟩
  · intro s hs
    right
    rcases fadeStartupStep_cases s i.now with ⟨hf, _⟩ | ⟨_, hq⟩
    · rw [hs.2.1] at hf
      exact absurd hf (by decide)
    · rw [hq]
      exact ⟨hs, onlyPowerOffRetry_nil⟩
  · intro s hs
    right
    rcases retryStep_cases s i.now with ⟨_, _, _, hq⟩ | ⟨_, hq⟩
    · rw [hq]
      refine ⟨hs, ?_⟩
      intro e he
      simp only [List.mem_cons, List.mem_singleton, List.not_mem_nil, or_false] at he
      rcases he with rfl | rfl
      · refine ⟨rfl, fun f hf => ?_⟩
        simp [resentFrame] at hf
        rw [← hf]
        exact hs.2.2.2
      · exact ⟨rfl, fun f hf => by simp [resentFrame] at hf⟩
    · rw [hq]
      exact ⟨hs, onlyPowerOffRetry_nil⟩
  · intro s hs
    right
    rcases pendingColorStep_cases s i.now with ⟨hf, _⟩ | ⟨_, hq⟩
    · rw [hs.2.2.1] at hf
      exact absurd hf (by decide)
    · rw [hq]
      exact ⟨hs, onlyPowerOffRetry_nil⟩
  · intro s hs
    rcases alarmStep_cases s i.now i.localTime with
      ⟨_, hq⟩ | ⟨tm, _, _, _, hq⟩ | ⟨tm, _, _, _, hq⟩
    · rw [hq]
      exact Or.inr ⟨hs, onlyPowerOffRetry_nil⟩
    · rw [hq]
      refine Or.inr ⟨?_, onlyPowerOffRetry_nil⟩
      rcases dayReset_cases s tm with hd | hd <;> rw [hd] <;> exact hs
    · left
      rw [hq, startRamp_eq]
      exact ⟨Event.logPowerOn, by simp, rfl⟩
  · intro s hs
    right
    rw [rampStep_idle s i.now hs.1]
    exact ⟨hs, onlyPowerOffRetry_nil⟩

/-- C13: from every state and at every call time `t`, `/stop` leaves
`isFading`, `fadePending` and `pendingColorSend` false and the pending retry
holding the `PowerOff` frame with count 2 and stamp `t`; `PowerOff` is written
once when a link is present. In every later run of iterations in which no
reliable command is issued (no alarm trigger), nothing is sent through
`sendCommand`, so no `SetColor` frame, and every transmission is a retry of
`PowerOff`. -/
theorem C13_stop (s : State) (t : Nat) :
    (handleStop s t).1.isFading = false ∧ (handleStop s t).1.fadePending = false ∧
    (handleStop s t).1.pendingColorSend = false ∧
    (handleStop s t).1.pendingFrame = powerOffCmd ∧ (handleStop s t).1.repeatCount = 2 ∧
    (handleStop s t).1.lastRepeatTime = millis t ∧
    (t < ULONG_MOD → (handleStop s t).1.lastRepeatTime = t) ∧
    (s.pChar = true → transmitted (handleStop s t).2 = [powerOffCmd]) ∧
    (s.pChar = false → transmitted (handleStop s t).2 = []) ∧
    ∀ ticks : List TickIn, NoReliableIssue (runLoop (handleStop s t).1 ticks).2 →
      NoWrite (runLoop (handleStop s t).1 ticks).2 ∧
      (∀ x ∈ retransmissions (runLoop (handleStop s t).1 ticks).2, x.2 = powerOffCmd) ∧
      (∀ f ∈ transmitted ((runLoop (handleStop s t).1 ticks).2.map Prod.snd),
        f = powerOffCmd) ∧
      Stopped (runLoop (handleStop s t).1 ticks).1 := by
  have heq := handleStop_eq s t
  have hst : Stopped (handleStop s t).1 := by
    rw [heq]
    exact ⟨rfl, rfl, rfl, pendingFrame_memcpy _ powerOffCmd _ rfl rfl⟩
  have htx1 : s.pChar = true → transmitted (handleStop s t).2 = [powerOffCmd] := by
    intro h
    rw [heq, h]
    simp [transmitted]
  have htx2 : s.pChar = false → transmitted (handleStop s t).2 = [] := by
    intro h
    rw [heq, h]
    simp [transmitted]
  have hcount : (handleStop s t).1.repeatCount = 2 := by rw [heq]
  have hstamp : (handleStop s t).1.lastRepeatTime = millis t := by rw [heq]
  refine ⟨hst.1, hst.2.1, hst.2.2.1, hst.2.2.2, hcount, hstamp,
    fun ht => hstamp.trans (millis_of_lt t ht), htx1, htx2, ?_⟩
  intro ticks hq
  rcases runLoop_guarded_invariant Stopped OnlyPowerOffRetry
      (fun e => issuesReliable e = true) loop_stopped ticks _ hst with ⟨x, hx, hb⟩ | ⟨k1, k2⟩
  · rw [hq x hx] at hb
    exact absurd hb (by decide)
  · have hret : ∀ x ∈ retransmissions (runLoop (handleStop s t).1 ticks).2,
        x.2 = powerOffCmd := by
      intro x hx
      simp only [retransmissions, List.mem_filterMap, Option.map_eq_some'] at hx
      obtain ⟨y, hy, f, hf, rfl⟩ := hx
      exact (k2 y hy).2 f hf
    refine ⟨fun x hx => (k2 x hx).1, hret, ?_, k1⟩
    intro f hf
    obtain ⟨e, he, hfe⟩ := mem_transmitted hf
    obtain ⟨x, hx, rfl⟩ := List.mem_map.mp he
    rcases hfe with hfe | hfe
    · rw [(k2 x hx).1] at hfe
      cases hfe
    · exact (k2 x hx).2 f hfe

set_option maxRecDepth 100000 in
/-- C13 on a ramp stopped at 2000 ms: the later iterations transmit the two
`PowerOff` retries and nothing else. -/
theorem C13_stop_witness :
    fadingState.isFading = true ∧ fadingState.pChar = true ∧
    transmitted (handleStop fadingState 2000).2 = [powerOffCmd] ∧
    NoReliableIssue (runLoop (handleStop fadingState 2000).1
      [tickAt 2050, tickAt 2130, tickAt 2260, tickAt 2500]).2 ∧
    (∀ f ∈ transmitted ((runLoop (handleStop fadingState 2000).1
      [tickAt 2050, tickAt 2130, tickAt 2260, tickAt 2500]).2.map Prod.snd),
      f = powerOffCmd) ∧
    transmitted ((runLoop (handleStop fadingState 2000).1
      [tickAt 2050, tickAt 2130, tickAt 2260, tickAt 2500]).2.map Prod.snd)
      = [powerOffCmd, powerOffCmd] :=
  ⟨rfl, rfl, (C13_stop fadingState 2000).2.2.2.2.2.2.2.1 rfl, by decide,
    ((C13_stop fadingState 2000).2.2.2.2.2.2.2.2.2
      [tickAt 2050, tickAt 2130, tickAt 2260, tickAt 2500] (by decide)).2.2.1,
    by decide⟩

/-! ## Commands issued without a link -/

theorem connectStep_noResend (s : State) (b : Bool) :
    (connectStep s b).2.filterMap resentFrame = [] := by
  rcases connectStep_cases s b with ⟨_, hq⟩ | ⟨_, hq⟩ <;> rw [hq] <;> rfl

theorem fadeStartupStep_noResend (s : State) (now : Nat) :
    (fadeStartupStep s now).2.filterMap resentFrame = [] := by
  rcases fadeStartupStep_cases s now with ⟨_, _, _, hq⟩ | ⟨_, hq⟩ <;> rw [hq] <;> rfl

theorem pendingColorStep_noResend (s : State) (now : Nat) :
    (pendingColorStep s now).2.filterMap resentFrame = [] := by
  rcases pendingColorStep_cases s now with ⟨_, _, _, hq⟩ | ⟨_, hq⟩ <;> rw [hq] <;> rfl

theorem alarmStep_noResend (s : State) (now : Nat) (lt : Option Tm) :
    (alarmStep s now lt).2.filterMap resentFrame = [] := by
  rcases alarmStep_cases s now lt with ⟨_, hq⟩ | ⟨tm, _, _, _, hq⟩ | ⟨tm, _, _, _, hq⟩
  · rw [hq]
    rfl
  · rw [hq]
    rfl
  · rw [hq, startRamp_eq]
    by_cases h : (dayReset s tm).pChar = true <;> simp [h, resentFrame]

theorem rampStep_noResend (s : State) (now : Nat) :
    (rampStep s now).2.filterMap resentFrame = [] := by
  unfold rampStep
  by_cases hp : s.pChar = true <;> by_cases hf : s.isFading = true <;>
    simp [hp, hf, setColor, sendCommand, resentFrame]
  split <;> [skip; split] <;> simp [resentFrame]

theorem flagCount_le_one_iff (u : State) :
    flagCount u ≤ 1 ↔
      (u.isFading = true → u.fadePending = false ∧ u.pendingColorSend = false) ∧
      (u.fadePending = true → u.pendingColorSend = false) := by
  unfold flagCount
  cases u.isFading <;> cases u.fadePending <;> cases u.pendingColorSend <;> simp

theorem startRamp_flagCount (s : State) (now : Nat) : flagCount (startRamp s now).1 ≤ 1 := by
  rw [startRamp_eq]
  simp [flagCount]

theorem dayReset_flagCount (s : State) (tm : Tm) : flagCount (dayReset s tm) = flagCount s := by
  rcases dayReset_cases s tm with h | h <;> rw [h]
  rfl

theorem handleSetAlarm_flagCount (s : State) (p : AlarmParams) :
    flagCount (handleSetAlarm s p).1 = flagCount s := by
  obtain ⟨h, m, d, e, o⟩ := p
  unfold handleSetAlarm
  cases h <;> cases m <;> cases d <;> cases e <;> cases o <;> rfl

/-- One iteration keeps at most one of the three flags set. -/
theorem loop_flagCount (s : State) (i : TickIn) (h : flagCount s ≤ 1) :
    flagCount (loop s i).1 ≤ 1 := by
  have key := loop_guarded_invariant (fun u => flagCount u ≤ 1) (fun _ => True)
    (fun _ => False) i ?_ ?_ ?_ ?_ ?_ ?_ s h
  · rcases key with ⟨_, _, hf⟩ | ⟨k, _⟩
    · exact hf.elim
    · exact k
  · intro u hu
    right
    refine ⟨?_, fun _ _ => trivial⟩
    rcases connectStep_cases u i.scanFound with ⟨_, hq⟩ | ⟨_, hq⟩ <;> rw [hq] <;> exact hu
  · intro u hu
    right
    refine ⟨?_, fun _ _ => trivial⟩
    rcases fadeStartupStep_cases u i.now with ⟨hf, _, _, hq⟩ | ⟨_, hq⟩
    · rw [hq]
      have := ((flagCount_le_one_iff u).1 hu).2 hf
      have hi : u.isFading = false := by
        by_contra hc
        simp only [Bool.not_eq_false] at hc
        have := (((flagCount_le_one_iff u).1 hu).1 hc).1
        rw [hf] at this
        exact absurd this (by decide)
      simp [flagCount, this]
    · rw [hq]
      exact hu
  · intro u hu
    right
    refine ⟨?_, fun _ _ => trivial⟩
    rcases retryStep_cases u i.now with ⟨_, _, _, hq⟩ | ⟨_, hq⟩ <;> rw [hq] <;> exact hu
  · intro u hu
    right
    refine ⟨?_, fun _ _ => trivial⟩
    rcases pendingColorStep_cases u i.now with ⟨hf, _, _, hq⟩ | ⟨_, hq⟩
    · rw [hq]
      have e : flagCount u = u.isFading.toNat + u.fadePending.toNat + 1 := by
        simp [flagCount, hf]
      have : u.isFading.toNat + u.fadePending.toNat + 1 ≤ 1 := e ▸ hu
      simp only [flagCount, Bool.toNat_false]
      omega
    · rw [hq]
      exact hu
  · intro u hu
    right
    refine ⟨?_, fun _ _ => trivial⟩
    rcases alarmStep_cases u i.now i.localTime with
      ⟨_, hq⟩ | ⟨tm, _, _, _, hq⟩ | ⟨tm, _, _, _, hq⟩
    · rw [hq]
      exact hu
    · rw [hq, dayReset_flagCount]
      exact hu
    · rw [hq]
      exact startRamp_flagCount _ _
  · intro u hu
    right
    refine ⟨?_, fun _ _ => trivial⟩
    have hle : flagCount (rampStep u i.now).1 ≤ flagCount u := by
      unfold rampStep
      split
      · simp only []
        split
        · simp [flagCount, setColor, sendCommand]
          split <;> simp
        · split
          · simp [flagCount, setColor, sendCommand]
            split <;> simp
          · exact Nat.le_refl _
      · exact Nat.le_refl _
    exact Nat.le_trans hle hu

/-- Every action keeps at most one of the three flags set. -/
theorem step_flagCount (s : State) (a : Action) (h : flagCount s ≤ 1) :
    flagCount (step s a).1 ≤ 1 := by
  cases a with
  | tick i => exact loop_flagCount s i h
  | start time now =>
    simp only [step, handleStart]
    exact startRamp_flagCount _ _
  | stop now =>
    simp only [step]
    rw [handleStop_eq]
    simp [flagCount]
  | instantOn r g b now =>
    simp only [step]
    rw [handleOn_eq]
    simp [flagCount]
  | setAlarm p =>
    simp only [step]
    rw [handleSetAlarm_flagCount]
    exact h

/-- C15: in every state reachable from the initial state by any sequential
interleaving of loop iterations and the requests `/start`, `/stop`, `/on` and
`/setalarm`, at most one of `isFading`, `fadePending` and `pendingColorSend`
is true. -/
theorem C15_flags_mutually_exclusive (acts : List Action) :
    flagCount (runActions State.init acts).1 ≤ 1 ∧
    ¬ ((runActions State.init acts).1.isFading = true ∧
        (runActions State.init acts).1.fadePending = true) ∧
    ¬ ((runActions State.init acts).1.isFading = true ∧
        (runActions State.init acts).1.pendingColorSend = true) ∧
    ¬ ((runActions State.init acts).1.fadePending = true ∧
        (runActions State.init acts).1.pendingColorSend = true) := by
  have h : flagCount (runActions State.init acts).1 ≤ 1 :=
    (runActions_invariant (fun u => flagCount u ≤ 1) (fun _ => True)
      (fun a s hs => ⟨step_flagCount s a hs, fun _ _ => trivial⟩) acts State.init
      (by decide)).1
  obtain ⟨h1, h2⟩ := (flagCount_le_one_iff _).1 h
  refine ⟨h, ?_, ?_, ?_⟩
  · rintro ⟨a, b⟩
    rw [(h1 a).1] at b
    exact absurd b (by decide)
  · rintro ⟨a, b⟩
    rw [(h1 a).2] at b
    exact absurd b (by decide)
  · rintro ⟨a, b⟩
    rw [h2 a] at b
    exact absurd b (by decide)

set_option maxRecDepth 100000 in
/-- Each of the three flags is set at some point of the run `mixedRun`, and
none is set at its end. -/
theorem flagCount_mixedRun :
    (runActions State.init (mixedRun.take 2)).1.pendingColorSend = true ∧
    (runActions State.init (mixedRun.take 5)).1.fadePending = true ∧
    (runActions State.init (mixedRun.take 7)).1.isFading = true ∧
    (runActions State.init (mixedRun.take 8)).1.pendingColorSend = true ∧
    flagCount (runActions State.init mixedRun).1 = 0 := by
  decide

/-! ## Inert alarm step -/

theorem noRampStart_nil : ∀ e ∈ ([] : List Event), NoRampStart e := by
  intro e he
  cases he

theorem rampStep_disabled (s : State) (now : Nat) :
    (rampStep s now).1.alarmEnabled = s.alarmEnabled ∧
      ∀ e ∈ (rampStep s now).2, NoRampStart e := by
  unfold rampStep
  split
  · simp only []
    split
    · simp [NoRampStart, setColor, sendCommand]
      split <;> simp
    · split
      · simp [NoRampStart, setColor, sendCommand]
        split <;> simp
      · exact ⟨rfl, noRampStart_nil⟩
  · exact ⟨rfl, noRampStart_nil⟩

/-- The alarm step does nothing when it is not eligible or the clock cannot be read. -/
theorem alarmStep_inert (s : State) (now : Nat) (lt : Option Tm)
    (h : s.isFading = true ∨ s.fadePending = true ∨ s.pChar = false ∨
      s.alarmEnabled = false ∨ lt = none) : alarmStep s now lt = (s, []) := by
  rcases alarmStep_cases s now lt with ⟨_, hq⟩ | ⟨tm, ht, he, _, _⟩ | ⟨tm, ht, he, _, _⟩
  · exact hq
  all_goals
    exfalso
    simp only [alarmEligible, Bool.and_eq_true, Bool.not_eq_true'] at he
    obtain ⟨⟨⟨e1, e2⟩, e3⟩, e4⟩ := he
    rcases h with h | h | h | h | h
    · rw [e1] at h
      exact absurd h (by decide)
    · rw [e2] at h
      exact absurd h (by decide)
    · rw [e4] at h
      exact absurd h (by decide)
    · rw [e3] at h
      exact absurd h (by decide)
    · rw [ht] at h
      exact absurd h (by simp)

/-- With the alarm disabled, an iteration leaves it disabled and neither
triggers the alarm nor starts a ramp. -/
theorem loop_disabled (s : State) (i : TickIn) (h : s.alarmEnabled = false) :
    (loop s i).1.alarmEnabled = false ∧ ∀ e ∈ (loop s i).2, NoRampStart e := by
  have key := loop_guarded_invariant (fun u => u.alarmEnabled = false) NoRampStart
    (fun _ => False) i ?_ ?_ ?_ ?_ ?_ ?_ s h
  · rcases key with ⟨_, _, hf⟩ | k
    · exact hf.elim
    · exact k
  · intro u hu
    right
    rcases connectStep_cases u i.scanFound with ⟨_, hq⟩ | ⟨_, hq⟩
    · rw [hq]
      exact ⟨hu, noRampStart_nil⟩
    · rw [hq]
      refine ⟨hu, ?_⟩
      intro e he
      simp only [List.mem_singleton] at he
      subst he
      simp [NoRampStart]
  · intro u hu
    right
    rcases fadeStartupStep_cases u i.now with ⟨_, _, _, hq⟩ | ⟨_, hq⟩
    · rw [hq]
      refine ⟨hu, ?_⟩
      intro e he
      simp only [List.mem_cons, List.mem_singleton, List.not_mem_nil, or_false] at he
      rcases he with rfl | rfl | rfl <;> simp [NoRampStart]
    · rw [hq]
      exact ⟨hu, noRampStart_nil⟩
  · intro u hu
    right
    rcases retryStep_cases u i.now with ⟨_, _, _, hq⟩ | ⟨_, hq⟩
    · rw [hq]
      refine ⟨hu, ?_⟩
      intro e he
      simp only [List.mem_cons, List.mem_singleton, List.not_mem_nil, or_false] at he
      rcases he with rfl | rfl <;> simp [NoRampStart]
    · rw [hq]
      exact ⟨hu, noRampStart_nil⟩
  · intro u hu
    right
    rcases pendingColorStep_cases u i.now with ⟨_, _, _, hq⟩ | ⟨_, hq⟩
    · rw [hq]
      refine ⟨hu, ?_⟩
      intro e he
      simp only [List.mem_cons, List.mem_singleton, List.not_mem_nil, or_false] at he
      rcases he with rfl | rfl <;> simp [NoRampStart]
    · rw [hq]
      exact ⟨hu, noRampStart_nil⟩
  · intro u hu
    right
    rw [alarmStep_inert u i.now i.localTime (Or.inr (Or.inr (Or.inr (Or.inl hu))))]
    exact ⟨hu, noRampStart_nil⟩
  · intro u hu
    right
    obtain ⟨k1, k2⟩ := rampStep_disabled u i.now
    exact ⟨k1.trans hu, k2⟩

/-- With the alarm disabled, no action other than `/setalarm` enables it, and
none produces the alarm trigger. -/
theorem step_disabled (s : State) (a : Action) (h : s.alarmEnabled = false)
    (ha : a.keepsAlarm = true) :
    (step s a).1.alarmEnabled = false ∧ ∀ e ∈ (step s a).2, e ≠ Event.logAlarmTriggered := by
  cases a with
  | tick i =>
    obtain ⟨k1, k2⟩ := loop_disabled s i h
    exact ⟨k1, fun e he => (k2 e he).1⟩
  | start time now =>
    simp only [step, handleStart]
    rw [startRamp_eq]
    refine ⟨?_, ?_⟩
    · cases time <;> exact h
    · intro e he
      simp only [List.mem_cons, List.mem_singleton, List.not_mem_nil, or_false] at he
      rcases he with rfl | rfl | rfl | rfl
      · simp
      · simp
      · simp
      · split <;> simp
  | stop now =>
    simp only [step]
    rw [handleStop_eq]
    refine ⟨h, ?_⟩
    intro e he
    simp only [List.mem_cons, List.mem_singleton, List.not_mem_nil, or_false] at he
    rcases he with rfl | rfl | rfl
    · simp
    · simp
    · split <;> simp
  | instantOn r g b now =>
    obtain ⟨_, k⟩ := handleOn_latch s r g b now
    have hen : (handleOn s r g b now).1.alarmEnabled = s.alarmEnabled := by
      unfold handleOn setManual powerOn sendReliable sendCommand
      cases r <;> cases g <;> cases b <;> simp <;> split <;> rfl
    simp only [step]
    exact ⟨hen.trans h, fun e he hc => (List.count_eq_zero.1 k) (hc ▸ he)⟩
  | setAlarm p => simp [Action.keepsAlarm] at ha

theorem run_disabled : ∀ (acts : List Action) (s : State), s.alarmEnabled = false →
    (∀ a ∈ acts, a.keepsAlarm = true) →
    (runActions s acts).1.alarmEnabled = false ∧ alarmTriggers (runActions s acts).2 = 0 := by
  intro acts
  induction acts with
  | nil =>
    intro s hs _
    exact ⟨hs, rfl⟩
  | cons a as ih =>
    intro s hs hk
    obtain ⟨h1, h2⟩ := step_disabled s a hs (hk a (List.mem_cons_self _ _))
    obtain ⟨k1, k2⟩ := ih (step s a).1 h1 (fun b hb => hk b (List.mem_cons_of_mem _ hb))
    simp only [runActions]
    refine ⟨k1, ?_⟩
    rw [alarmTriggers_append, k2, Nat.add_zero]
    exact List.count_eq_zero.2 (fun hm => h2 _ hm rfl)

/-- C16: the alarm step is inert unless eligible. When, at the alarm step, a
ramp is fading, a wake is pending, no link is present, the alarm is disabled
or the wall clock cannot be read, the step changes nothing (so the latch
`alarmTriggeredToday` and `lastResetDay` keep their values) and produces no
event, so `startRamp` is not invoked. A disabled alarm never starts a ramp,
whatever the clock reads: iterations leave it disabled and neither trigger the
alarm nor start a ramp, and in any interleaving with `/start`, `/stop` and `/on`
the alarm never triggers. -/
theorem C16_alarm_inert (s : State) (now : Nat) (lt : Option Tm) :
    ((s.isFading = true ∨ s.fadePending = true ∨ s.pChar = false ∨
        s.alarmEnabled = false ∨ lt = none) →
      alarmStep s now lt = (s, []) ∧
      (alarmStep s now lt).1.alarmTriggeredToday = s.alarmTriggeredToday ∧
      (alarmStep s now lt).1.lastResetDay = s.lastResetDay ∧
      (alarmStep s now lt).1.fadePending = s.fadePending ∧
      ∀ e ∈ (alarmStep s now lt).2, NoRampStart e) ∧
    (s.alarmEnabled = false →
      (∀ ticks : List TickIn, (runLoop s ticks).1.alarmEnabled = false ∧
        ∀ x ∈ (runLoop s ticks).2, NoRampStart x.2) ∧
      (∀ acts : List Action, (∀ a ∈ acts, a.keepsAlarm = true) →
        alarmTriggers (runActions s acts).2 = 0 ∧
        (runActions s acts).1.alarmEnabled = false)) := by
  refine ⟨?_, ?_⟩
  · intro h
    have hq := alarmStep_inert s now lt h
    refine ⟨hq, ?_, ?_, ?_, ?_⟩
    · rw [hq]
    · rw [hq]
    · rw [hq]
    · rw [hq]
      exact noRampStart_nil
  · intro h
    refine ⟨?_, ?_⟩
    · intro ticks
      rcases runLoop_guarded_invariant (fun u => u.alarmEnabled = false) NoRampStart
          (fun _ => False)
          (fun i u hu => Or.inr (loop_disabled u i hu)) ticks s h with ⟨_, _, hf⟩ | k
      · exact hf.elim
      · exact k
    · intro acts hk
      obtain ⟨k1, k2⟩ := run_disabled acts s h hk
      exact ⟨k2, k1⟩

set_option maxRecDepth 100000 in
/-- C16 on the linked initial state, whose alarm is disabled and set to 07:00:
an alarm step reading 07:00 changes nothing, and a run of iterations and
requests that all read 07:00 never triggers the alarm. With the alarm enabled
the same iteration triggers it. -/
theorem C16_alarm_inert_witness :
    linkedInit.alarmEnabled = false ∧
    alarmStep linkedInit 10000 (tickClock 10000 5 7 0).localTime = (linkedInit, []) ∧
    (∀ a ∈ disabledRun, a.keepsAlarm = true) ∧
    alarmTriggers (runActions linkedInit disabledRun).2 = 0 ∧
    alarmTriggers (loop alarmArmed (tickClock 10000 5 7 0)).2 = 1 :=
  ⟨rfl,
    ((C16_alarm_inert linkedInit 10000 (tickClock 10000 5 7 0).localTime).1
      (Or.inr (Or.inr (Or.inr (Or.inl rfl))))).1,
    by decide,
    (((C16_alarm_inert linkedInit 10000 (tickClock 10000 5 7 0).localTime).2 rfl).2
      disabledRun (by decide)).1,
    by decide⟩

/-! ## Change detection during fading -/

/-- The two outcomes of the ramp step before the end of the ramp. -/
theorem rampStep_fading_cases (s : State) (now : Nat) (hf : s.isFading = true)
    (hl : s.pChar = true) (he : elapsedMs (millis now) s.fadeStartTime < s.fadeDuration) :
    (colorChanged s now ∧ rampStep s now =
      ({ s with currentR := (newColor s now).1
                currentG := (newColor s now).2.1
                currentB := (newColor s now).2.2 },
        [Event.logSetColor (newColor s now).1 (newColor s now).2.1 (newColor s now).2.2,
          Event.write (colorCmd (newColor s now).1 (newColor s now).2.1 (newColor s now).2.2)])) ∨
    (¬ colorChanged s now ∧ rampStep s now = (s, [])) := by
  by_cases hc : colorChanged s now
  · left
    refine ⟨hc, ?_⟩
    have hc2 := hc
    unfold colorChanged newColor at hc2
    simp only [] at hc2
    unfold rampStep
    simp only [hf, hl, Bool.and_self, if_true, if_neg (Nat.not_le.2 he)]
    rw [if_pos hc2]
    simp [setColor, sendCommand, hl, colorCmd, newColor]
  · right
    refine ⟨hc, ?_⟩
    have hc2 := hc
    unfold colorChanged newColor at hc2
    simp only [] at hc2
    unfold rampStep
    simp only [hf, hl, Bool.and_self, if_true, if_neg (Nat.not_le.2 he)]
    rw [if_neg hc2]

/-- In a linked, fading state with no wake and no color send pending, an
iteration is the reliable-repeat step followed by the ramp step. -/
theorem loop_fading (s : State) (i : TickIn) (hf : s.isFading = true) (hl : s.pChar = true)
    (hp : s.fadePending = false) (hc : s.pendingColorSend = false) :
    loop s i = ((rampStep (retryStep s i.now).1 i.now).1,
      (retryStep s i.now).2 ++ (rampStep (retryStep s i.now).1 i.now).2) := by
  have h1 := connectStep_linked s i.scanFound hl
  have h2 : fadeStartupStep s i.now = (s, []) := by
    rcases fadeStartupStep_cases s i.now with ⟨h, _⟩ | ⟨_, hq⟩
    · rw [hp] at h
      exact absurd h (by decide)
    · exact hq
  have hu : (retryStep s i.now).1.isFading = true ∧
      (retryStep s i.now).1.pendingColorSend = false := by
    rcases retryStep_cases s i.now with ⟨_, _, _, hq⟩ | ⟨_, hq⟩ <;> rw [hq] <;> exact ⟨hf, hc⟩
  have h4 : pendingColorStep (retryStep s i.now).1 i.now = ((retryStep s i.now).1, []) := by
    rcases pendingColorStep_cases (retryStep s i.now).1 i.now with ⟨h, _⟩ | ⟨_, hq⟩
    · rw [hu.2] at h
      exact absurd h (by decide)
    · exact hq
  have h5 := alarmStep_inert (retryStep s i.now).1 i.now i.localTime (Or.inl hu.1)
  simp only [loop, h1, h2, h4, h5, List.nil_append, List.append_nil]

theorem retryStep_noWrite (s : State) (now : Nat) :
    (retryStep s now).2.filterMap writtenFrame = [] := by
  rcases retryStep_cases s now with ⟨_, _, _, hq⟩ | ⟨_, hq⟩ <;> rw [hq] <;> rfl

/-- C17: change detection during fading. In every fading state with a link
present and elapsed time below the duration, the ramp step transmits if and
only if the newly computed color differs from the current color in at least
one channel. When it transmits, it writes the `SetColor` frame of the computed
color once, changes nothing but the current color (the retry record stays as
it was), and the current color becomes the computed one; otherwise the state,
hence the current color, is unchanged. In a whole iteration from such a state
with no wake and no color send pending, the frames written through
`sendCommand` are exactly that one frame or none. -/
theorem C17_change_detection (s : State) (now : Nat) (hf : s.isFading = true)
    (hl : s.pChar = true) (he : elapsedMs (millis now) s.fadeStartTime < s.fadeDuration) :
    (transmitted (rampStep s now).2 ≠ [] ↔ colorChanged s now) ∧
    (colorChanged s now →
      transmitted (rampStep s now).2
        = [colorCmd (newColor s now).1 (newColor s now).2.1 (newColor s now).2.2] ∧
      rampStep s now =
        ({ s with currentR := (newColor s now).1
                  currentG := (newColor s now).2.1
                  currentB := (newColor s now).2.2 },
          [Event.logSetColor (newColor s now).1 (newColor s now).2.1 (newColor s now).2.2,
            Event.write
              (colorCmd (newColor s now).1 (newColor s now).2.1 (newColor s now).2.2)]) ∧
      SameRetry s (rampStep s now).1 ∧
      ((rampStep s now).1.currentR, (rampStep s now).1.currentG, (rampStep s now).1.currentB)
        = newColor s now) ∧
    (¬ colorChanged s now → rampStep s now = (s, [])) ∧
    (∀ i : TickIn, i.now = now → s.fadePending = false → s.pendingColorSend = false →
      (loop s i).2.filterMap writtenFrame =
        (if colorChanged s now then
          [colorCmd (newColor s now).1 (newColor s now).2.1 (newColor s now).2.2]
        else []) ∧
      ((loop s i).1.currentR, (loop s i).1.currentG, (loop s i).1.currentB) = newColor s now) := by
  have hcases := rampStep_fading_cases s now hf hl he
  have hyes : colorChanged s now →
      rampStep s now =
        ({ s with currentR := (newColor s now).1
                  currentG := (newColor s now).2.1
                  currentB := (newColor s now).2.2 },
          [Event.logSetColor (newColor s now).1 (newColor s now).2.1 (newColor s now).2.2,
            Event.write
              (colorCmd (newColor s now).1 (newColor s now).2.1 (newColor s now).2.2)]) := by
    intro hc
    rcases hcases with ⟨_, hq⟩ | ⟨hn, _⟩
    · exact hq
    · exact absurd hc hn
  have hno : ¬ colorChanged s now → rampStep s now = (s, []) := by
    intro hc
    rcases hcases with ⟨hy, _⟩ | ⟨_, hq⟩
    · exact absurd hy hc
    · exact hq
  refine ⟨?_, ?_, hno, ?_⟩
  · constructor
    · intro h
      by_contra hc
      rw [hno hc] at h
      exact h rfl
    · intro hc
      rw [hyes hc]
      simp [transmitted]
  · intro hc
    refine ⟨?_, hyes hc, ?_, ?_⟩
    · rw [hyes hc]
      rfl
    · rw [hyes hc]
      exact ⟨rfl, rfl, rfl, rfl, rfl⟩
    · rw [hyes hc]
  · intro i hi hp hcs
    subst hi
    rw [loop_fading s i hf hl hp hcs]
    obtain ⟨q1, q2, q3, q4, q5, q6, q7⟩ := retryStep_sameRamp s i.now
    have hnw := retryStep_noWrite s i.now
    generalize (retryStep s i.now).1 = u at *
    generalize (retryStep s i.now).2 = ev at *
    have hnew : newColor u i.now = newColor s i.now := by
      simp only [newColor, q3, q4]
    have hch : colorChanged u i.now ↔ colorChanged s i.now := by
      simp only [colorChanged, hnew, q5, q6, q7]
    have heu : elapsedMs (millis i.now) u.fadeStartTime < u.fadeDuration := by
      rw [q3, q4]
      exact he
    simp only [List.filterMap_append, hnw, List.nil_append]
    rcases rampStep_fading_cases u i.now (q2.trans hf) (q1.trans hl) heu with
      ⟨hy, hq⟩ | ⟨hn, hq⟩
    · rw [hq, if_pos (hch.1 hy), hnew]
      exact ⟨rfl, rfl⟩
    · rw [hq, if_neg (fun h => hn (hch.2 h))]
      refine ⟨rfl, ?_⟩
      have hn2 := hn
      unfold colorChanged at hn2
      simp only [not_or, not_not] at hn2
      rw [← hnew]
      ext
      · exact hn2.1.symm
      · exact hn2.2.1.symm
      · exact hn2.2.2.symm

set_option maxRecDepth 100000 in
/-- C17 half-way through the default ramp: from black the step sends
`SetColor (31, 7, 1)`; with that color already current it sends nothing. -/
theorem C17_change_detection_witness :
    rampRunning.isFading = true ∧ rampRunning.pChar = true ∧
    elapsedMs (millis 1800000) rampRunning.fadeStartTime < rampRunning.fadeDuration ∧
    colorChanged rampRunning 1800000 ∧
    transmitted (rampStep rampRunning 1800000).2 = [colorCmd 31 7 1] ∧
    ¬ colorChanged rampSteady 1800000 ∧
    rampStep rampSteady 1800000 = (rampSteady, []) :=
  ⟨rfl, rfl, by decide, by decide,
    ((C17_change_detection rampRunning 1800000 rfl rfl (by decide)).2.1 (by decide)).1.trans
      (by decide),
    by decide,
    (C17_change_detection rampSteady 1800000 rfl rfl (by decide)).2.2.1 (by decide)⟩

/-! ## The ramp never dims -/

theorem rampCurve_mono (e1 e2 d : Nat) (hd : 0 < d) (h : e1 ≤ e2) :
    rampCurve e1 d ≤ rampCurve e2 d := by
  unfold rampCurve
  have hp : f32Div (f32OfNat e1) (f32OfNat d) ≤ f32Div (f32OfNat e2) (f32OfNat d) :=
    f32Div_mono_left (f32OfNat d) (f32OfNat_pos hd) (f32OfNat_mono h)
  exact f32Mul_mono (f32Mul_mono hp hp) hp

theorem rampScaled_mono (hue e1 e2 d : Nat) (hd : 0 < d) (h : e1 ≤ e2) :
    rampScaled hue e1 d ≤ rampScaled hue e2 d := by
  unfold rampScaled
  exact f32Mul_mono (Nat.le_refl _) (rampCurve_mono e1 e2 d hd h)

theorem f32Trunc_mono {x y : Nat} (h : x ≤ y) : f32Trunc x ≤ f32Trunc y :=
  Nat.div_le_div_right h

/-- The color of a ramp is component-wise non-decreasing in the elapsed time
and never exceeds the final hue. -/
theorem colorAt_mono (e1 e2 d : Nat) (hd : 0 < d) (h12 : e1 ≤ e2) (h2 : e2 ≤ d) :
    colorLe (colorAt e1 d) (colorAt e2 d) ∧ colorLe (colorAt e2 d) (RAMP_R, RAMP_G, RAMP_B) := by
  obtain ⟨a1, a2, a3, a4, a5, a6⟩ := rampChannel_le_hue e1 d hd (Nat.le_trans h12 h2)
  obtain ⟨b1, b2, b3, b4, b5, b6⟩ := rampChannel_le_hue e2 d hd h2
  refine ⟨⟨?_, ?_, ?_⟩, ⟨?_, ?_, ?_⟩⟩
  · show rampChannel RAMP_R e1 d ≤ rampChannel RAMP_R e2 d
    rw [a4, b4]
    exact f32Trunc_mono (rampScaled_mono _ _ _ _ hd h12)
  · show rampChannel RAMP_G e1 d ≤ rampChannel RAMP_G e2 d
    rw [a5, b5]
    exact f32Trunc_mono (rampScaled_mono _ _ _ _ hd h12)
  · show rampChannel RAMP_B e1 d ≤ rampChannel RAMP_B e2 d
    rw [a6, b6]
    exact f32Trunc_mono (rampScaled_mono _ _ _ _ hd h12)
  · show rampChannel RAMP_R e2 d ≤ RAMP_R
    rw [b4]
    exact b1
  · show rampChannel RAMP_G e2 d ≤ RAMP_G
    rw [b5]
    exact b2
  · show rampChannel RAMP_B e2 d ≤ RAMP_B
    rw [b6]
    exact b3

theorem colorLe_trans {a b c : Nat × Nat × Nat} (h1 : colorLe a b) (h2 : colorLe b c) :
    colorLe a c :=
  ⟨Nat.le_trans h1.1 h2.1, Nat.le_trans h1.2.1 h2.2.1, Nat.le_trans h1.2.2 h2.2.2⟩

/-- An iteration during a ramp, before its end: the state stays in the ramp,
and the frames written are the frame of the color of that moment, or none. -/
theorem loop_ramping (t0 d : Nat) (s : State) (i : TickIn) (hs : Ramping t0 d s)
    (h0 : t0 ≤ i.now) (h1 : i.now < t0 + d) (hd : d ≤ ULONG_MOD) :
    Ramping t0 d (loop s i).1 ∧
    ((loop s i).2.filterMap writtenFrame = [] ∨
      (loop s i).2.filterMap writtenFrame =
        [colorCmd (colorAt (i.now - t0) d).1 (colorAt (i.now - t0) d).2.1
          (colorAt (i.now - t0) d).2.2]) := by
  obtain ⟨hl, hf, hp, hc, hst, hdu⟩ := hs
  rw [loop_fading s i hf hl hp hc]
  obtain ⟨q1, q2, q3, q4, q5, q6, q7⟩ := retryStep_sameRamp s i.now
  have hnw := retryStep_noWrite s i.now
  have hfl : (retryStep s i.now).1.fadePending = false ∧
      (retryStep s i.now).1.pendingColorSend = false := by
    rcases retryStep_cases s i.now with ⟨_, _, _, hq⟩ | ⟨_, hq⟩ <;> rw [hq] <;> exact ⟨hp, hc⟩
  generalize (retryStep s i.now).1 = u at *
  generalize (retryStep s i.now).2 = ev at *
  have hel : elapsedMs (millis i.now) u.fadeStartTime = i.now - t0 := by
    rw [q3, hst]
    exact elapsedMs_millis_eq t0 i.now h0 (by omega)
  have heu : elapsedMs (millis i.now) u.fadeStartTime < u.fadeDuration := by
    rw [hel, q4, hdu]
    omega
  have hnew : newColor u i.now = colorAt (i.now - t0) d := by
    simp only [newColor, colorAt, hel, q4, hdu]
  simp only [List.filterMap_append, hnw, List.nil_append]
  rcases rampStep_fading_cases u i.now (q2.trans hf) (q1.trans hl) heu with
    ⟨_, hq⟩ | ⟨_, hq⟩
  · rw [hq, hnew]
    exact ⟨⟨q1.trans hl, q2.trans hf, hfl.1, hfl.2, q3.trans hst, q4.trans hdu⟩, Or.inr rfl⟩
  · rw [hq]
    exact ⟨⟨q1.trans hl, q2.trans hf, hfl.1, hfl.2, q3.trans hst, q4.trans hdu⟩, Or.inl rfl⟩

theorem writtenFrames_tick (n : Nat) (es : List Event) (tr : List (Nat × Event)) :
    writtenFrames (es.map (fun e => (n, e)) ++ tr) = es.filterMap writtenFrame ++ writtenFrames tr := by
  simp [writtenFrames, List.filterMap_append, List.filterMap_map, Function.comp_def]

/-- Through a run of iterations inside one ramp the colors written are
component-wise non-decreasing, from the color of the start of the run up to
the final hue. -/
theorem run_ramping (t0 d : Nat) (hd0 : 0 < d) (hd : d ≤ ULONG_MOD) :
    ∀ (ticks : List TickIn) (s : State) (lo : Nat), Ramping t0 d s → t0 ≤ lo →
      List.Pairwise (· ≤ ·) (lo :: ticks.map TickIn.now) → (∀ i ∈ ticks, i.now < t0 + d) →
      Ramping t0 d (runLoop s ticks).1 ∧
      ∃ cs : List (Nat × Nat × Nat),
        writtenFrames (runLoop s ticks).2 = cs.map (fun c => colorCmd c.1 c.2.1 c.2.2) ∧
        cs.Pairwise colorLe ∧
        ∀ c ∈ cs, colorLe (colorAt (lo - t0) d) c ∧ colorLe c (RAMP_R, RAMP_G, RAMP_B) := by
  intro ticks
  induction ticks with
  | nil =>
    intro s lo hs _ _ _
    exact ⟨hs, [], rfl, List.Pairwise.nil, fun c hc => by cases hc⟩
  | cons i is ih =>
    intro s lo hs h0 hsort hlt
    rw [List.map_cons, List.pairwise_cons] at hsort
    obtain ⟨hlo, hrest⟩ := hsort
    have hli : lo ≤ i.now := hlo _ (List.mem_cons_self _ _)
    have hi : i.now < t0 + d := hlt i (List.mem_cons_self _ _)
    obtain ⟨k1, k2⟩ := loop_ramping t0 d s i hs (Nat.le_trans h0 hli) hi hd
    obtain ⟨m1, cs, m2, m3, m4⟩ := ih (loop s i).1 i.now k1 (Nat.le_trans h0 hli) hrest
      (fun j hj => hlt j (List.mem_cons_of_mem _ hj))
    have hmono := colorAt_mono (lo - t0) (i.now - t0) d hd0 (by omega) (by omega)
    simp only [runLoop]
    refine ⟨m1, ?_⟩
    rw [writtenFrames_tick]
    rcases k2 with k2 | k2
    · refine ⟨cs, by rw [k2, m2, List.nil_append], m3, ?_⟩
      intro c hc
      exact ⟨colorLe_trans hmono.1 (m4 c hc).1, (m4 c hc).2⟩
    · refine ⟨colorAt (i.now - t0) d :: cs, by rw [k2, m2]; rfl, ?_, ?_⟩
      · exact List.Pairwise.cons (fun c hc => (m4 c hc).1) m3
      · intro c hc
        rcases List.mem_cons.1 hc with rfl | hc
        · exact hmono
        · exact ⟨colorLe_trans hmono.1 (m4 c hc).1, (m4 c hc).2⟩

/-- C18: the ramp never dims. For every duration `d > 0` and elapsed times
`e1 ≤ e2 < d`, each channel of the color computed at `e1` is at most the same
channel computed at `e2`, and both are at most the corresponding channel of
the final hue (255, 60, 10) sent at completion. Hence in every run of
iterations inside one ramp of duration `d` (at most `2 ^ 32` ms, clock
readings non-decreasing from the start of the ramp and before its end), the
colors written form a component-wise non-decreasing sequence bounded by the
final hue. -/
theorem C18_ramp_never_dims (d e1 e2 : Nat) (hd : 0 < d) (h12 : e1 ≤ e2) (h2 : e2 < d) :
    rampChannel RAMP_R e1 d ≤ rampChannel RAMP_R e2 d ∧
    rampChannel RAMP_G e1 d ≤ rampChannel RAMP_G e2 d ∧
    rampChannel RAMP_B e1 d ≤ rampChannel RAMP_B e2 d ∧
    rampChannel RAMP_R e2 d ≤ 255 ∧ rampChannel RAMP_G e2 d ≤ 60 ∧
    rampChannel RAMP_B e2 d ≤ 10 ∧
    (∀ (t0 : Nat) (s : State) (ticks : List TickIn), d ≤ ULONG_MOD → Ramping t0 d s →
      List.Pairwise (· ≤ ·) (t0 :: ticks.map TickIn.now) → (∀ i ∈ ticks, i.now < t0 + d) →
      ∃ cs : List (Nat × Nat × Nat),
        writtenFrames (runLoop s ticks).2 = cs.map (fun c => colorCmd c.1 c.2.1 c.2.2) ∧
        cs.Pairwise colorLe ∧ ∀ c ∈ cs, colorLe c (255, 60, 10)) := by
  obtain ⟨⟨a1, a2, a3⟩, ⟨b1, b2, b3⟩⟩ := colorAt_mono e1 e2 d hd h12 (Nat.le_of_lt h2)
  refine ⟨a1, a2, a3, b1, b2, b3, ?_⟩
  intro t0 s ticks hdu hs hsort hlt
  obtain ⟨_, cs, m2, m3, m4⟩ := run_ramping t0 d hd hdu ticks s t0 hs (Nat.le_refl _) hsort hlt
  exact ⟨cs, m2, m3, fun c hc => (m4 c hc).2⟩

set_option maxRecDepth 100000 in
/-- C18 on the default one-hour ramp: the colors at 30 and at 45 minutes, and
the frames written by the two iterations at those times. -/
theorem C18_ramp_never_dims_witness :
    0 < 3600000 ∧ 1800000 ≤ 2700000 ∧ 2700000 < 3600000 ∧
    colorAt 1800000 3600000 = (31, 7, 1) ∧ colorAt 2700000 3600000 = (107, 25, 4) ∧
    rampChannel RAMP_R 1800000 3600000 ≤ rampChannel RAMP_R 2700000 3600000 ∧
    rampChannel RAMP_R 2700000 3600000 ≤ 255 ∧
    Ramping 0 3600000 rampRunning ∧
    writtenFrames (runLoop rampRunning [tickAt 1800000, tickAt 2700000]).2
      = [colorCmd 31 7 1, colorCmd 107 25 4] ∧
    ∃ cs : List (Nat × Nat × Nat),
      writtenFrames (runLoop rampRunning [tickAt 1800000, tickAt 2700000]).2
        = cs.map (fun c => colorCmd c.1 c.2.1 c.2.2) ∧
      cs.Pairwise colorLe ∧ ∀ c ∈ cs, colorLe c (255, 60, 10) :=
  ⟨by decide, by decide, by decide, by decide, by decide,
    (C18_ramp_never_dims 3600000 1800000 2700000 (by decide) (by decide) (by decide)).1,
    (C18_ramp_never_dims 3600000 1800000 2700000 (by decide) (by decide) (by decide)).2.2.2.1,
    ⟨rfl, rfl, rfl, rfl, rfl, rfl⟩, by decide,
    (C18_ramp_never_dims 3600000 1800000 2700000 (by decide) (by decide) (by decide)).2.2.2.2.2.2
      0 rampRunning [tickAt 1800000, tickAt 2700000] (by decide) ⟨rfl, rfl, rfl, rfl, rfl, rfl⟩
      (by decide) (by decide)⟩

/-! ## Bounds of the retry record -/

theorem retryOk_of_sameRetry {s t : State} (h : SameRetry s t) (hs : RetryOk s) : RetryOk t := by
  obtain ⟨_, h2, h3, h4, _⟩ := h
  unfold RetryOk
  rw [h2, h3, h4]
  exact hs

theorem memcpy_length (buf f : Frame) (hb : buf.length = 9) (hf : f.length = 9) :
    (memcpy buf f 9).length = 9 := by
  simp [memcpy, hb, hf]

/-- The retry record right after a 9-byte frame was sent reliably. -/
theorem retryOk_armed (u : State) (buf f : Frame) (hb : buf.length = 9) (hf : f.length = 9)
    (h1 : u.repeatCmd = memcpy buf f 9) (h2 : u.repeatCmdLen = 9) (h3 : u.repeatCount = 2) :
    RetryOk u := by
  refine ⟨Or.inr (Or.inr h3), Or.inr h2, ?_, fun _ => h2⟩
  rw [h1]
  exact memcpy_length buf f hb hf

theorem resendsWhole_nil : ∀ e ∈ ([] : List Event), ResendsWhole e := by
  intro e he
  cases he

theorem resendsWhole_of_noResend {es : List Event} (h : es.filterMap resentFrame = []) :
    ∀ e ∈ es, ResendsWhole e := by
  intro e he f hf
  have : f ∈ es.filterMap resentFrame := List.mem_filterMap.2 ⟨e, he, hf⟩
  rw [h] at this
  cases this

/-- One iteration keeps the bounds of the retry record and retransmits only
complete frames. -/
theorem loop_retryOk (s : State) (i : TickIn) (h : RetryOk s) :
    RetryOk (loop s i).1 ∧ ∀ e ∈ (loop s i).2, ResendsWhole e := by
  have key := loop_guarded_invariant RetryOk ResendsWhole (fun _ => False) i ?_ ?_ ?_ ?_ ?_ ?_ s h
  · rcases key with ⟨_, _, hf⟩ | k
    · exact hf.elim
    · exact k
  · intro u hu
    right
    refine ⟨?_, resendsWhole_of_noResend (connectStep_noResend u i.scanFound)⟩
    rcases connectStep_cases u i.scanFound with ⟨_, hq⟩ | ⟨_, hq⟩ <;> rw [hq] <;> exact hu
  · intro u hu
    right
    exact ⟨retryOk_of_sameRetry (fadeStartupStep_sameRetry u i.now).1 hu,
      resendsWhole_of_noResend (fadeStartupStep_noResend u i.now)⟩
  · intro u hu
    right
    obtain ⟨c, l, b, cl⟩ := hu
    rcases retryStep_cases u i.now with ⟨hpos, _, _, hq⟩ | ⟨_, hq⟩
    · rw [hq]
      refine ⟨⟨?_, l, b, fun _ => cl hpos⟩, ?_⟩
      · show u.repeatCount - 1 = 0 ∨ u.repeatCount - 1 = 1 ∨ u.repeatCount - 1 = 2
        omega
      · intro e he f hf
        simp only [List.mem_cons, List.mem_singleton, List.not_mem_nil, or_false] at he
        rcases he with rfl | rfl
        · simp only [resentFrame, Option.some.injEq] at hf
          rw [← hf, State.pendingFrame, List.length_take, cl hpos, b]
          rfl
        · simp [resentFrame] at hf
    · rw [hq]
      exact ⟨⟨c, l, b, cl⟩, resendsWhole_nil⟩
  · intro u hu
    right
    refine ⟨?_, resendsWhole_of_noResend (pendingColorStep_noResend u i.now)⟩
    rcases pendingColorStep_cases u i.now with ⟨_, _, _, hq⟩ | ⟨_, hq⟩
    · rw [hq]
      exact retryOk_armed _ u.repeatCmd (colorCmd u.manualR u.manualG u.manualB) hu.2.2.1 rfl
        rfl rfl rfl
    · rw [hq]
      exact hu
  · intro u hu
    right
    refine ⟨?_, resendsWhole_of_noResend (alarmStep_noResend u i.now i.localTime)⟩
    rcases alarmStep_cases u i.now i.localTime with
      ⟨_, hq⟩ | ⟨tm, _, _, _, hq⟩ | ⟨tm, _, _, _, hq⟩
    · rw [hq]
      exact hu
    · rw [hq]
      rcases dayReset_cases u tm with hd | hd <;> rw [hd] <;> exact hu
    · rw [hq, startRamp_eq]
      have hb : (dayReset u tm).repeatCmd.length = 9 := by
        rcases dayReset_cases u tm with hd | hd <;> rw [hd] <;> exact hu.2.2.1
      exact retryOk_armed _ (dayReset u tm).repeatCmd powerOnCmd hb rfl rfl rfl rfl
  · intro u hu
    right
    exact ⟨retryOk_of_sameRetry (rampStep_sameRetry u i.now).1 hu,
      resendsWhole_of_noResend (rampStep_noResend u i.now)⟩

theorem handleSetAlarm_retryOk (s : State) (p : AlarmParams) (h : RetryOk s) :
    RetryOk (handleSetAlarm s p).1 ∧ (handleSetAlarm s p).2.filterMap resentFrame = [] := by
  obtain ⟨a, m, d, e, o⟩ := p
  unfold handleSetAlarm
  cases a <;> cases m <;> cases d <;> cases e <;> cases o <;> exact ⟨h, rfl⟩

/-- Every action keeps the bounds of the retry record and retransmits only
complete frames. -/
theorem step_retryOk (s : State) (a : Action) (h : RetryOk s) :
    RetryOk (step s a).1 ∧ ∀ e ∈ (step s a).2, ResendsWhole e := by
  cases a with
  | tick i => exact loop_retryOk s i h
  | start time now =>
    simp only [step, handleStart]
    rw [startRamp_eq]
    refine ⟨?_, resendsWhole_of_noResend ?_⟩
    · cases time <;> exact retryOk_armed _ s.repeatCmd powerOnCmd h.2.2.1 rfl rfl rfl rfl
    · cases time <;> by_cases hp : s.pChar = true <;> simp [hp, resentFrame]
  | stop now =>
    simp only [step]
    rw [handleStop_eq]
    refine ⟨retryOk_armed _ s.repeatCmd powerOffCmd h.2.2.1 rfl rfl rfl rfl,
      resendsWhole_of_noResend ?_⟩
    by_cases hp : s.pChar = true <;> simp [hp, resentFrame]
  | instantOn r g b now =>
    simp only [step]
    rw [handleOn_eq]
    refine ⟨retryOk_armed _ s.repeatCmd powerOnCmd h.2.2.1 rfl rfl rfl rfl,
      resendsWhole_of_noResend ?_⟩
    by_cases hp : s.pChar = true <;> simp [hp, resentFrame]
  | setAlarm p =>
    obtain ⟨k1, k2⟩ := handleSetAlarm_retryOk s p h
    exact ⟨k1, resendsWhole_of_noResend k2⟩

/-- C19: in every state reachable from the initial state by loop iterations and
the requests `/start`, `/stop`, `/on`, `/setalarm`, the retry counter
`repeatCount` is 0, 1 or 2 and the stored length `repeatCmdLen` is 0 or 9;
the retry buffer keeps its 9 bytes and the stored length never exceeds it,
and every retransmission along the way sends a complete 9-byte frame. -/
theorem C19_retry_bounds (acts : List Action) :
    ((runActions State.init acts).1.repeatCount = 0 ∨
      (runActions State.init acts).1.repeatCount = 1 ∨
      (runActions State.init acts).1.repeatCount = 2) ∧
    ((runActions State.init acts).1.repeatCmdLen = 0 ∨
      (runActions State.init acts).1.repeatCmdLen = 9) ∧
    (runActions State.init acts).1.repeatCmd.length = 9 ∧
    (runActions State.init acts).1.repeatCmdLen ≤ (runActions State.init acts).1.repeatCmd.length ∧
    (0 < (runActions State.init acts).1.repeatCount →
      (runActions State.init acts).1.pendingFrame.length = 9) ∧
    ∀ e ∈ (runActions State.init acts).2, ∀ f, resentFrame e = some f → f.length = 9 := by
  have hinit : RetryOk State.init := ⟨Or.inl rfl, Or.inl rfl, rfl, fun h => absurd h (by decide)⟩
  obtain ⟨⟨c, l, b, cl⟩, k⟩ :=
    runActions_invariant RetryOk ResendsWhole (fun a s hs => step_retryOk s a hs) acts
      State.init hinit
  refine ⟨c, l, b, ?_, ?_, k⟩
  · rw [b]
    rcases l with l | l <;> omega
  · intro hpos
    rw [State.pendingFrame, List.length_take, cl hpos, b]
    rfl

/-- A run from the initial state in which the retry counter takes the values
2, 1 and 0 and both retransmissions carry the 9-byte `PowerOff` frame. -/
theorem retry_bounds_run :
    (runActions State.init [Action.tick (tickLinking 100), Action.stop 200]).1.repeatCount = 2 ∧
    (runActions State.init [Action.tick (tickLinking 100), Action.stop 200,
      Action.tick (tickAt 320)]).1.repeatCount = 1 ∧
    (runActions State.init [Action.tick (tickLinking 100), Action.stop 200,
      Action.tick (tickAt 320), Action.tick (tickAt 440)]).1.repeatCount = 0 ∧
    (runActions State.init [Action.tick (tickLinking 100), Action.stop 200,
      Action.tick (tickAt 320), Action.tick (tickAt 440)]).2.filterMap resentFrame
      = [powerOffCmd, powerOffCmd] := by
  decide

/-! ## Wraparound of the 32-bit clock -/

/-- C20: wraparound of the 32-bit millisecond counter does not disturb the
delays. For a stamp taken at true time `t` and a reading at a later true time
`now` less than `2 ^ 32` ms after it, the computed difference of the two
32-bit values equals the true elapsed time `now - t`, wrapped or not. Hence
the retry step fires exactly when 120 ms or more have truly elapsed, the
pending color send when more than 150 ms, the wake step when more than 200 ms,
and the ramp completes exactly when the true elapsed time has reached the
duration and otherwise computes the color of the true elapsed time. -/
theorem C20_wraparound (t now : Nat) (h1 : t ≤ now) (h2 : now - t < ULONG_MOD) :
    elapsedMs (millis now) (millis t) = now - t ∧
    (∀ s : State, s.lastRepeatTime = millis t →
      ((retryStep s now).2 ≠ [] ↔
        (0 < s.repeatCount ∧ s.pChar = true ∧ 120 ≤ now - t))) ∧
    (∀ s : State, s.pendingColorTime = millis t →
      ((pendingColorStep s now).2 ≠ [] ↔
        (s.pendingColorSend = true ∧ s.pChar = true ∧ 150 < now - t))) ∧
    (∀ s : State, s.fadePendingTime = millis t →
      ((fadeStartupStep s now).2 ≠ [] ↔
        (s.fadePending = true ∧ s.pChar = true ∧ 200 < now - t))) ∧
    (∀ s : State, s.fadeStartTime = millis t → s.isFading = true → s.pChar = true →
      ((rampStep s now).1.isFading = false ↔ s.fadeDuration ≤ now - t) ∧
      (now - t < s.fadeDuration →
        ((rampStep s now).1.currentR, (rampStep s now).1.currentG, (rampStep s now).1.currentB)
          = colorAt (now - t) s.fadeDuration)) := by
  have hel : elapsedMs (millis now) (millis t) = now - t :=
    elapsedMs_millis_eq t now h1 (by omega)
  refine ⟨hel, ?_, ?_, ?_, ?_⟩
  · intro s hs
    rcases retryStep_cases s now with ⟨a, b, c, hq⟩ | ⟨hn, hq⟩
    · rw [hs, hel] at c
      rw [hq]
      exact ⟨fun _ => ⟨a, b, c⟩, fun _ => by simp⟩
    · rw [hs, hel] at hn
      rw [hq]
      exact ⟨fun h => absurd rfl h, fun h => absurd h hn⟩
  · intro s hs
    rcases pendingColorStep_cases s now with ⟨a, b, c, hq⟩ | ⟨hn, hq⟩
    · rw [hs, hel] at c
      rw [hq]
      exact ⟨fun _ => ⟨a, b, c⟩, fun _ => by simp⟩
    · rw [hs, hel] at hn
      rw [hq]
      exact ⟨fun h => absurd rfl h, fun h => absurd h hn⟩
  · intro s hs
    rcases fadeStartupStep_cases s now with ⟨a, b, c, hq⟩ | ⟨hn, hq⟩
    · rw [hs, hel] at c
      rw [hq]
      exact ⟨fun _ => ⟨a, b, c⟩, fun _ => by simp⟩
    · rw [hs, hel] at hn
      rw [hq]
      exact ⟨fun h => absurd rfl h, fun h => absurd h hn⟩
  · intro s hs hf hl
    have hes : elapsedMs (millis now) s.fadeStartTime = now - t := by rw [hs, hel]
    by_cases hc : s.fadeDuration ≤ now - t
    · refine ⟨⟨fun _ => hc, fun _ => ?_⟩, fun h => absurd hc (Nat.not_le.2 h)⟩
      simp [rampStep, hf, hl, hes, hc, setColor, sendCommand]
    · have hlt : elapsedMs (millis now) s.fadeStartTime < s.fadeDuration := by
        rw [hes]
        exact Nat.not_le.1 hc
      have hfad : (rampStep s now).1.isFading = true := by
        rcases rampStep_fading_cases s now hf hl hlt with ⟨_, hq⟩ | ⟨_, hq⟩ <;> rw [hq] <;>
          exact hf
      refine ⟨⟨fun h => ?_, fun h => absurd h hc⟩, fun _ => ?_⟩
      · rw [hfad] at h
        exact absurd h (by decide)
      · obtain ⟨c1, c2, c3⟩ := rampStep_current s now hf hl hlt
        rw [c1, c2, c3, hes]
        rfl

set_option maxRecDepth 100000 in
/-- C20 across a wrap: a stamp taken 50 ms before the counter wraps and a
reading 100 ms after; the 32-bit reading is the smaller number, the computed
difference is 150, the retry fires and the pending color send does not. -/
theorem C20_wraparound_witness :
    4294967246 ≤ 4294967396 ∧ 4294967396 - 4294967246 < ULONG_MOD ∧
    millis 4294967396 = 100 ∧ millis 4294967246 = 4294967246 ∧
    elapsedMs (millis 4294967396) (millis 4294967246) = 150 ∧
    (retryStep wrapState 4294967396).2 ≠ [] ∧
    ¬ ((pendingColorStep wrapState 4294967396).2 ≠ []) :=
  ⟨by decide, by decide, by decide, by decide,
    (C20_wraparound 4294967246 4294967396 (by decide) (by decide)).1,
    ((C20_wraparound 4294967246 4294967396 (by decide) (by decide)).2.1 wrapState
      (by decide)).2 ⟨by decide, rfl, by decide⟩,
    fun h => absurd
      (((C20_wraparound 4294967246 4294967396 (by decide) (by decide)).2.2.1 wrapState
        (by decide)).1 h).2.2 (by decide)⟩

/-! ## Instant-on without an alarm trigger -/

theorem alarmTriggers_tick (n : Nat) (es : List Event) (tr : List (Nat × Event)) :
    alarmTriggers ((es.map (fun e => (n, e)) ++ tr).map Prod.snd)
      = alarmTriggers es + alarmTriggers (tr.map Prod.snd) := by
  rw [List.map_append, alarmTriggers_append, List.map_map]
  have : (Prod.snd ∘ fun e => (n, e)) = (id : Event → Event) := rfl
  rw [this, List.map_id]

theorem alarmTriggers_pos_of_mem {es : List Event}
    (h : ∃ e ∈ es, e = Event.logAlarmTriggered) : alarmTriggers es ≠ 0 := by
  obtain ⟨e, he, rfl⟩ := h
  exact fun h0 => (List.count_eq_zero.1 h0) he

/-- Up to 150 ms after the instant-on, and while the alarm does not trigger,
the instant-on stays pending. -/
theorem loop_instantPending (t r g b : Nat) (i : TickIn) (u : State)
    (hu : InstantPending t r g b u) (hlo : t ≤ i.now) (hhi : i.now ≤ t + 150) :
    (∃ e ∈ (loop u i).2, e = Event.logAlarmTriggered) ∨
      InstantPending t r g b (loop u i).1 := by
  have key := loop_guarded_invariant (InstantPending t r g b) (fun _ => True)
    (fun e => e = Event.logAlarmTriggered) i ?_ ?_ ?_ ?_ ?_ ?_ u hu
  · rcases key with h | ⟨h, _⟩
    · exact Or.inl h
    · exact Or.inr h
  · intro s hs
    rw [connectStep_linked s i.scanFound hs.1]
    exact Or.inr ⟨hs, fun _ _ => trivial⟩
  · intro s hs
    right
    rcases fadeStartupStep_cases s i.now with ⟨hf, _⟩ | ⟨_, hq⟩
    · rw [hs.2.2.1] at hf
      exact absurd hf (by decide)
    · rw [hq]
      exact ⟨hs, fun _ _ => trivial⟩
  · intro s hs
    right
    rcases retryStep_cases s i.now with ⟨_, _, _, hq⟩ | ⟨_, hq⟩
    · rw [hq]
      exact ⟨hs, fun _ _ => trivial⟩
    · rw [hq]
      exact ⟨hs, fun _ _ => trivial⟩
  · intro s hs
    right
    rcases pendingColorStep_cases s i.now with ⟨_, _, hel, _⟩ | ⟨_, hq⟩
    · exfalso
      rw [hs.2.2.2.2.1] at hel
      have := elapsedMs_millis_le t i.now hlo
      omega
    · rw [hq]
      exact ⟨hs, fun _ _ => trivial⟩
  · intro s hs
    rcases alarmStep_cases s i.now i.localTime with
      ⟨_, hq⟩ | ⟨tm, _, _, _, hq⟩ | ⟨tm, _, _, _, hq⟩
    · rw [hq]
      exact Or.inr ⟨hs, fun _ _ => trivial⟩
    · rw [hq]
      refine Or.inr ⟨?_, fun _ _ => trivial⟩
      rcases dayReset_cases s tm with hd | hd <;> rw [hd] <;> exact hs
    · left
      rw [hq]
      exact ⟨Event.logAlarmTriggered, List.mem_cons_self _ _, rfl⟩
  · intro s hs
    right
    rw [rampStep_idle s i.now hs.2.1]
    exact ⟨hs, fun _ _ => trivial⟩

theorem run_instantPending (t r g b : Nat) : ∀ (ticks : List TickIn) (u : State) (T : Nat),
    InstantPending t r g b u → t ≤ T → List.Pairwise (· ≤ ·) (T :: ticks.map TickIn.now) →
    (∀ i ∈ ticks, i.now ≤ t + 150) →
    alarmTriggers ((runLoop u ticks).2.map Prod.snd) = 0 →
    InstantPending t r g b (runLoop u ticks).1 := by
  intro ticks
  induction ticks with
  | nil => intro u T hu _ _ _ _; exact hu
  | cons i is ih =>
    intro u T hu hT hsort hhi hal
    rw [List.map_cons, List.pairwise_cons] at hsort
    obtain ⟨hlo, hrest⟩ := hsort
    have hTi : T ≤ i.now := hlo _ (List.mem_cons_self _ _)
    simp only [runLoop] at hal ⊢
    rw [alarmTriggers_tick] at hal
    rcases loop_instantPending t r g b i u hu (Nat.le_trans hT hTi)
        (hhi i (List.mem_cons_self _ _)) with h | h
    · exact absurd (by omega) (alarmTriggers_pos_of_mem h)
    · exact ih (loop u i).1 i.now h (Nat.le_trans hT hTi) hrest
        (fun j hj => hhi j (List.mem_cons_of_mem _ hj)) (by omega)

/-- With no color send pending, an iteration issues a reliable command only if
the alarm triggers in it. -/
theorem loop_noAlarm_quiet (i : TickIn) (u : State) (hu : u.pendingColorSend = false) :
    (∃ e ∈ (loop u i).2, e = Event.logAlarmTriggered) ∨
      ((loop u i).1.pendingColorSend = false ∧ ∀ e ∈ (loop u i).2, issuesReliable e = false) := by
  refine loop_guarded_invariant (fun s => s.pendingColorSend = false)
    (fun e => issuesReliable e = false) (fun e => e = Event.logAlarmTriggered) i
    ?_ ?_ ?_ ?_ ?_ ?_ u hu
  · intro s hs
    right
    rcases connectStep_cases s i.scanFound with ⟨_, hq⟩ | ⟨_, hq⟩
    · rw [hq]
      exact ⟨hs, fun e he => by cases he⟩
    · rw [hq]
      refine ⟨hs, ?_⟩
      intro e he
      simp only [List.mem_singleton] at he
      subst he
      rfl
  · intro s hs
    right
    refine ⟨?_, fun e he => ((fadeStartupStep_sameRetry s i.now).2 e he).2⟩
    rcases fadeStartupStep_cases s i.now with ⟨_, _, _, hq⟩ | ⟨_, hq⟩ <;> rw [hq] <;> exact hs
  · intro s hs
    right
    rcases retryStep_cases s i.now with ⟨_, _, _, hq⟩ | ⟨_, hq⟩
    · rw [hq]
      refine ⟨hs, ?_⟩
      intro e he
      simp only [List.mem_cons, List.mem_singleton, List.not_mem_nil, or_false] at he
      rcases he with rfl | rfl <;> rfl
    · rw [hq]
      exact ⟨hs, fun e he => by cases he⟩
  · intro s hs
    right
    rcases pendingColorStep_cases s i.now with ⟨hf, _⟩ | ⟨_, hq⟩
    · rw [hs] at hf
      exact absurd hf (by decide)
    · rw [hq]
      exact ⟨hs, fun e he => by cases he⟩
  · intro s hs
    rcases alarmStep_cases s i.now i.localTime with
      ⟨_, hq⟩ | ⟨tm, _, _, _, hq⟩ | ⟨tm, _, _, _, hq⟩
    · rw [hq]
      exact Or.inr ⟨hs, fun e he => by cases he⟩
    · rw [hq]
      refine Or.inr ⟨?_, fun e he => by cases he⟩
      rcases dayReset_cases s tm with hd | hd <;> rw [hd] <;> exact hs
    · left
      rw [hq]
      exact ⟨Event.logAlarmTriggered, List.mem_cons_self _ _, rfl⟩
  · intro s hs
    right
    refine ⟨?_, fun e he => ((rampStep_sameRetry s i.now).2 e he).2⟩
    have : (rampStep s i.now).1.pendingColorSend = s.pendingColorSend := by
      unfold rampStep
      split
      · simp only []
        split
        · simp [setColor, sendCommand]
          split <;> rfl
        · split
          · simp [setColor, sendCommand]
            split <;> rfl
          · rfl
      · rfl
    exact this.trans hs

/-- With no color send pending, a run in which the alarm does not trigger
issues no reliable command. -/
theorem run_noAlarm_quiet (ticks : List TickIn) (u : State) (hu : u.pendingColorSend = false)
    (hal : alarmTriggers ((runLoop u ticks).2.map Prod.snd) = 0) :
    NoReliableIssue (runLoop u ticks).2 := by
  rcases runLoop_guarded_invariant (fun s => s.pendingColorSend = false)
      (fun e => issuesReliable e = false) (fun e => e = Event.logAlarmTriggered)
      (fun i s hs => loop_noAlarm_quiet i s hs) ticks u hu with ⟨x, hx, hb⟩ | ⟨_, k⟩
  · exact absurd hal (alarmTriggers_pos_of_mem ⟨x.2, List.mem_map.2 ⟨x, hx, rfl⟩, hb⟩)
  · exact k
/-- The iteration at which more than 150 ms have elapsed since the instant-on
issues the color through `sendReliable`, unless the alarm triggers in it. -/
theorem loop_instant_fires (t r g b : Nat) (i : TickIn) (u : State)
    (hu : InstantPending t r g b u) (hlo : t ≤ i.now) (h150 : t + 150 < i.now)
    (hwrap : i.now < t + ULONG_MOD) (hal : alarmTriggers (loop u i).2 = 0) :
    (loop u i).2.filterMap writtenFrame = [colorCmd r g b] ∧
    Event.logSetColorReliable r g b ∈ (loop u i).2 ∧
    (loop u i).1.pendingColorSend = false ∧ (loop u i).1.pendingFrame = colorCmd r g b ∧
    (loop u i).1.repeatCount = 2 ∧ (loop u i).1.lastRepeatTime = millis i.now ∧
    (loop u i).1.pChar = true := by
  unfold loop at hal ⊢
  simp only [] at hal ⊢
  rw [connectStep_linked u i.scanFound hu.1] at hal ⊢
  simp only [List.nil_append] at hal ⊢
  have h2 : fadeStartupStep u i.now = (u, []) := by
    rcases fadeStartupStep_cases u i.now with ⟨hf, _⟩ | ⟨_, hq⟩
    · rw [hu.2.2.1] at hf
      exact absurd hf (by decide)
    · exact hq
  rw [h2] at hal ⊢
  simp only [List.nil_append] at hal ⊢
  have h3 : InstantPending t r g b (retryStep u i.now).1 ∧
      (retryStep u i.now).2.filterMap writtenFrame = [] ∧
      alarmTriggers (retryStep u i.now).2 = 0 := by
    rcases retryStep_cases u i.now with ⟨_, _, _, hq⟩ | ⟨_, hq⟩
    · rw [hq]
      exact ⟨hu, by simp [writtenFrame], by simp [alarmTriggers]⟩
    · rw [hq]
      exact ⟨hu, rfl, rfl⟩
  obtain ⟨p3, w3, a3⟩ := h3
  generalize retryStep u i.now = r3 at *
  obtain ⟨q1, q2, q3, q4, q5, q6, q7, q8⟩ := p3
  subst q6 q7 q8
  have hel : 150 < elapsedMs (millis i.now) r3.1.pendingColorTime := by
    rw [q5, elapsedMs_millis_eq t i.now hlo hwrap]
    omega
  have h4 : (pendingColorStep r3.1 i.now).2 =
        [Event.logSetColorReliable r3.1.manualR r3.1.manualG r3.1.manualB,
          Event.write (colorCmd r3.1.manualR r3.1.manualG r3.1.manualB)] ∧
      (pendingColorStep r3.1 i.now).1.pendingColorSend = false ∧
      (pendingColorStep r3.1 i.now).1.pendingFrame
        = colorCmd r3.1.manualR r3.1.manualG r3.1.manualB ∧
      (pendingColorStep r3.1 i.now).1.repeatCount = 2 ∧
      (pendingColorStep r3.1 i.now).1.lastRepeatTime = millis i.now ∧
      (pendingColorStep r3.1 i.now).1.pChar = true ∧
      (pendingColorStep r3.1 i.now).1.isFading = false := by
    rcases pendingColorStep_cases r3.1 i.now with ⟨_, _, _, hq⟩ | ⟨hn, _⟩
    · rw [hq]
      exact ⟨rfl, rfl, pendingFrame_memcpy _ (colorCmd _ _ _) _ rfl rfl, rfl, rfl, q1, q2⟩
    · exact absurd ⟨q4, q1, hel⟩ hn
  obtain ⟨e4, f1, f2, f3, f4, f5, f6⟩ := h4
  generalize hr4 : pendingColorStep r3.1 i.now = r4 at *
  generalize hs4 : r4.1 = s4 at *
  have h5 : (alarmStep s4 i.now i.localTime).2 = [] ∧
      SameRetry s4 (alarmStep s4 i.now i.localTime).1 ∧
      (alarmStep s4 i.now i.localTime).1.pendingColorSend = false ∧
      (alarmStep s4 i.now i.localTime).1.isFading = false := by
    rcases alarmStep_cases s4 i.now i.localTime with
      ⟨_, hq⟩ | ⟨tm, _, _, _, hq⟩ | ⟨tm, _, _, _, hq⟩
    · rw [hq]
      exact ⟨rfl, sameRetry_refl s4, f1, f6⟩
    · rw [hq]
      refine ⟨rfl, dayReset_sameRetry s4 tm, ?_, ?_⟩
      · rcases dayReset_cases s4 tm with hd | hd <;> rw [hd] <;> exact f1
      · rcases dayReset_cases s4 tm with hd | hd <;> rw [hd] <;> exact f6
    · exfalso
      rw [hq] at hal
      simp [alarmTriggers_append, alarmTriggers] at hal
  obtain ⟨e5, ⟨g1, g2, g3, g4, g5⟩, g6, g7⟩ := h5
  generalize alarmStep s4 i.now i.localTime = r5 at *
  rw [rampStep_idle r5.1 i.now g7, e5, e4]
  simp only [List.append_nil, List.filterMap_append, w3, List.nil_append]
  refine ⟨by simp [writtenFrame], by simp, g6, ?_, g4.trans f3, g5.trans f4, g1.trans f5⟩
  rw [sameRetry_pendingFrame ⟨g1, g2, g3, g4, g5⟩]
  exact f2


set_option maxRecDepth 100000 in
/-- C12, as stated, fails in two ways. At the tick at which exactly 150 ms have
elapsed since the instant-on, no `SetColor` is issued (the iteration only
retransmits `PowerOn`) and the color send stays pending; it is issued at the
tick 1 ms later. And when the alarm is enabled and due, its trigger cancels or
overrides the instant-on: triggering at 1050 ms it clears the pending color
send, so `SetColor (255, 255, 220)` is never sent; triggering in the firing
iteration at 1151 ms it replaces the armed retry by `PowerOn`. -/
theorem C12_instant_on_counterexample :
    instantOnState.pendingColorSend = true ∧ instantOnState.pChar = true ∧
    elapsedMs (millis 1150) instantOnState.pendingColorTime = 150 ∧
    pendingColorStep instantOnState 1150 = (instantOnState, []) ∧
    transmitted (loop instantOnState (tickAt 1150)).2 = [powerOnCmd] ∧
    (loop instantOnState (tickAt 1150)).1.pendingColorSend = true ∧
    transmitted (pendingColorStep instantOnState 1151).2 = [colorCmd 255 255 220] ∧
    ¬ (∀ (s : State) (now : Nat), s.pendingColorSend = true → s.pChar = true →
        elapsedMs (millis now) s.pendingColorTime = 150 →
        transmitted (pendingColorStep s now).2 = [colorCmd s.manualR s.manualG s.manualB]) ∧
    instantOnArmed.pendingColorSend = true ∧ instantOnArmed.pChar = true ∧
    transmitted ((runLoop instantOnArmed
      [tickClock 1050 5 7 0, tickAt 1151, tickAt 1300, tickAt 1500]).2.map Prod.snd)
      = [powerOnCmd, colorCmd 0 0 0, powerOnCmd, powerOnCmd, colorCmd 2 0 0] ∧
    (runLoop instantOnArmed
      [tickClock 1050 5 7 0, tickAt 1151, tickAt 1300, tickAt 1500]).1.pendingColorSend = false ∧
    transmitted (loop (runLoop instantOnArmed [tickAt 1050]).1 (tickClock 1151 5 7 0)).2
      = [powerOnCmd, colorCmd 255 255 220, powerOnCmd] ∧
    (loop (runLoop instantOnArmed [tickAt 1050]).1 (tickClock 1151 5 7 0)).1.pendingFrame
      = powerOnCmd := by
  refine ⟨by decide, by decide, by decide, by decide, by decide, by decide, by decide, ?_,
    by decide, by decide, by decide, by decide, by decide, by decide⟩
  intro h
  have h1 := h instantOnState 1150 (by decide) (by decide) (by decide)
  revert h1
  decide

/-- C12, amended: with a link present, `/on` with color `(r, g, b)` at time `t`
cancels a pending wake and a ramp, issues `PowerOn` reliably at `t` and arms
the pending color send. In the iterations up to 150 ms after `t` (150
included) nothing but `PowerOn` is transmitted, whatever the alarm does. When
only iterations follow and the alarm does not trigger, the first iteration at
which more than 150 ms (and less than `2 ^ 32` ms) have elapsed writes
`SetColor (r, g, b)` once, clears the pending color send and arms the retry
(frame, count 2, stamp of that iteration); in the iterations after it, still
without an alarm trigger, the retransmissions carry that frame, are at most
two and come at least 120 ms apart. -/
theorem C12_instant_on (s : State) (r g b t : Nat) (hr : r ≤ 255) (hg : g ≤ 255)
    (hb : b ≤ 255) (hl : s.pChar = true) :
    InstantPending t r g b (handleOn s (some r) (some g) (some b) t).1 ∧
    (handleOn s (some r) (some g) (some b) t).1.pendingFrame = powerOnCmd ∧
    (handleOn s (some r) (some g) (some b) t).1.repeatCount = 2 ∧
    (handleOn s (some r) (some g) (some b) t).1.lastRepeatTime = millis t ∧
    transmitted (handleOn s (some r) (some g) (some b) t).2 = [powerOnCmd] ∧
    (∀ early : List TickIn, List.Pairwise (· ≤ ·) (t :: early.map TickIn.now) →
      (∀ i ∈ early, i.now ≤ t + 150) →
      ∀ f ∈ transmitted
          ((runLoop (handleOn s (some r) (some g) (some b) t).1 early).2.map Prod.snd),
        f = powerOnCmd) ∧
    (∀ (early : List TickIn) (i : TickIn),
      List.Pairwise (· ≤ ·) (t :: early.map TickIn.now) →
      (∀ j ∈ early, j.now ≤ t + 150) → t + 150 < i.now → i.now < t + ULONG_MOD →
      alarmTriggers
        ((runLoop (handleOn s (some r) (some g) (some b) t).1 early).2.map Prod.snd) = 0 →
      alarmTriggers (loop (runLoop (handleOn s (some r) (some g) (some b) t).1 early).1 i).2
        = 0 →
      (loop (runLoop (handleOn s (some r) (some g) (some b) t).1 early).1 i).2.filterMap
          writtenFrame = [colorCmd r g b] ∧
      (loop (runLoop (handleOn s (some r) (some g) (some b) t).1 early).1 i).1.pendingColorSend
        = false ∧
      (loop (runLoop (handleOn s (some r) (some g) (some b) t).1 early).1 i).1.pendingFrame
        = colorCmd r g b ∧
      (loop (runLoop (handleOn s (some r) (some g) (some b) t).1 early).1 i).1.repeatCount
        = 2 ∧
      (loop (runLoop (handleOn s (some r) (some g) (some b) t).1 early).1 i).1.lastRepeatTime
        = millis i.now ∧
      ∀ later : List TickIn, List.Pairwise (· ≤ ·) (i.now :: later.map TickIn.now) →
        alarmTriggers ((runLoop
          (loop (runLoop (handleOn s (some r) (some g) (some b) t).1 early).1 i).1
            later).2.map Prod.snd) = 0 →
        (retransmissions (runLoop
          (loop (runLoop (handleOn s (some r) (some g) (some b) t).1 early).1 i).1
            later).2).length ≤ 2 ∧
        (∀ x ∈ retransmissions (runLoop
          (loop (runLoop (handleOn s (some r) (some g) (some b) t).1 early).1 i).1 later).2,
          x.2 = colorCmd r g b) ∧
        List.Chain (fun a b => a + 120 ≤ b) i.now
          ((retransmissions (runLoop
            (loop (runLoop (handleOn s (some r) (some g) (some b) t).1 early).1 i).1
              later).2).map Prod.fst)) := by
  have hman : setManual s (some (r : Int)) (some (g : Int)) (some (b : Int))
      = { s with manualR := r, manualG := g, manualB := b } := by
    simp [setManual, toU8_natCast, hr, hg, hb]
  have heq := handleOn_eq s (some (r : Int)) (some (g : Int)) (some (b : Int)) t
  rw [hman, hl] at heq
  simp only [if_true] at heq
  have hpend : InstantPending t r g b (handleOn s (some r) (some g) (some b) t).1 := by
    rw [heq]
    exact ⟨rfl, rfl, rfl, rfl, rfl, rfl, rfl, rfl⟩
  have hframe : (handleOn s (some r) (some g) (some b) t).1.pendingFrame = powerOnCmd := by
    rw [heq]
    exact pendingFrame_memcpy _ powerOnCmd _ rfl rfl
  have hcount : (handleOn s (some r) (some g) (some b) t).1.repeatCount = 2 := by rw [heq]
  have hstamp : (handleOn s (some r) (some g) (some b) t).1.lastRepeatTime = millis t := by
    rw [heq]
  have htx : transmitted (handleOn s (some r) (some g) (some b) t).2 = [powerOnCmd] := by
    rw [heq]
    simp [transmitted]
  generalize (handleOn s (some r) (some g) (some b) t).1 = s1 at *
  refine ⟨hpend, hframe, hcount, hstamp, htx, ?_, ?_⟩
  · intro early hs hhi f hf
    have hearly : EarlyInv t t s1 := by
      obtain ⟨p1, p2, p3, p4, p5, _⟩ := hpend
      refine ⟨p1, p2, hframe, fun _ => p5, fun h => ?_⟩
      rw [p3] at h
      exact absurd h (by decide)
    obtain ⟨e, he, hfe⟩ := mem_transmitted hf
    obtain ⟨x, hx, rfl⟩ := List.mem_map.mp he
    exact run_early t early s1 t hearly (le_refl t) hs hhi x hx f hfe
  · intro early i hs hhi h150 hwrap hal0 hal
    have hu := run_instantPending t r g b early s1 t hpend (le_refl t) hs hhi hal0
    obtain ⟨k1, _, k3, k4, k5, k6, k7⟩ :=
      loop_instant_fires t r g b i _ hu (by omega) h150 hwrap hal
    refine ⟨k1, k3, k4, k5, k6, ?_⟩
    intro later hs2 hal2
    have hq2 := run_noAlarm_quiet later _ k3 hal2
    obtain ⟨_, _, i3, i4, i5, i6, _⟩ :=
      run_retry_inv (colorCmd r g b) later _ i.now k7 k4 k6 (by omega) hs2 hq2
    exact ⟨by omega, i4, i6⟩

set_option maxRecDepth 100000 in
/-- C12 for `instantOn (255, 255, 220)` at 1000 ms on a device whose alarm is
enabled for 07:00 while the clock reads 06:59: iterations at 1050 and 1150 ms
send only `PowerOn`, the iteration at 1151 ms writes the color and the
iterations at 1271 and 1400 ms retransmit it. -/
theorem C12_instant_on_witness :
    alarmArmed.pChar = true ∧
    List.Pairwise (· ≤ ·)
      (1000 :: [tickClock 1050 5 6 59, tickClock 1150 5 6 59].map TickIn.now) ∧
    (∀ i ∈ [tickClock 1050 5 6 59, tickClock 1150 5 6 59], i.now ≤ 1000 + 150) ∧
    (∀ f ∈ transmitted ((runLoop instantOnArmed
        [tickClock 1050 5 6 59, tickClock 1150 5 6 59]).2.map Prod.snd), f = powerOnCmd) ∧
    alarmTriggers ((runLoop instantOnArmed
      [tickClock 1050 5 6 59, tickClock 1150 5 6 59]).2.map Prod.snd) = 0 ∧
    alarmTriggers (loop (runLoop instantOnArmed
      [tickClock 1050 5 6 59, tickClock 1150 5 6 59]).1 (tickClock 1151 5 6 59)).2 = 0 ∧
    (loop (runLoop instantOnArmed [tickClock 1050 5 6 59, tickClock 1150 5 6 59]).1
      (tickClock 1151 5 6 59)).2.filterMap writtenFrame = [colorCmd 255 255 220] ∧
    alarmTriggers ((runLoop
      (loop (runLoop instantOnArmed [tickClock 1050 5 6 59, tickClock 1150 5 6 59]).1
        (tickClock 1151 5 6 59)).1
      [tickClock 1200 5 6 59, tickClock 1271 5 6 59, tickClock 1400 5 6 59]).2.map Prod.snd)
      = 0 ∧
    (∀ x ∈ retransmissions (runLoop
      (loop (runLoop instantOnArmed [tickClock 1050 5 6 59, tickClock 1150 5 6 59]).1
        (tickClock 1151 5 6 59)).1
      [tickClock 1200 5 6 59, tickClock 1271 5 6 59, tickClock 1400 5 6 59]).2,
      x.2 = colorCmd 255 255 220) ∧
    retransmissions (runLoop
      (loop (runLoop instantOnArmed [tickClock 1050 5 6 59, tickClock 1150 5 6 59]).1
        (tickClock 1151 5 6 59)).1
      [tickClock 1200 5 6 59, tickClock 1271 5 6 59, tickClock 1400 5 6 59]).2
      = [(1271, colorCmd 255 255 220), (1400, colorCmd 255 255 220)] :=
  ⟨rfl, by decide, by decide,
    (C12_instant_on alarmArmed 255 255 220 1000 (by decide) (by decide) (by decide) rfl).2.2.2.2.2.1
      [tickClock 1050 5 6 59, tickClock 1150 5 6 59] (by decide) (by decide),
    by decide, by decide,
    ((C12_instant_on alarmArmed 255 255 220 1000 (by decide) (by decide) (by decide)
      rfl).2.2.2.2.2.2 [tickClock 1050 5 6 59, tickClock 1150 5 6 59] (tickClock 1151 5 6 59)
      (by decide) (by decide) (by decide) (by decide) (by decide) (by decide)).1,
    by decide,
    (((C12_instant_on alarmArmed 255 255 220 1000 (by decide) (by decide) (by decide)
      rfl).2.2.2.2.2.2 [tickClock 1050 5 6 59, tickClock 1150 5 6 59] (tickClock 1151 5 6 59)
      (by decide) (by decide) (by decide) (by decide) (by decide) (by decide)).2.2.2.2.2
      [tickClock 1200 5 6 59, tickClock 1271 5 6 59, tickClock 1400 5 6 59] (by decide)
      (by decide)).2.1,
    by decide⟩

end LightAlarm
